import Mathlib

/-!
# makegsf: a shallow embedding of `makegsf.c`

The development follows the C source function by function.

* Wide strings (`wchar_t *`) are lists of characters: the characters that stand
  before the terminating NUL.  A buffer holding a wide string is an
  `Option (List Char)`: `none` is the state `data == NULL` that `is_buffer_new`
  tests, `some s` an allocated buffer holding `s` and its terminator.
* Bytes are natural numbers; every store of a wider value into a byte reduces
  it modulo 256, and every value of type `unsigned` is kept modulo `2^32`.
* The capacity of a byte buffer is a `size_t`: its doubling in `expand_buffer`
  and the sum of sizes in `append_buffer` are taken modulo `2^64`.
* `malloc` and `realloc` succeed, and the bytes of a block that the program has
  not written are zero.  `realloc` hands back a block at another address: a
  pointer into the old block no longer reaches the buffer, and what is stored
  through it is lost.
* `FILE *` streams opened for writing are the list of bytes written so far.
* zlib, the C library locale, `iconv_open` and the file system are parameters
  (`Env`).
* Console diagnostics are collected in a log (`Diag`).
* A function that may not return has a result in `Except Stop`; loops that
  may run forever take fuel.
-/

namespace MakeGSF

/-! ## Characters -/

/-- The character `L'\0'`. -/
abbrev NUL : Char := Char.ofNat 0

/-- The character `L'\n'`. -/
abbrev NEWLINE : Char := Char.ofNat 10

/-- The double quote character. -/
abbrev DQUOTE : Char := Char.ofNat 34

/-- The backslash character. -/
abbrev BACKSLASH : Char := Char.ofNat 92

/-- The wide-character classification functions of `<wctype.h>` that depend on
the locale chosen by `setlocale(LC_ALL, "")`. -/
structure Locale where
  iswspace : Char → Bool
  iswalnum : Char → Bool
  iswlower : Char → Bool
  towlower : Char → Char

/-- The function `iswdigit`: the ten decimal digits, in every locale. -/
def iswdigit (ch : Char) : Bool :=
  decide ('0' ≤ ch ∧ ch ≤ '9')

/-- The "C" locale. -/
def c_locale : Locale where
  iswspace := fun ch => decide (ch = ' ' ∨ (9 ≤ ch.toNat ∧ ch.toNat ≤ 13))
  iswalnum := fun ch =>
    decide (('0' ≤ ch ∧ ch ≤ '9') ∨ ('a' ≤ ch ∧ ch ≤ 'z') ∨ ('A' ≤ ch ∧ ch ≤ 'Z'))
  iswlower := fun ch => decide ('a' ≤ ch ∧ ch ≤ 'z')
  towlower := fun ch => if 'A' ≤ ch ∧ ch ≤ 'Z' then Char.ofNat (ch.toNat + 32) else ch

/-! ## The environment -/

/-- What the program takes from outside: the locale, zlib and the file system.

* `deflateInit` is the status `deflateInit` returns (`Z_OK` is `0`);
* `deflate input` is the outcome of the `deflate` loop on `input`: the whole
  compressed stream (`Z_STREAM_END` reached) or the failing status;
* `crc32 bytes` is zlib's `crc32(crc32(0, NULL, 0), bytes, n)`;
* `fopen_rb name` is `none` when `name` cannot be opened for reading, else the
  bytes `fgetc` delivers before `EOF` and whether `ferror` is set afterwards;
* `fopen_wb name` tells whether `name` can be opened for writing;
* `iconv_open to_ from_` tells whether `iconv_open` has a descriptor for the
  conversion to the encoding `to_` from the encoding `from_`. -/
structure Env where
  locale : Locale
  deflateInit : Int
  deflate : List Nat → Except Int (List Nat)
  crc32 : List Nat → Nat
  fopen_rb : List Char → Option (List Nat × Bool)
  fopen_wb : List Char → Bool
  iconv_open : String → String → Bool

/-! ## Diagnostics -/

/-- Token types `TOK_ID`, `TOK_NUM`, `TOK_STR`. -/
inductive TokType where
  | TOK_ID
  | TOK_NUM
  | TOK_STR
  deriving DecidableEq, Repr

/-- The messages of `err`, `werr`, `warn` and `wprintf`, one constructor for
each format string, with the arguments that the format prints. -/
inductive Diag where
  | string_no_end_quote
  | escaping_newlines_unsupported
  | cant_parse_digit (ch : Char)
  | expected_got (expected got : TokType)
  | tag_name_blank
  | tag_name_reserved (name : List Char)
  | invalid_tag_name (name : List Char)
  | zlib_init_error (status : Int)
  | zlib_compression_error (status : Int)
  | gsflib_already_defined
  | cant_open_for_reading (name : List Char)
  | error_while_reading (name : List Char)
  | cant_open_gsflib_for_writing (name : List Char)
  | gsflib_not_defined
  | template_not_defined
  | incomplete_specifier
  | title_not_defined
  | artist_not_defined
  | invalid_specifier (ch : Char)
  | cant_open_for_writing (name : List Char)
  | cant_get_gsflib_filename
  | cant_get_source_filename
  | cant_get_template
  | cant_get_offset
  | cant_get_song_number
  | cant_get_song_id
  | invalid_step
  | cant_get_range_end
  | cant_get_range_start
  | unrecognized_command (name : List Char)
  | unsupported_conversion
  | invalid_character (index : Nat)
  | incomplete_character (index : Nat)
  | conversion_failure (en : Int)
  deriving DecidableEq, Repr

/-! ## Dynamically allocated data buffer (bytes) -/

/-- The structure `buffer_t` for a buffer of bytes: `data` is `none` for `NULL`,
else the allocated block (`max` bytes, of which the first `size` are in use). -/
structure buffer_t where
  data : Option (List Nat)
  size : Nat
  max : Nat
  deriving DecidableEq, Repr

/-- The initialiser `DEFAULT_BUFFER_T`. -/
def DEFAULT_BUFFER_T : buffer_t := ⟨none, 0, 0⟩

def is_buffer_new (buf : buffer_t) : Bool :=
  buf.data.isNone

/-- The function `init_buffer`; the bytes `malloc` returns are modelled as zero. -/
def init_buffer (_buf : buffer_t) (initial_max : Nat) : buffer_t :=
  ⟨some (List.replicate initial_max 0), 0, initial_max⟩

def init_new_buffer (buf : buffer_t) (initial_max : Nat) : buffer_t :=
  if is_buffer_new buf then init_buffer buf initial_max else buf

/-- The loop `while (buf->max < new_max) buf->max *= 2;` of `expand_buffer`;
`max` is a `size_t` and the product is taken modulo `2^64`.
With `fuel = new_max` the loop has ended whenever it ends at all: a positive
`max` reaches `new_max` in fewer than `new_max` doublings or becomes `0` within
64 of them, and `max = 0` stays `0`.  The result `none` is the endless loop. -/
def expand_max : Nat → Nat → Nat → Option Nat
  | 0, max, new_max => if max < new_max then none else some max
  | fuel + 1, max, new_max =>
    if max < new_max then expand_max fuel ((max * 2) % 2 ^ 64) new_max else some max

/-- The function `expand_buffer`; `realloc` keeps the old bytes, the new ones are
modelled as zero. -/
def expand_buffer (buf : buffer_t) (new_max : Nat) : Option buffer_t :=
  match expand_max new_max buf.max new_max with
  | none => none
  | some m =>
    if m > buf.max then
      some { buf with
        data := buf.data.map (fun d => d ++ List.replicate (m - d.length) 0)
        max := m }
    else some buf

/-- The function `set_buffer`; `data` is the memory the argument points to, of
which `size` bytes are copied. -/
def set_buffer (buf : buffer_t) (data : List Nat) (size : Nat) : Option buffer_t :=
  let buf := init_new_buffer buf size
  match expand_buffer buf size with
  | none => none
  | some b =>
    some { b with data := b.data.map (fun d => data.take size ++ d.drop size), size := size }

/-- The function `append_buffer`; the sum `buf->size + size` is a `size_t`. -/
def append_buffer (buf : buffer_t) (data : List Nat) (size : Nat) : Option buffer_t :=
  match expand_buffer buf ((buf.size + size) % 2 ^ 64) with
  | none => none
  | some b =>
    some { b with
      data := b.data.map (fun d => d.take b.size ++ data.take size ++ d.drop (b.size + size))
      size := (b.size + size) % 2 ^ 64 }

/-- The function `append_buffer_char`. -/
def append_buffer_char (buf : buffer_t) (ch : Nat) : Option buffer_t :=
  match expand_buffer buf (buf.size + 1) with
  | none => none
  | some b =>
    some { b with data := b.data.map (fun d => d.set b.size (ch % 256)), size := b.size + 1 }

/-! ## Multi-byte I/O -/

/-- The function `fputc` on a stream that accepts the byte. -/
def fputc (v : Nat) (f : List Nat) : List Nat :=
  f ++ [v % 256]

/-- The loop of `fput32`: `b` bytes are still to be written. -/
def fput32_loop : Nat → Nat → List Nat → List Nat
  | 0, _, f => f
  | b + 1, v, f => fput32_loop b (v >>> 8) (fputc v f)

/-- The function `fput32`; the parameter is an `unsigned`. -/
def fput32 (v : Nat) (f : List Nat) : List Nat :=
  fput32_loop 4 (v % 2 ^ 32) f

/-- The function `fwrite(data, 1, size, f)`. -/
def fwrite (data : List Nat) (f : List Nat) : List Nat :=
  f ++ data

/-- The function `write32` at offset `p` of the block `mem`; the parameter `v`
is an `unsigned`. -/
def write32 (mem : List Nat) (p : Nat) (v : Nat) : List Nat :=
  let v := v % 2 ^ 32
  (((mem.set p (v % 256)).set (p + 1) ((v >>> 8) % 256)).set (p + 2)
    ((v >>> 16) % 256)).set (p + 3) ((v >>> 24) % 256)

/-- The four bytes of the little-endian encoding of `v` modulo `2^32`. -/
def le32 (v : Nat) : List Nat :=
  [v % 256, v / 256 % 256, v / 65536 % 256, v / 16777216 % 256]

/-- The value of four bytes read as a little-endian number. -/
def le32_decode (bs : List Nat) : Nat :=
  bs.getD 0 0 + 256 * bs.getD 1 0 + 65536 * bs.getD 2 0 + 16777216 * bs.getD 3 0

/-! ## Tags -/

/-- The structure `gsf_tag_t`: two buffers that hold wide strings. -/
structure gsf_tag_t where
  name_buf : Option (List Char)
  value_buf : Option (List Char)
  deriving DecidableEq, Repr

/-- The scan of `get_gsf_tag` from entry `i` on; the result is the index of the
entry found (the C function returns a pointer to it). -/
def get_gsf_tag_from (name : List Char) : List gsf_tag_t → Nat → Option Nat
  | [], _ => none
  | cmp_tag :: rest, i =>
    if cmp_tag.name_buf = some name then some i
    else get_gsf_tag_from name rest (i + 1)

/-- The function `get_gsf_tag`. -/
def get_gsf_tag (gsf_tag_buf : List gsf_tag_t) (name : List Char) : Option Nat :=
  get_gsf_tag_from name gsf_tag_buf 0

/-- The function `get_gsf_tag_value`. -/
def get_gsf_tag_value (gsf_tag_buf : List gsf_tag_t) (name : List Char) :
    Option (List Char) :=
  match get_gsf_tag gsf_tag_buf name with
  | some i =>
    match gsf_tag_buf.get? i with
    | some found_tag => found_tag.value_buf
    | none => none
  | none => none

/-- Replace entry `i` of the tag list by `f` of it. -/
def update_tag (f : gsf_tag_t → gsf_tag_t) : List gsf_tag_t → Nat → List gsf_tag_t
  | [], _ => []
  | t :: rest, 0 => f t :: rest
  | t :: rest, i + 1 => t :: update_tag f rest i

/-- The function `set_gsf_tag`; `value = none` is the `NULL` pointer. -/
def set_gsf_tag (gsf_tag_buf : List gsf_tag_t) (name : List Char)
    (value : Option (List Char)) : List gsf_tag_t :=
  let found_tag := get_gsf_tag gsf_tag_buf name
  let value_len := match value with
    | some v => v.length
    | none => 0
  match found_tag with
  | some i =>
    if value_len ≠ 0 then
      update_tag (fun t => { t with value_buf := value }) gsf_tag_buf i
    else
      update_tag (fun t => { t with value_buf := none }) gsf_tag_buf i
  | none =>
    if value_len ≠ 0 then
      gsf_tag_buf ++ [{ name_buf := some name, value_buf := value }]
    else gsf_tag_buf

/-! ## Iconv interface -/

/-- The UTF-8 encoding of one character, as `iconv` from `wchar_t` produces it. -/
def utf8_char (ch : Char) : List Nat :=
  let v := ch.toNat
  if v < 0x80 then [v]
  else if v < 0x800 then [0xC0 + v / 64, 0x80 + v % 64]
  else if v < 0x10000 then [0xE0 + v / 4096, 0x80 + v / 64 % 64, 0x80 + v % 64]
  else [0xF0 + v / 262144, 0x80 + v / 4096 % 64, 0x80 + v / 64 % 64, 0x80 + v % 64]

/-- The values of `errno` that `iconv_2` tells apart when `iconv` has returned
`(size_t)-1`. -/
inductive iconv_errno where
  | E2BIG
  | EILSEQ
  | EINVAL
  | other (en : Int)
  deriving DecidableEq, Repr

/-- What one call of `iconv` has done: `src_ptr` is the input not yet converted,
`written` the bytes stored through `dest_ptr`, in order, and `errno` is `none`
when the call has not returned `(size_t)-1`. -/
structure iconv_result where
  src_ptr : List Char
  written : List Nat
  errno : Option iconv_errno
  deriving DecidableEq, Repr

/-- One call `iconv(ic, &src_ptr, &src_left, &dest_ptr, &dest_left)` of a
descriptor to UTF-8 from `wchar_t`: the characters are converted one after the
other for as long as the encoding of the next one fits into the `dest_left`
bytes that are left; with input left over the call fails with `E2BIG`.
A character of the model is a Unicode scalar value, which has an encoding, and
the input is a whole number of `wchar_t`: this conversion does not fail with
`EILSEQ` or `EINVAL`. -/
def iconv : List Char → Nat → iconv_result
  | [], _ => ⟨[], [], none⟩
  | ch :: rest, dest_left =>
    if (utf8_char ch).length ≤ dest_left then
      let r := iconv rest (dest_left - (utf8_char ch).length)
      ⟨r.src_ptr, utf8_char ch ++ r.written, r.errno⟩
    else ⟨ch :: rest, [], some iconv_errno.E2BIG⟩

/-- A store of `bytes` through `dest_ptr`.  The pointer is `some p` when it
points at offset `p` of the block of `buf`, and `none` when it points into a
block that `realloc` has released: what is stored through it is lost. -/
def store_bytes (buf : buffer_t) (dest_ptr : Option Nat) (bytes : List Nat) : buffer_t :=
  match dest_ptr with
  | none => buf
  | some p =>
    { buf with data := buf.data.map (fun d => d.take p ++ bytes ++ d.drop (p + bytes.length)) }

/-- The loop `while (1)` of `iconv_2`, for the conversion to UTF-8 from
`wchar_t`; the result is the value returned, the buffer and the log.
`src_size` is the size of the whole input in bytes and `dest_initial_size` the
size of the buffer at the call.

After `E2BIG` the buffer is enlarged by `expand_buffer`, which moves the block,
and `dest_ptr` is not set again: it is `none` from then on.

The first argument bounds the number of calls of `iconv`.  The capacity doubles
at every call but the last, so that with `66` calls the loop has ended whenever
it ends at all: it does not end when `expand_buffer` leaves the capacity as it
is, which takes a capacity of `0`, or of `2^63` bytes and more.  The result is
then the buffer as it stands. -/
def iconv_2_loop (src_size dest_initial_size : Nat) :
    Nat → buffer_t → List Char → Option Nat → Nat → Nat → List Diag →
      Nat × buffer_t × List Diag
  | 0, dest_buf, _, _, _, _, out => (0, dest_buf, out)
  | fuel + 1, dest_buf, src_ptr, dest_ptr, dest_left, dest_initial_left, out =>
    let r := iconv src_ptr dest_left
    let dest_buf := store_bytes dest_buf dest_ptr r.written
    let dest_ptr := dest_ptr.map (fun p => p + r.written.length)
    let dest_left := dest_left - r.written.length
    match r.errno with
    | some iconv_errno.E2BIG =>
      let dest_buf := { dest_buf with size := dest_buf.size + (dest_initial_left - dest_left) }
      let old := dest_buf.max
      match expand_buffer dest_buf ((dest_buf.max * 2) % 2 ^ 64) with
      | none => (0, dest_buf, out)
      | some dest_buf =>
        let dest_ptr := if dest_buf.max > old then none else dest_ptr
        let dest_left := dest_left + (dest_buf.max - old)
        iconv_2_loop src_size dest_initial_size fuel dest_buf r.src_ptr dest_ptr dest_left
          dest_left out
    | some iconv_errno.EILSEQ =>
      (0, dest_buf, out ++ [Diag.invalid_character (src_size - 4 * r.src_ptr.length)])
    | some iconv_errno.EINVAL =>
      (0, dest_buf, out ++ [Diag.incomplete_character (src_size - 4 * r.src_ptr.length)])
    | some (iconv_errno.other en) => (0, dest_buf, out ++ [Diag.conversion_failure en])
    | none =>
      let dest_buf := { dest_buf with size := dest_buf.size + (dest_initial_left - dest_left) }
      (dest_buf.size - dest_initial_size, dest_buf, out)

/-- The function `iconv_2`, for the conversion to UTF-8 from `wchar_t` of the
wide string `src` (`src_size` is four times its length); the result is the
value returned, the buffer `dest_buf` and the log.  In every buffer the program
hands over, `size` is at most `max`. -/
def iconv_2 (env : Env) (to_ from_ : String) (dest_buf : buffer_t) (src : List Char)
    (out : List Diag) : Nat × buffer_t × List Diag :=
  let dest_buf := init_new_buffer dest_buf 0x200
  if env.iconv_open to_ from_ = false then (0, dest_buf, out ++ [Diag.unsupported_conversion])
  else
    let dest_left := dest_buf.max - dest_buf.size
    iconv_2_loop (4 * src.length) dest_buf.size 66 dest_buf src (some dest_buf.size)
      dest_left dest_left out

/-! ## Generic gsf-related -/

/-- The bytes of an ASCII string literal. -/
def ascii (s : String) : List Nat :=
  s.toList.map Char.toNat

/-- The characters `wcschr(L"<>:\"/\\|?*", ch)` finds. -/
def illegal_filename_chars : List Char :=
  ['<', '>', ':', DQUOTE, '/', BACKSLASH, '|', '?', '*']

/-- The first part of `get_os_filename`: the string `filename` holds after the
loop that removes the characters not valid in a file name.  The conversion to
the file-name encoding of the system that follows is left out: a file is
named by this string. -/
def get_os_filename : List Char → List Char
  | [] => []
  | ch :: rest =>
    if ch = NUL then []
    else if ch.toNat < 0x20 ∨ ch ∈ illegal_filename_chars then get_os_filename rest
    else ch :: get_os_filename rest

/-- The function `write_gsf_data_to_file`: the stream `f` and the log afterwards.
`data` is the block of memory and `size` the number of bytes of it to compress;
`zs.avail_in` is a 32-bit `uInt`. -/
def write_gsf_data_to_file (env : Env) (f : List Nat) (data : List Nat) (size : Nat)
    (out : List Diag) : List Nat × List Diag :=
  if env.deflateInit ≠ 0 then (f, out ++ [Diag.zlib_init_error env.deflateInit])
  else
    match env.deflate ((data.take size).take (size % 2 ^ 32)) with
    | .error status => (f, out ++ [Diag.zlib_compression_error status])
    | .ok out_buf =>
      let crc := env.crc32 out_buf
      let f := fputc ('P').toNat f
      let f := fputc ('S').toNat f
      let f := fputc ('F').toNat f
      let f := fputc 0x22 f
      let f := fput32 0 f
      let f := fput32 out_buf.length f
      let f := fput32 crc f
      let f := fwrite out_buf f
      (f, out)

/-- The inner loop of `write_gsf_tags_to_file` over the bytes of the value. -/
def write_tag_value (out_name : List Nat) : List Nat → List Nat → List Nat
  | [], f => f
  | ch :: rest, f =>
    if ch = 10 then
      write_tag_value out_name rest (fputc ('=').toNat (fwrite out_name (fputc 10 f)))
    else write_tag_value out_name rest (fputc ch f)

/-- The bytes `data[0]` to `data[size - 1]` of a buffer. -/
def buffer_bytes (buf : buffer_t) : List Nat :=
  (buf.data.getD []).take buf.size

/-- What `write_gsf_tags_to_file` leaves behind: the stream `f`, its static
buffers `out_name_buf` and `out_value_buf`, and the log. -/
structure tags_written where
  f : List Nat
  out_name_buf : buffer_t
  out_value_buf : buffer_t
  out : List Diag
  deriving DecidableEq, Repr

/-- The outer loop of `write_gsf_tags_to_file` over the entries of the store.
The static buffers `out_name_buf` and `out_value_buf` keep their block and
their capacity from one entry to the next and from one call to the next. -/
def write_gsf_tags_loop (env : Env) :
    List gsf_tag_t → buffer_t → buffer_t → List Nat → List Diag → tags_written
  | [], out_name_buf, out_value_buf, f, out => ⟨f, out_name_buf, out_value_buf, out⟩
  | cmp_tag :: rest, out_name_buf, out_value_buf, f, out =>
    match cmp_tag.name_buf, cmp_tag.value_buf with
    | some name, some value =>
      let out_name_buf := { out_name_buf with size := 0 }
      let out_value_buf := { out_value_buf with size := 0 }
      let rn := iconv_2 env "UTF-8" "wchar_t" out_name_buf name out
      let out_name_buf := rn.2.1
      let rv := iconv_2 env "UTF-8" "wchar_t" out_value_buf value rn.2.2
      let out_value_buf := rv.2.1
      let f := fwrite (buffer_bytes out_name_buf) f
      let f := fputc ('=').toNat f
      let f := write_tag_value (buffer_bytes out_name_buf) (buffer_bytes out_value_buf) f
      let f := fputc 10 f
      write_gsf_tags_loop env rest out_name_buf out_value_buf f rv.2.2
    | _, _ => write_gsf_tags_loop env rest out_name_buf out_value_buf f out

/-- The function `write_gsf_tags_to_file`. -/
def write_gsf_tags_to_file (env : Env) (out_name_buf out_value_buf : buffer_t)
    (gsf_tag_buf : List gsf_tag_t) (f : List Nat) (out : List Diag) : tags_written :=
  let r := write_gsf_tags_loop env gsf_tag_buf out_name_buf out_value_buf
    (fwrite (ascii "[TAG]") f) out
  { r with f := fwrite (ascii "utf8=1") r.f }

/-! ## Global variables -/

/-- The global variables, the static variables of `parse_one_token`, and what
the program has printed and written.

* `line` is `parse_one_token`'s `line + index`: the part of the line not yet
  read, `none` for `line == NULL`;
* `out` is the log of diagnostics;
* `files` lists the files opened for writing, in order, each with the bytes
  written to it;
* `out_name_buf` and `out_value_buf` are the static buffers of
  `write_gsf_tags_to_file`. -/
structure State where
  line : Option (List Char)
  entry_point : Nat
  filename_template_buf : Option (List Char)
  minigsf_offset : Nat
  song_number : Nat
  song_id : Nat
  gsf_tag_buf : List gsf_tag_t
  out : List Diag
  files : List (List Char × List Nat)
  out_name_buf : buffer_t
  out_value_buf : buffer_t
  deriving DecidableEq, Repr

/-- The state at the start of `main`. -/
def initial_state : State where
  line := none
  entry_point := 0x8000000
  filename_template_buf := none
  minigsf_offset := 0
  song_number := 1
  song_id := 0
  gsf_tag_buf := []
  out := []
  files := []
  out_name_buf := DEFAULT_BUFFER_T
  out_value_buf := DEFAULT_BUFFER_T

/-- All `unsigned` globals hold 32-bit values. -/
def State.wf (st : State) : Prop :=
  st.entry_point < 2 ^ 32 ∧ st.minigsf_offset < 2 ^ 32 ∧ st.song_number < 2 ^ 32 ∧
    st.song_id < 2 ^ 32

/-- Why a run has no final state. -/
inductive Stop where
  | no_return
  | out_of_fuel
  deriving DecidableEq, Repr

/-! ## Script parsing -/

/-- The structure `token_t`: the type of a token with its value. -/
inductive token_t where
  | ID (text : List Char)
  | NUM (value : Nat)
  | STR (text : List Char)
  deriving DecidableEq, Repr

/-- The field `type` of a token. -/
def token_t.type : token_t → TokType
  | .ID _ => .TOK_ID
  | .NUM _ => .TOK_NUM
  | .STR _ => .TOK_STR

/-- The loop of `parse_one_token` that skips leading whitespace: `none` at the
end of the line or at a comment, else the line from its first other character. -/
def skip_whitespace (lc : Locale) : List Char → Option (List Char)
  | [] => none
  | ch :: rest =>
    if lc.iswspace ch then skip_whitespace lc rest
    else if ch = NUL ∨ ch = '#' then none
    else some (ch :: rest)

/-- The loop of `parse_one_token` that reads a string, started behind the
opening quote: the text read so far is `string_buf`.  The result is the text
with what follows the closing quote, or the error reported. -/
def parse_string : List Char → List Char → Except Diag (List Char × List Char)
  | [], _ => .error Diag.string_no_end_quote
  | [ch], string_buf =>
    if ch = NUL then .error Diag.string_no_end_quote
    else if ch = DQUOTE then .ok (string_buf, [])
    else if ch = BACKSLASH then .error Diag.escaping_newlines_unsupported
    else .error Diag.string_no_end_quote
  | ch :: ch2 :: rest, string_buf =>
    if ch = NUL then .error Diag.string_no_end_quote
    else if ch = DQUOTE then .ok (string_buf, ch2 :: rest)
    else if ch = BACKSLASH then
      if ch2 = NUL then .error Diag.escaping_newlines_unsupported
      else parse_string rest (string_buf ++ [if ch2 = 'n' then NEWLINE else ch2])
    else parse_string (ch2 :: rest) (string_buf ++ [ch])

/-- The loop of `parse_one_token` that reads the digits of a number.  The
variable `out` is an `intptr_t`, kept here as its 64-bit pattern.  The result
is `out`, `error`, the messages printed and the rest of the line. -/
def parse_number (lc : Locale) (hex : Bool) :
    List Char → Nat → Nat → List Diag → Nat × Nat × List Diag × List Char
  | [], out, error, msgs => (out, error, msgs, [])
  | ch :: rest, out, error, msgs =>
    if lc.iswspace ch ∨ ch = NUL ∨ ch = '#' then (out, error, msgs, ch :: rest)
    else
      let r : Nat × Nat × List Diag :=
        if '0' ≤ ch ∧ ch ≤ '9' then (ch.toNat - ('0').toNat, error, msgs)
        else if hex = true ∧ 'A' ≤ ch ∧ ch ≤ 'F' then
          (ch.toNat - ('A').toNat + 0x0a, error, msgs)
        else if hex = true ∧ 'a' ≤ ch ∧ ch ≤ 'f' then
          (ch.toNat - ('a').toNat + 0x0a, error, msgs)
        else (0, error + 1, msgs ++ [Diag.cant_parse_digit ch])
      let digit := r.1
      let out := if hex then ((out <<< 4) % 2 ^ 64) ||| digit else (out * 10 + digit) % 2 ^ 64
      parse_number lc hex rest out r.2.1 r.2.2

/-- The loop of `parse_one_token` that reads an identifier: its text and the
rest of the line, which starts with the character that ended it. -/
def parse_identifier (lc : Locale) : List Char → List Char × List Char
  | [] => ([], [])
  | ch :: rest =>
    if lc.iswspace ch ∨ ch = NUL ∨ ch = '#' then ([], ch :: rest)
    else
      let r := parse_identifier lc rest
      (ch :: r.1, r.2)

/-- The function `parse_one_token`; `line_start = none` is the `NULL` argument. -/
def parse_one_token (env : Env) (line_start : Option (List Char)) (st : State) :
    Option token_t × State :=
  let st := match line_start with
    | some l => { st with line := some l }
    | none => st
  match st.line with
  | none => (none, st)
  | some line =>
    match skip_whitespace env.locale line with
    | none => (none, { st with line := none })
    | some [] => (none, { st with line := none })
    | some (ch :: rest) =>
      if ch = DQUOTE then
        match parse_string rest [] with
        | .error msg => (none, { st with line := none, out := st.out ++ [msg] })
        | .ok (text, rest) => (some (token_t.STR text), { st with line := some rest })
      else if ch = '$' ∨ iswdigit ch = true then
        let hex : Bool := decide (ch = '$' ∨ (ch = '0' ∧ rest.head? = some 'x'))
        let digits :=
          if ch = '$' then rest
          else if ch = '0' ∧ rest.head? = some 'x' then rest.drop 1
          else ch :: rest
        let r := parse_number env.locale hex digits 0 0 []
        if r.2.1 ≠ 0 then (none, { st with line := none, out := st.out ++ r.2.2.1 })
        else (some (token_t.NUM r.1), { st with line := some r.2.2.2, out := st.out ++ r.2.2.1 })
      else
        let r := parse_identifier env.locale (ch :: rest)
        (some (token_t.ID r.1), { st with line := some r.2 })

/-- The function `parse_one_token_type`. -/
def parse_one_token_type (env : Env) (line_start : Option (List Char))
    (expected_type : TokType) (st : State) : Option token_t × State :=
  match parse_one_token env line_start st with
  | (none, st) => (none, st)
  | (some tok, st) =>
    if tok.type ≠ expected_type then
      (none, { st with out := st.out ++ [Diag.expected_got expected_type tok.type] })
    else (some tok, st)

/-- The text of a string or identifier token (`tok->value` as `wchar_t *`). -/
def token_t.text : token_t → List Char
  | .ID t => t
  | .STR t => t
  | .NUM _ => []

/-- The value of a number token (`(intptr_t)tok->value`). -/
def token_t.number : token_t → Nat
  | .NUM v => v
  | _ => 0

/-! ## Tags, continued -/

/-- The loop of `gsf_tag_name_ok`: the number of bad characters and the name
with every character that is not lowercase replaced by its `towlower`. -/
def gsf_tag_name_scan (lc : Locale) : List Char → Nat × List Char
  | [] => (0, [])
  | ch :: rest =>
    let r := gsf_tag_name_scan lc rest
    ((if lc.iswalnum ch = false ∧ ch ≠ '_' then 1 else 0) + r.1,
      (if lc.iswlower ch = false then lc.towlower ch else ch) :: r.2)

/-- The function `gsf_tag_name_ok`: the verdict, the name as it is left in the
caller's buffer, and the log. -/
def gsf_tag_name_ok (lc : Locale) (name : List Char) (out : List Diag) :
    Bool × List Char × List Diag :=
  let r1 : Nat × List Diag :=
    if name.length = 0 then (1, out ++ [Diag.tag_name_blank]) else (0, out)
  let r2 : Nat × List Diag :=
    if name.head? = some '_' ∨ name = "filedir".toList ∨ name = "filename".toList ∨
        name = "fileext".toList then
      (r1.1 + 1, r1.2 ++ [Diag.tag_name_reserved name])
    else r1
  let scan := gsf_tag_name_scan lc name
  if scan.1 ≠ 0 then (false, scan.2, r2.2 ++ [Diag.invalid_tag_name scan.2])
  else if r2.1 ≠ 0 then (false, scan.2, r2.2)
  else (true, scan.2, r2.2)

/-- The function `parse_set_gsf_tag`. -/
def parse_set_gsf_tag (env : Env) (name : List Char) (st : State) : Option token_t × State :=
  match parse_one_token_type env none .TOK_STR st with
  | (some value_tok, st) =>
    (some value_tok, { st with gsf_tag_buf := set_gsf_tag st.gsf_tag_buf name (some value_tok.text) })
  | (none, st) => (none, { st with gsf_tag_buf := set_gsf_tag st.gsf_tag_buf name none })

/-- The function `parse_set_gsf_tag_optional`. -/
def parse_set_gsf_tag_optional (env : Env) (name : List Char) (st : State) :
    Option token_t × State :=
  match parse_one_token_type env none .TOK_STR st with
  | (some value_tok, st) =>
    (some value_tok, { st with gsf_tag_buf := set_gsf_tag st.gsf_tag_buf name (some value_tok.text) })
  | (none, st) => (none, st)

/-! ## gsflib-related -/

/-- The loop of `make_gsflib` that appends every byte `fgetc` delivers. -/
def read_into_buffer : List Nat → buffer_t → Option buffer_t
  | [], in_buf => some in_buf
  | ch :: rest, in_buf =>
    match append_buffer_char in_buf ch with
    | none => none
    | some b => read_into_buffer rest b

/-- The part of `make_gsflib` that fills `in_buf` from the bytes of the source
file: the block of memory and the size handed to `write_gsf_data_to_file`.  The
static `in_buf` is new at every call, as every path that allocates it frees it. -/
def make_gsflib_in_buf (entry_point : Nat) (bytes : List Nat) : Option buffer_t :=
  let in_buf := init_new_buffer DEFAULT_BUFFER_T 0x10000
  let in_buf := { in_buf with data := in_buf.data.map (fun d => write32 d 0 entry_point) }
  let in_buf := { in_buf with data := in_buf.data.map (fun d => write32 d 4 entry_point) }
  let in_buf := { in_buf with size := 0xc }
  match read_into_buffer bytes in_buf with
  | none => none
  | some in_buf =>
    some { in_buf with data := in_buf.data.map (fun d => write32 d 8 (in_buf.size - 0xc)) }

/-- The function `make_gsflib`.  With the state it returns the string `outname`
points to afterwards: `get_os_filename` strips it in place. -/
def make_gsflib (env : Env) (st : State) (inname outname : List Char) :
    Except Stop (State × List Char) :=
  if (get_gsf_tag st.gsf_tag_buf "_lib".toList).isSome then
    .ok ({ st with out := st.out ++ [Diag.gsflib_already_defined] }, outname)
  else
    let inname := get_os_filename inname
    match env.fopen_rb inname with
    | none => .ok ({ st with out := st.out ++ [Diag.cant_open_for_reading inname] }, outname)
    | some (bytes, ferror) =>
      match make_gsflib_in_buf st.entry_point bytes with
      | none => .error Stop.no_return
      | some in_buf =>
        let out := if ferror then st.out ++ [Diag.error_while_reading inname] else st.out
        let outname := get_os_filename outname
        if env.fopen_wb outname = false then
          .ok ({ st with out := out ++ [Diag.cant_open_gsflib_for_writing outname] }, outname)
        else
          let r := write_gsf_data_to_file env [] (in_buf.data.getD []) in_buf.size out
          .ok ({ st with out := r.2, files := st.files ++ [(outname, r.1)] }, outname)

/-! ## minigsf-related -/

/-- The call `swprintf(out_buf, 0x10, L"%0*u", number, value)`: the text written,
or `none` when it does not fit in sixteen wide characters with its terminator
and `swprintf` returns a negative number.  The `unsigned` width is read as an
`int`: from `2^31` on it is negative, which asks for left justification and
blank padding to its absolute value. -/
def swprintf_0u (number : Nat) (value : Nat) : Option (List Char) :=
  let digits := Nat.toDigits 10 value
  let text :=
    if number < 2 ^ 31 then List.replicate (number - digits.length) '0' ++ digits
    else digits ++ List.replicate (2 ^ 32 - number - digits.length) ' '
  if text.length < 0x10 then some text else none

/-- The outcome of the loop of `make_minigsf` that expands the template. -/
inductive Expansion where
  | done (filename_buf : List Char) (out : List Diag)
  | failed (out : List Diag)
  | no_return
  deriving DecidableEq, Repr

/-- The loop of `make_minigsf` that transforms the filename template.  The first
argument is `none` in the outer loop and `some number` in the inner loop, behind
a `%`.  When `swprintf` fails, `written` is `(size_t)-1` and `append_buffer` is
asked for nearly `2^64` bytes: it does not return. -/
def expand_template (st : State) :
    Option Nat → List Char → List Char → List Diag → Expansion
  | none, [], filename_buf, out => .done filename_buf out
  | none, ch :: rest, filename_buf, out =>
    if ch = NUL then .done filename_buf out
    else if ch = '%' then expand_template st (some 0) rest filename_buf out
    else expand_template st none rest (filename_buf ++ [ch]) out
  | some _, [], _, out => .failed (out ++ [Diag.incomplete_specifier])
  | some number, ch :: rest, filename_buf, out =>
    if ch = NUL then .failed (out ++ [Diag.incomplete_specifier])
    else if iswdigit ch then
      let digit := ch.toNat - ('0').toNat
      expand_template st (some ((number * 10 + digit) % 2 ^ 32)) rest filename_buf out
    else if ch = 'n' then
      match swprintf_0u number st.song_number with
      | none => .no_return
      | some text => expand_template st none rest (filename_buf ++ text) out
    else if ch = 'i' then
      match swprintf_0u number st.song_id with
      | none => .no_return
      | some text => expand_template st none rest (filename_buf ++ text) out
    else if ch = 't' then
      match get_gsf_tag_value st.gsf_tag_buf "title".toList with
      | some value => expand_template st none rest (filename_buf ++ value) out
      | none => expand_template st none rest filename_buf (out ++ [Diag.title_not_defined])
    else if ch = 'a' then
      match get_gsf_tag_value st.gsf_tag_buf "artist".toList with
      | some value => expand_template st none rest (filename_buf ++ value) out
      | none => expand_template st none rest filename_buf (out ++ [Diag.artist_not_defined])
    else .failed (out ++ [Diag.invalid_specifier ch])

/-- The sixteen bytes `program_data` of `make_minigsf`. -/
def minigsf_program_data (st : State) : List Nat :=
  let program_data := List.replicate 0x10 0
  let program_data := write32 program_data 0 st.entry_point
  let program_data := write32 program_data 4 st.minigsf_offset
  let program_data := write32 program_data 8 4
  let program_data := write32 program_data 0xc st.song_id
  program_data

/-- The function `make_minigsf`. -/
def make_minigsf (env : Env) (st : State) : Except Stop State :=
  if (get_gsf_tag st.gsf_tag_buf "_lib".toList).isNone then
    .ok { st with out := st.out ++ [Diag.gsflib_not_defined] }
  else
    match st.filename_template_buf with
    | none => .ok { st with out := st.out ++ [Diag.template_not_defined] }
    | some filename_template =>
      match expand_template st none filename_template [] st.out with
      | .no_return => .error Stop.no_return
      | .failed out => .ok { st with out := out }
      | .done filename_buf out =>
        let filename := get_os_filename filename_buf
        if env.fopen_wb filename = false then
          .ok { st with out := out ++ [Diag.cant_open_for_writing filename] }
        else
          let program_data := minigsf_program_data st
          let r := write_gsf_data_to_file env [] program_data 0x10 out
          let t := write_gsf_tags_to_file env st.out_name_buf st.out_value_buf
            st.gsf_tag_buf r.1 r.2
          .ok { st with
            out := t.out
            files := st.files ++ [(filename, t.f)]
            song_number := (st.song_number + 1) % 2 ^ 32
            out_name_buf := t.out_name_buf
            out_value_buf := t.out_value_buf }

/-! ## Main -/

/-- The function `wcscasecmp`; the end of a string reads as NUL, and
`towlower(L'\0')` is NUL. -/
def wcscasecmp (lc : Locale) : List Char → List Char → Int
  | [], [] => 0
  | [], c2 :: _ => 0 - ((lc.towlower c2).toNat : Int)
  | c1 :: _, [] => ((lc.towlower c1).toNat : Int)
  | c1 :: r1, c2 :: r2 =>
    if lc.towlower c1 ≠ lc.towlower c2 then
      ((lc.towlower c1).toNat : Int) - ((lc.towlower c2).toNat : Int)
    else if lc.towlower c1 = NUL then 0
    else wcscasecmp lc r1 r2

/-- The branch `MakeGSFLib` of `main`. -/
def main_MakeGSFLib (env : Env) (st : State) : Except Stop State :=
  match parse_one_token_type env none .TOK_STR st with
  | (some tok, st) =>
    let inname := tok.text
    match parse_one_token_type env none .TOK_STR st with
    | (some tok, st) =>
      let outname := tok.text
      match make_gsflib env st inname outname with
      | .error e => .error e
      | .ok (st, outname) =>
        .ok { st with gsf_tag_buf := set_gsf_tag st.gsf_tag_buf "_lib".toList (some outname) }
    | (none, st) => .ok { st with out := st.out ++ [Diag.cant_get_gsflib_filename] }
  | (none, st) => .ok { st with out := st.out ++ [Diag.cant_get_source_filename] }

/-- The branch `GSFLib` of `main`. -/
def main_GSFLib (env : Env) (st : State) : State :=
  if (get_gsf_tag st.gsf_tag_buf "_lib".toList).isNone then
    match parse_one_token_type env none .TOK_STR st with
    | (some name_tok, st) =>
      { st with gsf_tag_buf := set_gsf_tag st.gsf_tag_buf "_lib".toList (some name_tok.text) }
    | (none, st) => { st with out := st.out ++ [Diag.cant_get_gsflib_filename] }
  else { st with out := st.out ++ [Diag.gsflib_already_defined] }

/-- The branch `Tag` of `main`. -/
def main_Tag (env : Env) (st : State) : State :=
  match parse_one_token_type env none .TOK_STR st with
  | (some name_tok, st) =>
    let r := gsf_tag_name_ok env.locale name_tok.text st.out
    let st := { st with out := r.2.2 }
    if r.1 then (parse_set_gsf_tag env r.2.1 st).2 else st
  | (none, st) => st

/-- The branch `FilenameTemplate` of `main`. -/
def main_FilenameTemplate (env : Env) (st : State) : State :=
  match parse_one_token_type env none .TOK_STR st with
  | (some template_tok, st) => { st with filename_template_buf := some template_tok.text }
  | (none, st) => { st with out := st.out ++ [Diag.cant_get_template] }

/-- The branch `MiniGSFOffset` of `main`. -/
def main_MiniGSFOffset (env : Env) (st : State) : State :=
  match parse_one_token_type env none .TOK_NUM st with
  | (some offset_tok, st) => { st with minigsf_offset := offset_tok.number % 2 ^ 32 }
  | (none, st) => { st with out := st.out ++ [Diag.cant_get_offset] }

/-- The branch `SetSongNumber` of `main`. -/
def main_SetSongNumber (env : Env) (st : State) : State :=
  match parse_one_token_type env none .TOK_NUM st with
  | (some tok, st) => { st with song_number := tok.number % 2 ^ 32 }
  | (none, st) => { st with out := st.out ++ [Diag.cant_get_song_number] }

/-- The nested `if (parse_set_gsf_tag_optional(...))` of the branch
`MakeMiniGSF`: the names are tried in order up to the first that gets no string. -/
def set_optional_tags (env : Env) : List (List Char) → State → State
  | [], st => st
  | name :: names, st =>
    match parse_set_gsf_tag_optional env name st with
    | (some _, st) => set_optional_tags env names st
    | (none, st) => st

/-- The tag names of the branch `MakeMiniGSF`, in its order. -/
def minigsf_tag_names : List (List Char) :=
  ["title".toList, "artist".toList, "comment".toList, "length".toList, "fade".toList,
    "volume".toList, "genre".toList]

/-- The branch `MakeMiniGSF` of `main`. -/
def main_MakeMiniGSF (env : Env) (st : State) : Except Stop State :=
  match parse_one_token_type env none .TOK_NUM st with
  | (some id_tok, st) =>
    let st := { st with song_id := id_tok.number % 2 ^ 32 }
    let st := set_optional_tags env minigsf_tag_names st
    make_minigsf env st
  | (none, st) => .ok { st with out := st.out ++ [Diag.cant_get_song_id] }

/-- The loop `for (...; song_id <= end; song_id += step) make_minigsf();` of the
branch `MakeMiniGSFRange`, entered after `song_id = start`.  Every pass takes
one unit of fuel. -/
def minigsf_range_loop (env : Env) : Nat → State → Nat → Nat → Except Stop State
  | 0, _, _, _ => .error Stop.out_of_fuel
  | fuel + 1, st, range_end, step =>
    if st.song_id ≤ range_end then
      match make_minigsf env st with
      | .error e => .error e
      | .ok st =>
        minigsf_range_loop env fuel { st with song_id := (st.song_id + step) % 2 ^ 32 }
          range_end step
    else .ok st

/-- The part of the branch `MakeMiniGSFRange` that follows the reading of the
numbers; `start`, `end` and `step` are `unsigned`. -/
def minigsf_range (env : Env) (fuel : Nat) (st : State) (start range_end step : Nat) :
    Except Stop State :=
  if step ≤ 0 then .ok { st with out := st.out ++ [Diag.invalid_step] }
  else minigsf_range_loop env fuel { st with song_id := start } range_end step

/-- The branch `MakeMiniGSFRange` of `main`. -/
def main_MakeMiniGSFRange (env : Env) (fuel : Nat) (st : State) : Except Stop State :=
  match parse_one_token_type env none .TOK_NUM st with
  | (some tok, st) =>
    let start := tok.number % 2 ^ 32
    match parse_one_token_type env none .TOK_NUM st with
    | (some tok, st) =>
      let range_end := tok.number % 2 ^ 32
      match parse_one_token_type env none .TOK_NUM st with
      | (some tok, st) => minigsf_range env fuel st start range_end (tok.number % 2 ^ 32)
      | (none, st) => minigsf_range env fuel st start range_end 1
    | (none, st) => .ok { st with out := st.out ++ [Diag.cant_get_range_end] }
  | (none, st) => .ok { st with out := st.out ++ [Diag.cant_get_range_start] }

/-- The chain of `wcscasecmp` tests of `main` on the command word `n`, with the
branch it selects. -/
def main_command (env : Env) (fuel : Nat) (st : State) (n : List Char) : Except Stop State :=
  if wcscasecmp env.locale n "MultiBoot".toList = 0 then .ok { st with entry_point := 0x2000000 }
  else if wcscasecmp env.locale n "MakeGSFLib".toList = 0 then main_MakeGSFLib env st
  else if wcscasecmp env.locale n "GSFLib".toList = 0 then .ok (main_GSFLib env st)
  else if wcscasecmp env.locale n "Title".toList = 0 then .ok (parse_set_gsf_tag env "title".toList st).2
  else if wcscasecmp env.locale n "Artist".toList = 0 then .ok (parse_set_gsf_tag env "artist".toList st).2
  else if wcscasecmp env.locale n "Game".toList = 0 then .ok (parse_set_gsf_tag env "game".toList st).2
  else if wcscasecmp env.locale n "Date".toList = 0 then .ok (parse_set_gsf_tag env "year".toList st).2
  else if wcscasecmp env.locale n "Year".toList = 0 then .ok (parse_set_gsf_tag env "year".toList st).2
  else if wcscasecmp env.locale n "Genre".toList = 0 then .ok (parse_set_gsf_tag env "genre".toList st).2
  else if wcscasecmp env.locale n "Comment".toList = 0 then
    .ok (parse_set_gsf_tag env "comment".toList st).2
  else if wcscasecmp env.locale n "Copyright".toList = 0 then
    .ok (parse_set_gsf_tag env "copyright".toList st).2
  else if wcscasecmp env.locale n "GSFBy".toList = 0 then .ok (parse_set_gsf_tag env "gsfby".toList st).2
  else if wcscasecmp env.locale n "Volume".toList = 0 then .ok (parse_set_gsf_tag env "volume".toList st).2
  else if wcscasecmp env.locale n "Length".toList = 0 then .ok (parse_set_gsf_tag env "length".toList st).2
  else if wcscasecmp env.locale n "Fade".toList = 0 then .ok (parse_set_gsf_tag env "fade".toList st).2
  else if wcscasecmp env.locale n "Tag".toList = 0 then .ok (main_Tag env st)
  else if wcscasecmp env.locale n "FilenameTemplate".toList = 0 then .ok (main_FilenameTemplate env st)
  else if wcscasecmp env.locale n "MiniGSFOffset".toList = 0 then .ok (main_MiniGSFOffset env st)
  else if wcscasecmp env.locale n "SetSongNumber".toList = 0 then .ok (main_SetSongNumber env st)
  else if wcscasecmp env.locale n "MakeMiniGSF".toList = 0 then main_MakeMiniGSF env st
  else if wcscasecmp env.locale n "MakeMiniGSFRange".toList = 0 then main_MakeMiniGSFRange env fuel st
  else .ok { st with out := st.out ++ [Diag.unrecognized_command n] }

/-- The body of the loop of `main` for one line of the script. -/
def main_line (env : Env) (fuel : Nat) (st : State) (line : List Char) : Except Stop State :=
  match parse_one_token_type env (some line) .TOK_ID st with
  | (none, st) => .ok st
  | (some cmd_tok, st) => main_command env fuel st cmd_tok.text

/-- The loop of `main` over the lines of the script. -/
def main_loop (env : Env) (fuel : Nat) : State → List (List Char) → Except Stop State
  | st, [] => .ok st
  | st, line :: lines =>
    match main_line env fuel st line with
    | .error e => .error e
    | .ok st => main_loop env fuel st lines

/-! ## Examples of environments -/

/-- An environment for examples: the "C" locale, a `deflate` that stores the
input behind a two-byte header, a checksum that adds the bytes, one source file
`rom.bin` of three bytes, every file writable and every conversion supported. -/
def example_env : Env where
  locale := c_locale
  deflateInit := 0
  deflate := fun input => .ok ([0x78, 0x9c] ++ input)
  crc32 := fun bytes => bytes.sum % 2 ^ 32
  fopen_rb := fun name => if name = "rom.bin".toList then some ([1, 2, 3], false) else none
  fopen_wb := fun _ => true
  iconv_open := fun _ _ => true

/-- A script line: a command word, then each argument in double quotes. -/
def quoted_line (cmd : String) (args : List String) : List Char :=
  cmd.toList ++ (args.map (fun a => [' ', DQUOTE] ++ a.toList ++ [DQUOTE])).flatten

/-- A script that sets a library reference and the template `%i`, then runs a
range from 5 to 5 with step `4294967295`. -/
def range_script : List (List Char) :=
  [quoted_line "GSFLib" ["a.gsflib"], quoted_line "FilenameTemplate" ["%i"],
    "MakeMiniGSFRange 5 5 4294967295".toList]

/-- A script that records a library reference and then makes a library. -/
def lib_script : List (List Char) :=
  [quoted_line "GSFLib" ["a.gsflib"], quoted_line "MakeGSFLib" ["rom.bin", "b.gsflib"]]

/-! ## Specification-side definitions -/

/-- The buffer `b` holds `content` in its first `size` bytes. -/
def buffer_holds (b : buffer_t) (content : List Nat) : Prop :=
  ∃ junk, b.data = some (content ++ junk) ∧ b.size = content.length ∧
    b.max = content.length + junk.length ∧ 0 < b.max

/-- The UTF-8 encoding of a wide string. -/
def utf8_encode (s : List Char) : List Nat :=
  s.flatMap utf8_char

/-- The lines of one tag in the tag block, as the specification words them: the
value is split at every newline and each segment is written as name, `=`,
segment, newline. -/
def tag_lines (name value : List Char) : List Nat :=
  (value.splitOn NEWLINE).flatMap
    (fun segment => utf8_encode name ++ [('=').toNat] ++ utf8_encode segment ++ [10])

/-- What an entry of the store adds to the tag block, as the specification words it. -/
def tag_entry_lines (t : gsf_tag_t) : List Nat :=
  match t.name_buf, t.value_buf with
  | some name, some value => tag_lines name value
  | _, _ => []

/-- The tag block, as the specification words it. -/
def tag_block (gsf_tag_buf : List gsf_tag_t) : List Nat :=
  ascii "[TAG]" ++ gsf_tag_buf.flatMap tag_entry_lines ++ ascii "utf8=1"

/-- What follows `name=` for a list of segments. -/
def segments_tail (name : List Char) : List (List Char) → List Nat
  | [] => []
  | s0 :: segs =>
    utf8_encode s0 ++ [10] ++ segs.flatMap
      (fun segment => utf8_encode name ++ [('=').toNat] ++ utf8_encode segment ++ [10])

/-- The capacity of a conversion buffer once `iconv_2` has run `init_new_buffer`
on it: `0x200` for a new buffer, else the capacity it has. -/
def conversion_capacity (buf : buffer_t) : Nat :=
  (init_new_buffer buf 0x200).max

/-- Every name of the store that is written has a UTF-8 encoding of at most
`name_max` bytes, and every value one of at most `value_max` bytes. -/
def tags_fit (name_max value_max : Nat) (gsf_tag_buf : List gsf_tag_t) : Prop :=
  ∀ t ∈ gsf_tag_buf, ∀ name value, t.name_buf = some name → t.value_buf = some value →
    (utf8_encode name).length ≤ name_max ∧ (utf8_encode value).length ≤ value_max

/-- A store of one tag, `title`, whose value is 513 letters `a`. -/
def long_value_store : List gsf_tag_t :=
  [⟨some "title".toList, some (List.replicate 513 'a')⟩]

/-- The runs of `make_minigsf` for the ids of a list, one after the other, each
entered with `song_id` set to the id. -/
def make_minigsf_for_ids (env : Env) : List Nat → State → Except Stop State
  | [], st => .ok st
  | id :: ids, st =>
    match make_minigsf env { st with song_id := id } with
    | .error e => .error e
    | .ok st => make_minigsf_for_ids env ids st

/-- The ids of a range, as the specification words it: `start`, `start + step`,
`start + 2 * step`, ... as long as they do not exceed `range_end`. -/
def range_ids (start range_end step : Nat) : List Nat :=
  if start ≤ range_end then
    (List.range ((range_end - start) / step + 1)).map (fun k => start + k * step)
  else []

/-- Two states agree on every global variable; the rest of the line, the log
and the files written may differ. -/
def State.same_globals (a b : State) : Prop :=
  a.entry_point = b.entry_point ∧ a.filename_template_buf = b.filename_template_buf ∧
    a.minigsf_offset = b.minigsf_offset ∧ a.song_number = b.song_number ∧
    a.song_id = b.song_id ∧ a.gsf_tag_buf = b.gsf_tag_buf

/-- A script that sets a library reference and the template `%i`, then runs the
range from 1 to 5 with step 2. -/
def range_script_1_5_2 : List (List Char) :=
  [quoted_line "GSFLib" ["a.gsflib"], quoted_line "FilenameTemplate" ["%i"],
    "MakeMiniGSFRange 1 5 2".toList]


/-! ## Specification-side definitions for the tag names -/

/-- The locale classifies the ASCII characters as the "C" locale does. -/
def Locale.ascii_standard (lc : Locale) : Prop :=
  ∀ ch : Char, ch.toNat < 128 →
    lc.iswspace ch = c_locale.iswspace ch ∧ lc.iswalnum ch = c_locale.iswalnum ch ∧
      lc.iswlower ch = c_locale.iswlower ch ∧ lc.towlower ch = c_locale.towlower ch

/-- A locale that also knows the letters of ISO 8859-1, `U+00C0` to `U+00FF`
without the signs `U+00D7` and `U+00F7`, as the UTF-8 and ISO 8859-1 locales
do; elsewhere it is the "C" locale. -/
def latin1_locale : Locale where
  iswspace := c_locale.iswspace
  iswalnum := fun ch =>
    c_locale.iswalnum ch ||
      decide (0xC0 ≤ ch.toNat ∧ ch.toNat ≤ 0xFF ∧ ch.toNat ≠ 0xD7 ∧ ch.toNat ≠ 0xF7)
  iswlower := fun ch =>
    c_locale.iswlower ch || decide (0xDF ≤ ch.toNat ∧ ch.toNat ≤ 0xFF ∧ ch.toNat ≠ 0xF7)
  towlower := fun ch =>
    if 0xC0 ≤ ch.toNat ∧ ch.toNat ≤ 0xDE ∧ ch.toNat ≠ 0xD7 then Char.ofNat (ch.toNat + 32)
    else c_locale.towlower ch

/-- The character is one of `[a-z0-9_]`. -/
def is_tag_name_char (ch : Char) : Prop :=
  ('a' ≤ ch ∧ ch ≤ 'z') ∨ ('0' ≤ ch ∧ ch ≤ '9') ∨ ch = '_'

/-- The character is an ASCII letter, a digit or `_`. -/
def is_ascii_word_char (ch : Char) : Prop :=
  ('a' ≤ ch ∧ ch ≤ 'z') ∨ ('A' ≤ ch ∧ ch ≤ 'Z') ∨ ('0' ≤ ch ∧ ch ≤ '9') ∨ ch = '_'

/-- The three reserved tag names. -/
def reserved_tag_names : List (List Char) :=
  ["filedir".toList, "filename".toList, "fileext".toList]

/-- A script of one line: the command `Tag` with the name `FileDir` and a value. -/
def filedir_script : List (List Char) :=
  [quoted_line "Tag" ["FileDir", "x"]]

/-! ## Specification-side definitions for the tokens -/

/-- The tokens that repeated calls `parse_one_token(NULL)` return, up to the
first call that returns no token; at most `fuel` calls are made. -/
def next_tokens (env : Env) : Nat → State → List token_t
  | 0, _ => []
  | fuel + 1, st =>
    match parse_one_token env none st with
    | (none, _) => []
    | (some tok, st) => tok :: next_tokens env fuel st

/-- The tokens of a line: those of the call `parse_one_token(line)` and of the
calls `parse_one_token(NULL)` that follow, up to the first call that returns no
token.  Every token takes at least one character of the line, so a number of
calls equal to its length is enough. -/
def tokens_of_line (env : Env) (line : List Char) (st : State) : List token_t :=
  match parse_one_token env (some line) st with
  | (none, _) => []
  | (some tok, st) => tok :: next_tokens env line.length st

/-- The character ends a number or an identifier: whitespace, NUL or `#`. -/
def ends_token (lc : Locale) (ch : Char) : Prop :=
  lc.iswspace ch = true ∨ ch = NUL ∨ ch = '#'

instance (lc : Locale) (ch : Char) : Decidable (ends_token lc ch) := by
  unfold ends_token; infer_instance

/-- The rest of the line ends a token: it is empty or starts with a character
that does. -/
def token_ended (lc : Locale) (rest : List Char) : Prop :=
  rest = [] ∨ ∃ t tl, rest = t :: tl ∧ ends_token lc t

/-- Whether a character is a decimal digit. -/
def is_dec_digit (ch : Char) : Prop := '0' ≤ ch ∧ ch ≤ '9'

/-- Whether a character is a hexadecimal digit, in upper or lower case. -/
def is_hex_digit (ch : Char) : Prop :=
  ('0' ≤ ch ∧ ch ≤ '9') ∨ ('A' ≤ ch ∧ ch ≤ 'F') ∨ ('a' ≤ ch ∧ ch ≤ 'f')

instance (ch : Char) : Decidable (is_dec_digit ch) := by
  unfold is_dec_digit; infer_instance

instance (ch : Char) : Decidable (is_hex_digit ch) := by
  unfold is_hex_digit; infer_instance

/-- The value of a digit: `0` to `9`, and `10` to `15` for the letters `a` to `f`
in either case. -/
def digit_value (ch : Char) : Nat :=
  if is_dec_digit ch then ch.toNat - 48
  else if 'A' ≤ ch ∧ ch ≤ 'F' then ch.toNat - 65 + 10
  else if 'a' ≤ ch ∧ ch ≤ 'f' then ch.toNat - 97 + 10
  else 0

/-- The value of a sequence of digits in base `b`, most significant digit first. -/
def base_value (b : Nat) (ds : List Char) : Nat :=
  ds.foldl (fun acc d => acc * b + digit_value d) 0

/-- How one character of a text is written between the quotes of a string token:
a backslash before a backslash or a double quote, and backslash-`n` for a newline. -/
def escape_char (ch : Char) : List Char :=
  if ch = BACKSLASH ∨ ch = DQUOTE then [BACKSLASH, ch]
  else if ch = NEWLINE then [BACKSLASH, 'n']
  else [ch]

/-- A text with every character written by `escape_char`. -/
def escape_string : List Char → List Char
  | [] => []
  | ch :: rest => escape_char ch ++ escape_string rest

/-- The characters of a line, which ends at its first `NUL`. -/
def line_text (l : List Char) : List Char := l.takeWhile (fun ch => decide (ch ≠ NUL))

/-- Whether the text after an opening quote has a closing quote that no backslash
escapes. A backslash takes the next character with it. -/
def closes_string : List Char → Bool
  | [] => false
  | [ch] => decide (ch = DQUOTE)
  | ch :: ch2 :: rest =>
    if ch = DQUOTE then true
    else if ch = BACKSLASH then closes_string rest
    else closes_string (ch2 :: rest)

/-- The base of a number token and its digits: hexadecimal after `$` or `0x`,
decimal otherwise. -/
def number_digits : List Char → Bool × List Char
  | [] => (false, [])
  | ch :: rest =>
    if ch = '$' then (true, rest)
    else match rest with
      | [] => (false, [ch])
      | ch2 :: rest2 => if ch = '0' ∧ ch2 = 'x' then (true, rest2) else (false, ch :: ch2 :: rest2)

/-- Whether a character is a digit of the base. -/
def is_digit_of (hex : Bool) (d : Char) : Prop :=
  is_dec_digit d ∨ (hex = true ∧ is_hex_digit d)

/-- Whether the text of a token starts like a number: with `$` or a decimal digit. -/
def starts_number (t : List Char) : Prop :=
  ∃ ch tl, t = ch :: tl ∧ (ch = '$' ∨ is_dec_digit ch)

/-- Whether the text of a number token has a character that is not a digit of its
base. -/
def bad_number (t : List Char) : Prop :=
  ∃ d ∈ (number_digits t).2, ¬ is_digit_of (number_digits t).1 d

instance (hex : Bool) (d : Char) : Decidable (is_digit_of hex d) := by
  unfold is_digit_of; infer_instance

/-- A line whose next token is a string without a closing quote: white space, a
double quote, and a text that ends before a quote that no backslash escapes. -/
def unterminated_string (lc : Locale) (line : List Char) : Prop :=
  ∃ ws body, line = ws ++ DQUOTE :: body ∧ (∀ c ∈ ws, lc.iswspace c = true) ∧
    closes_string (line_text body) = false

/-- A line whose next token is a number with a wrong digit: white space, then a
text `t` that starts like a number, runs up to white space, `#` or the end of the
line at the most, and has a character that is not a digit of its base. -/
def malformed_number (lc : Locale) (line : List Char) : Prop :=
  ∃ ws t rest, line = ws ++ (t ++ rest) ∧ (∀ c ∈ ws, lc.iswspace c = true) ∧
    starts_number t ∧ (∀ c ∈ t, ¬ ends_token lc c) ∧ bad_number t

/-! ## The loop of `get_os_filename`, in place -/

/-- The call `wcslen(filename)` on the memory `filename` points to: the number of
characters before the first `NUL`. -/
def wcslen (mem : List Char) : Nat :=
  (mem.takeWhile (fun ch => decide (ch ≠ NUL))).length

/-- The call `memmove(filename + dest, filename + src, n * sizeof(wchar_t))` on
the memory `filename` points to. -/
def memmove (mem : List Char) (dest src n : Nat) : List Char :=
  mem.take dest ++ ((mem.drop src).take n ++ mem.drop (dest + n))

/-- The loop of `get_os_filename` that removes the characters not valid in a
file name, on the memory `filename` points to: the memory and `filename_len`
when the loop ends. Every step needs one unit of fuel. -/
def get_os_filename_loop : Nat → List Char → Nat → Nat → Option (List Char × Nat)
  | 0, _, _, _ => none
  | fuel + 1, mem, index, filename_len =>
    let ch := mem.getD index NUL
    if ch = NUL then some (mem, filename_len)
    else if ch.toNat < 0x20 ∨ ch ∈ illegal_filename_chars then
      get_os_filename_loop fuel (memmove mem index (index + 1) (filename_len - index)) index
        (filename_len - 1)
    else get_os_filename_loop fuel mem (index + 1) filename_len

/-- The first part of `get_os_filename` on the memory `filename` points to. The
loop takes a step for every character of the string and one more to see its end. -/
def get_os_filename_in_place (mem : List Char) : Option (List Char × Nat) :=
  get_os_filename_loop (wcslen mem + 1) mem 0 (wcslen mem)

/-! ## Specification-side definitions for the file names -/

/-- Whether a character is kept in a file name: it is not a control character and
not one of the nine characters that `get_os_filename` names: the angle brackets,
the colon, the double quote, the two slashes, the bar, the question mark and the
star. -/
def is_filename_char (ch : Char) : Bool :=
  decide (0x20 ≤ ch.toNat ∧
    ch ∉ ['<', '>', ':', Char.ofNat 0x22, '/', Char.ofNat 0x5c, '|', '?', '*'])

/-- The characters of a string that are kept in a file name, in their order. -/
def filename_chars (s : List Char) : List Char := s.filter is_filename_char

/-! ## Specification-side definitions for the filename template -/

/-- The text the specifiers `%n` and `%i` stand for: the number in decimal, with
`0` characters before it up to `width` characters. -/
def zero_padded (width value : Nat) : List Char :=
  List.replicate (width - (Nat.toDigits 10 value).length) '0' ++ Nat.toDigits 10 value

/-- The letters of the conversion specifiers. -/
def specifier_letters : List Char := ['n', 'i', 't', 'a']

/-- The template has a malformed specifier: a `%`, decimal digits, and then the end
of the template or a character that is neither a digit nor a specifier letter. -/
def malformed_template (template : List Char) : Prop :=
  ∃ pre ds post, template = pre ++ '%' :: (ds ++ post) ∧ (∀ d ∈ ds, is_dec_digit d) ∧
    (post = [] ∨ ∃ ch tl, post = ch :: tl ∧ ¬ is_dec_digit ch ∧ ch ∉ specifier_letters)

/-- A script that makes a mini-file with the template `song_%03n.gsf` after
setting the song number to 7. -/
def padded_script : List (List Char) :=
  [quoted_line "GSFLib" ["a.gsflib"], quoted_line "FilenameTemplate" ["song_%03n.gsf"],
    "SetSongNumber 7".toList, "MakeMiniGSF 1".toList]

/-- A script that makes a mini-file with the template `%16n`. -/
def wide_script : List (List Char) :=
  [quoted_line "GSFLib" ["a.gsflib"], quoted_line "FilenameTemplate" ["%16n"],
    "MakeMiniGSF 1".toList]

/-- A script that makes a mini-file with the template `%16n%`. -/
def wide_malformed_script : List (List Char) :=
  [quoted_line "GSFLib" ["a.gsflib"], quoted_line "FilenameTemplate" ["%16n%"],
    "MakeMiniGSF 1".toList]

/-! ## Specification-side definitions for the ranges -/

/-- A script that runs a range from 1 to 5 with the step 0. -/
def zero_step_script : List (List Char) :=
  [quoted_line "GSFLib" ["a.gsflib"], quoted_line "FilenameTemplate" ["%i"],
    "MakeMiniGSFRange 1 5 0".toList]

/-- A script that runs the range from 4294967295 to 4294967295, with the step 1
that `main` takes when the line gives none. -/
def endless_script : List (List Char) :=
  [quoted_line "GSFLib" ["a.gsflib"], quoted_line "FilenameTemplate" ["%i"],
    "MakeMiniGSFRange 4294967295 4294967295".toList]

/-! ## Specification-side definitions for the tag commands -/

/-- The tag commands with a fixed name, and the tag that each of them sets. -/
def fixed_tag_commands : List (List Char × List Char) :=
  [("Title".toList, "title".toList), ("Artist".toList, "artist".toList),
    ("Game".toList, "game".toList), ("Date".toList, "year".toList),
    ("Year".toList, "year".toList), ("Genre".toList, "genre".toList),
    ("Comment".toList, "comment".toList), ("Copyright".toList, "copyright".toList),
    ("GSFBy".toList, "gsfby".toList), ("Volume".toList, "volume".toList),
    ("Length".toList, "length".toList), ("Fade".toList, "fade".toList)]

/-- The word `n` is the command `cmd` up to the case of its letters. -/
def matches_command (lc : Locale) (n cmd : List Char) : Prop :=
  n.map lc.towlower = cmd.map lc.towlower

/-- The value a tag has after it is set to the string `s`: none for the empty
string, which clears the tag. -/
def assigned_value (s : List Char) : Option (List Char) :=
  if s = [] then none else some s

/-- The tags of `names` are set, in order, to the strings of `ss`, as far as
these go. -/
def assign_tags (gsf_tag_buf : List gsf_tag_t) : List (List Char) → List (List Char) →
    List gsf_tag_t
  | name :: names, s :: ss => assign_tags (set_gsf_tag gsf_tag_buf name (some s)) names ss
  | _, _ => gsf_tag_buf

/-- A state in which the tags `artist` and `title` have a value. -/
def tagged_state : State :=
  { initial_state with
    gsf_tag_buf := [⟨some "artist".toList, some "Me".toList⟩,
      ⟨some "title".toList, some "Old".toList⟩] }

/-- The line `makeminigsf 3 "New" "" 5 "x"`. -/
def minigsf_tags_line : List Char :=
  "makeminigsf 3".toList ++ [' ', DQUOTE] ++ "New".toList ++ [DQUOTE, ' ', DQUOTE, DQUOTE] ++
    " 5 ".toList ++ [DQUOTE, 'x', DQUOTE]

/-! ## Lemmas on bytes and buffers -/

theorem le32_length (v : Nat) : (le32 v).length = 4 := rfl

theorem le32_decode_le32 (v : Nat) : le32_decode (le32 v) = v % 2 ^ 32 := by
  simp [le32_decode, le32]
  omega

theorem fput32_eq (v : Nat) (f : List Nat) : fput32 v f = f ++ le32 v := by
  simp [fput32, fput32_loop, fputc, le32, Nat.shiftRight_eq_div_pow]
  refine ⟨?_, ?_, ?_, ?_⟩ <;> omega

theorem write32_eq (a b : List Nat) (x0 x1 x2 x3 : Nat) (v : Nat) :
    write32 (a ++ x0 :: x1 :: x2 :: x3 :: b) a.length v = a ++ le32 v ++ b := by
  induction a with
  | nil =>
    simp [write32, le32, Nat.shiftRight_eq_div_pow]
    refine ⟨?_, ?_, ?_⟩ <;> omega
  | cons y a ih =>
    simp only [write32, le32, List.cons_append, List.length_cons, List.set_cons_succ] at ih ⊢
    rw [ih]

theorem minigsf_program_data_eq (st : State) :
    minigsf_program_data st =
      le32 st.entry_point ++ le32 st.minigsf_offset ++ le32 4 ++ le32 st.song_id := by
  have h0 : List.replicate 0x10 (0:Nat) = [] ++ 0 :: 0 :: 0 :: 0 :: List.replicate 12 0 := by decide
  have h1 : ∀ a : List Nat, a ++ List.replicate 12 0 = a ++ 0 :: 0 :: 0 :: 0 :: List.replicate 8 0 := by
    intro a; rfl
  have h2 : ∀ a : List Nat, a ++ List.replicate 8 0 = a ++ 0 :: 0 :: 0 :: 0 :: List.replicate 4 0 := by
    intro a; rfl
  have h3 : ∀ a : List Nat, a ++ List.replicate 4 0 = a ++ 0 :: 0 :: 0 :: 0 :: [] := by
    intro a; rfl
  unfold minigsf_program_data
  simp only []
  rw [h0]
  have e0 := write32_eq [] (List.replicate 12 0) 0 0 0 0 st.entry_point
  simp only [List.length_nil] at e0
  rw [e0, h1]
  have e1 := write32_eq ([] ++ le32 st.entry_point) (List.replicate 8 0) 0 0 0 0 st.minigsf_offset
  simp only [List.length_append, le32_length, List.length_nil, Nat.zero_add] at e1
  rw [e1, h2]
  have e2 := write32_eq ([] ++ le32 st.entry_point ++ le32 st.minigsf_offset) (List.replicate 4 0) 0 0 0 0 4
  simp only [List.length_append, le32_length, List.length_nil, Nat.zero_add] at e2
  rw [e2, h3]
  have e3 := write32_eq ([] ++ le32 st.entry_point ++ le32 st.minigsf_offset ++ le32 4) [] 0 0 0 0 st.song_id
  simp only [List.length_append, le32_length, List.length_nil, Nat.zero_add] at e3
  rw [e3]
  simp

theorem write_gsf_data_take (env : Env) (f data : List Nat) (size : Nat) (out : List Diag)
    (hs : size ≤ data.length) :
    write_gsf_data_to_file env f data size out =
      write_gsf_data_to_file env f (data.take size) (data.take size).length out := by
  unfold write_gsf_data_to_file
  rw [List.take_length, List.length_take, Nat.min_eq_left hs]

theorem expand_max_some (new_max : Nat) (hnew : new_max ≤ 2 ^ 63) :
    ∀ fuel max : Nat, 0 < max → new_max ≤ max + fuel →
      ∃ m, expand_max fuel max new_max = some m ∧ new_max ≤ m ∧ max ≤ m := by
  intro fuel
  induction fuel with
  | zero =>
    intro max _ h
    exact ⟨max, by simp [expand_max]; omega, by omega, le_refl _⟩
  | succ fuel ih =>
    intro max hpos h
    by_cases hlt : max < new_max
    · obtain ⟨m, hm, h1, h2⟩ := ih (max * 2) (by omega) (by omega)
      have hmod : (max * 2) % 2 ^ 64 = max * 2 := by
        apply Nat.mod_eq_of_lt
        norm_num at hnew ⊢
        omega
      exact ⟨m, by rw [expand_max, if_pos hlt, hmod, hm], h1, by omega⟩
    · exact ⟨max, by simp [expand_max, hlt], by omega, le_refl _⟩

theorem append_buffer_char_holds (b : buffer_t) (content : List Nat) (ch : Nat)
    (h : buffer_holds b content) (hlen : content.length < 2 ^ 63) :
    ∃ b', append_buffer_char b ch = some b' ∧ buffer_holds b' (content ++ [ch % 256]) := by
  obtain ⟨junk, hd, hsz, hmax, hpos⟩ := h
  obtain ⟨m, hm, h1, h2⟩ := expand_max_some (b.size + 1) (by rw [hsz]; omega) (b.size + 1)
    b.max hpos (by omega)
  have key : ∀ junk' : List Nat, junk' ≠ [] →
      (content ++ junk').set content.length (ch % 256) =
        (content ++ [ch % 256]) ++ junk'.tail := by
    intro junk' hne
    cases junk' with
    | nil => exact absurd rfl hne
    | cons x t => simp [List.set_append_right]
  unfold append_buffer_char expand_buffer
  rw [hm]
  by_cases hgt : m > b.max
  · simp only [hgt, if_true, hd, Option.map_some']
    refine ⟨_, rfl, junk ++ List.replicate (m - (content ++ junk).length) 0 |>.tail, ?_, ?_, ?_, ?_⟩
    · simp only [hsz]
      rw [List.append_assoc, key]
      simp
      omega
    · simp [hsz]
    · simp
      omega
    · simp; omega
  · simp only [hgt, if_false, hd, Option.map_some']
    have hj : junk ≠ [] := by
      intro hj
      subst hj
      simp at hmax
      omega
    refine ⟨_, rfl, junk.tail, ?_, ?_, ?_, ?_⟩
    · simp only [hsz]
      rw [key _ hj]
    · simp [hsz]
    · simp
      have : 0 < junk.length := List.length_pos.mpr hj
      omega
    · exact hpos

theorem read_into_buffer_holds (bytes : List Nat) :
    ∀ (b : buffer_t) (content : List Nat), buffer_holds b content →
      content.length + bytes.length ≤ 2 ^ 63 →
      ∃ b', read_into_buffer bytes b = some b' ∧
        buffer_holds b' (content ++ bytes.map (· % 256)) := by
  induction bytes with
  | nil =>
    intro b content h _
    exact ⟨b, rfl, by simpa using h⟩
  | cons ch rest ih =>
    intro b content h hlen
    rw [List.length_cons] at hlen
    obtain ⟨b1, h1, hb1⟩ := append_buffer_char_holds b content ch h (by omega)
    obtain ⟨b2, h2, hb2⟩ := ih b1 _ hb1 (by
      rw [List.length_append, List.length_singleton]; omega)
    refine ⟨b2, ?_, ?_⟩
    · simp [read_into_buffer, h1, h2]
    · simpa using hb2

theorem replicate_split :
    ∃ junk : List Nat, junk.length = 65524 ∧
      List.replicate 0x10000 (0:Nat) = [0, 0, 0, 0, 0, 0, 0, 0, 0, 0, 0, 0] ++ junk := by
  have h : (0x10000:Nat) = 12 + 65524 := by norm_num
  have h2 : List.replicate (12 + 65524) (0:Nat) = List.replicate 12 0 ++ List.replicate 65524 0 :=
    List.replicate_add 12 65524 0
  have h3 : List.replicate 12 (0:Nat) = [0, 0, 0, 0, 0, 0, 0, 0, 0, 0, 0, 0] := by decide
  have h4 : (List.replicate 65524 (0:Nat)).length = 65524 := List.length_replicate _ _
  generalize List.replicate 65524 (0:Nat) = junk at h2 h4
  generalize (12 + 65524) = n at h h2
  subst h
  exact ⟨junk, h4, by rw [h2, h3]⟩

theorem make_gsflib_in_buf_eq (entry_point : Nat) (bytes : List Nat)
    (hlen : 12 + bytes.length ≤ 2 ^ 63) :
    ∃ b d, make_gsflib_in_buf entry_point bytes = some b ∧ b.data = some d ∧
      b.size ≤ d.length ∧ b.size = 12 + bytes.length ∧
      d.take b.size = le32 entry_point ++ le32 entry_point ++ le32 bytes.length ++
        bytes.map (· % 256) := by
  obtain ⟨junk0, hj0, h0⟩ := replicate_split
  have e0 := write32_eq [] ([0, 0, 0, 0, 0, 0, 0, 0] ++ junk0) 0 0 0 0 entry_point
  have e1 := write32_eq (le32 entry_point) ([0, 0, 0, 0] ++ junk0) 0 0 0 0 entry_point
  simp only [List.length_nil, le32_length, List.nil_append, List.cons_append] at e0 e1
  have hstart : make_gsflib_in_buf entry_point bytes =
      match read_into_buffer bytes
        ⟨some (le32 entry_point ++ le32 entry_point ++ [0, 0, 0, 0] ++ junk0), 12, 0x10000⟩ with
      | none => none
      | some in_buf =>
        some { in_buf with data := in_buf.data.map (fun d => write32 d 8 (in_buf.size - 0xc)) } := by
    unfold make_gsflib_in_buf
    simp only [init_new_buffer, is_buffer_new, DEFAULT_BUFFER_T, init_buffer, Option.isNone_none,
      if_true, Option.map_some']
    rw [h0]
    simp only [List.cons_append, List.nil_append]
    rw [e0, e1]
    simp only [List.append_assoc, List.cons_append, List.nil_append]
  have hinit : buffer_holds
      ⟨some (le32 entry_point ++ le32 entry_point ++ [0, 0, 0, 0] ++ junk0), 12, 0x10000⟩
      (le32 entry_point ++ le32 entry_point ++ [0, 0, 0, 0]) := by
    have h12 : (le32 entry_point ++ le32 entry_point ++ [0, 0, 0, 0]).length = 12 := by
      simp [le32]
    refine ⟨junk0, rfl, h12.symm, ?_, ?_⟩
    · rw [h12, hj0]
    · norm_num
  obtain ⟨b1, hb1, junk, hd, hsz, hmax, _⟩ := read_into_buffer_holds bytes _ _ hinit (by
    simp only [List.length_append, le32_length, List.length_cons, List.length_nil]
    omega)
  have hsz' : b1.size = 12 + bytes.length := by
    simp only [hsz, List.length_append, le32_length, List.length_cons, List.length_nil,
      List.length_map]
  have e2 := write32_eq (le32 entry_point ++ le32 entry_point) (bytes.map (· % 256) ++ junk)
    0 0 0 0 (b1.size - 0xc)
  simp only [List.length_append, le32_length] at e2
  have hd' : b1.data = some ((le32 entry_point ++ le32 entry_point) ++
      0 :: 0 :: 0 :: 0 :: (bytes.map (· % 256) ++ junk)) := by
    rw [hd]
    simp
  have hm : make_gsflib_in_buf entry_point bytes =
      some { b1 with data := b1.data.map (fun d => write32 d 8 (b1.size - 0xc)) } := by
    rw [hstart, hb1]
  refine ⟨_, le32 entry_point ++ le32 entry_point ++ le32 (b1.size - 12) ++
    (bytes.map (· % 256) ++ junk), hm, ?_, ?_, hsz', ?_⟩
  · simp only [hd', Option.map_some']
    rw [e2]
  · simp only [hsz', List.length_append, le32_length, List.length_map]
    omega
  · simp only [hsz']
    have : 12 + bytes.length - 12 = bytes.length := by omega
    rw [this]
    have hl : (le32 entry_point ++ le32 entry_point ++ le32 bytes.length ++
        bytes.map (· % 256)).length = 12 + bytes.length := by
      simp only [List.length_append, le32_length, List.length_map]
    rw [← List.append_assoc, ← hl, List.take_left]

theorem char_toNat_lt (ch : Char) : ch.toNat < 0x110000 := by
  have h := ch.valid
  unfold Char.toNat
  rcases h with h | h
  · omega
  · omega

theorem char_eq_newline (ch : Char) (h : ch.toNat = 10) : ch = NEWLINE := by
  rw [← Char.ofNat_toNat ch, h]

theorem utf8_char_newline : utf8_char NEWLINE = [10] := by decide

theorem utf8_char_plain (ch : Char) (h : ch ≠ NEWLINE) :
    ∀ b ∈ utf8_char ch, b ≠ 10 ∧ b < 256 := by
  have h1 : ch.toNat ≠ 10 := fun e => h (char_eq_newline ch e)
  have h2 := char_toNat_lt ch
  intro b hb
  unfold utf8_char at hb
  simp only [] at hb
  split_ifs at hb <;> simp at hb <;> omega

theorem write_tag_value_append (out_name a b : List Nat) :
    ∀ f, write_tag_value out_name (a ++ b) f =
      write_tag_value out_name b (write_tag_value out_name a f) := by
  induction a with
  | nil => intro f; rfl
  | cons x a ih =>
    intro f
    show write_tag_value out_name (x :: (a ++ b)) f = _
    simp only [write_tag_value]
    split_ifs <;> rw [ih]

theorem write_tag_value_plain (out_name bs : List Nat) (h : ∀ b ∈ bs, b ≠ 10 ∧ b < 256) :
    ∀ f, write_tag_value out_name bs f = f ++ bs := by
  induction bs with
  | nil => intro f; simp [write_tag_value]
  | cons x bs ih =>
    intro f
    have hx := h x (List.mem_cons_self _ _)
    simp only [write_tag_value, if_neg hx.1]
    rw [ih (fun b hb => h b (List.mem_cons_of_mem _ hb))]
    simp [fputc, Nat.mod_eq_of_lt hx.2]

theorem tag_lines_eq (name value : List Char) :
    tag_lines name value =
      utf8_encode name ++ [('=').toNat] ++ segments_tail name (value.splitOn NEWLINE) := by
  unfold tag_lines
  have hne : value.splitOn NEWLINE ≠ [] := List.splitOnP_ne_nil _ _
  cases h : value.splitOn NEWLINE with
  | nil => exact absurd h hne
  | cons s0 segs => simp [segments_tail]

theorem write_tag_value_segments (name : List Char) (value : List Char) :
    ∀ f, fputc 10 (write_tag_value (utf8_encode name) (utf8_encode value) f) =
      f ++ segments_tail name (value.splitOn NEWLINE) := by
  induction value with
  | nil =>
    intro f
    simp [utf8_encode, write_tag_value, fputc, segments_tail, List.splitOn]
  | cons ch rest ih =>
    intro f
    have hcons : utf8_encode (ch :: rest) = utf8_char ch ++ utf8_encode rest := by
      simp [utf8_encode]
    rw [hcons, write_tag_value_append]
    by_cases hch : ch = NEWLINE
    · subst hch
      have hs : (NEWLINE :: rest).splitOn NEWLINE = [] :: rest.splitOn NEWLINE := by
        simp [List.splitOn, List.splitOnP_cons]
      rw [hs, utf8_char_newline]
      simp only [write_tag_value, if_true]
      rw [ih]
      have := tag_lines_eq name rest
      unfold tag_lines at this
      simp only [segments_tail, this, fputc, fwrite]
      simp [utf8_encode]
    · have hs : (ch :: rest).splitOn NEWLINE =
          (rest.splitOn NEWLINE).modifyHead (List.cons ch) := by
        simp [List.splitOn, List.splitOnP_cons, hch]
      rw [hs, write_tag_value_plain _ _ (utf8_char_plain ch hch), ih]
      have hne : rest.splitOn NEWLINE ≠ [] := List.splitOnP_ne_nil _ _
      cases h : rest.splitOn NEWLINE with
      | nil => exact absurd h hne
      | cons s0 segs =>
        simp [segments_tail, utf8_encode]

/-! ## Lemmas on the conversion to UTF-8 -/

theorem utf8_encode_cons (ch : Char) (s : List Char) :
    utf8_encode (ch :: s) = utf8_char ch ++ utf8_encode s := by
  simp [utf8_encode]

/-- With room for the whole encoding, one call of `iconv` converts the whole
string. -/
theorem iconv_fits (s : List Char) :
    ∀ dest_left, (utf8_encode s).length ≤ dest_left →
      iconv s dest_left = ⟨[], utf8_encode s, none⟩ := by
  induction s with
  | nil => intro dest_left _; rfl
  | cons ch s ih =>
    intro dest_left h
    rw [utf8_encode_cons, List.length_append] at h
    have h1 : (utf8_char ch).length ≤ dest_left := by omega
    rw [iconv, if_pos h1, ih _ (by omega), utf8_encode_cons]

theorem conversion_capacity_reset (buf : buffer_t) :
    conversion_capacity { buf with size := 0 } = conversion_capacity buf := by
  unfold conversion_capacity init_new_buffer is_buffer_new init_buffer
  cases buf.data <;> rfl

/-- A conversion whose result fits into the buffer: `iconv_2` leaves the
encoding in the buffer, and the capacity and the log as they were. -/
theorem iconv_2_fits (env : Env) (to_ from_ : String) (buf : buffer_t) (s : List Char)
    (out : List Diag) (hopen : env.iconv_open to_ from_ = true) (hsize : buf.size = 0)
    (hfit : (utf8_encode s).length ≤ conversion_capacity buf) :
    buffer_bytes (iconv_2 env to_ from_ buf s out).2.1 = utf8_encode s ∧
    (iconv_2 env to_ from_ buf s out).2.2 = out ∧
    (iconv_2 env to_ from_ buf s out).1 = (utf8_encode s).length ∧
    conversion_capacity (iconv_2 env to_ from_ buf s out).2.1 = conversion_capacity buf := by
  obtain ⟨data, size, max⟩ := buf
  simp only at hsize
  subst hsize
  cases data with
  | none =>
    have hfit' : (utf8_encode s).length ≤ 0x200 := hfit
    simp only [iconv_2, hopen, init_new_buffer, is_buffer_new, init_buffer, Option.isNone_none,
      if_true, Bool.true_eq_false, if_false, Nat.sub_zero, iconv_2_loop, iconv_fits s _ hfit',
      store_bytes, buffer_bytes, conversion_capacity, Option.map_some', Option.getD_some,
      List.take_zero, List.nil_append, Nat.zero_add, Nat.sub_sub_self hfit', Option.isNone_some,
      Bool.false_eq_true, List.take_left', and_self, and_true]
  | some d =>
    have hfit' : (utf8_encode s).length ≤ max := hfit
    simp only [iconv_2, hopen, init_new_buffer, is_buffer_new, init_buffer, Option.isNone_some,
      Bool.false_eq_true, if_false, Bool.true_eq_false, Nat.sub_zero, iconv_2_loop,
      iconv_fits s _ hfit', store_bytes, buffer_bytes, conversion_capacity, Option.map_some',
      Option.getD_some, List.take_zero, List.nil_append, Nat.zero_add, Nat.sub_sub_self hfit',
      List.take_left', and_self, and_true]

/-- One call of `iconv` either has room for the whole encoding, or fails with
`E2BIG` after it has stored whole characters within the room it had. -/
theorem iconv_spec (s : List Char) :
    ∀ dest_left, (utf8_encode s).length ≤ dest_left ∨
      ((iconv s dest_left).errno = some iconv_errno.E2BIG ∧
        (iconv s dest_left).written.length ≤ dest_left ∧
        (utf8_encode (iconv s dest_left).src_ptr).length + (iconv s dest_left).written.length =
          (utf8_encode s).length) := by
  induction s with
  | nil => intro dest_left; exact Or.inl (Nat.zero_le _)
  | cons ch s ih =>
    intro dest_left
    rw [utf8_encode_cons, List.length_append]
    by_cases h1 : (utf8_char ch).length ≤ dest_left
    · rcases ih (dest_left - (utf8_char ch).length) with h | ⟨e, w, l⟩
      · exact Or.inl (by omega)
      · refine Or.inr ?_
        rw [iconv, if_pos h1]
        refine ⟨e, ?_, ?_⟩
        · show (utf8_char ch ++ (iconv s (dest_left - (utf8_char ch).length)).written).length ≤
            dest_left
          rw [List.length_append]
          omega
        · show (utf8_encode (iconv s (dest_left - (utf8_char ch).length)).src_ptr).length +
            (utf8_char ch ++ (iconv s (dest_left - (utf8_char ch).length)).written).length = _
          rw [List.length_append]
          omega
    · refine Or.inr ?_
      rw [iconv, if_neg h1]
      refine ⟨rfl, Nat.zero_le _, ?_⟩
      show (utf8_encode (ch :: s)).length + 0 = _
      rw [utf8_encode_cons, List.length_append]
      rfl

theorem store_bytes_size (buf : buffer_t) (dest_ptr : Option Nat) (bytes : List Nat) :
    (store_bytes buf dest_ptr bytes).size = buf.size ∧
      (store_bytes buf dest_ptr bytes).max = buf.max := by
  cases dest_ptr <;> exact ⟨rfl, rfl⟩

/-- Doubling a positive capacity below `2^63`: `expand_buffer` returns with
twice the capacity. -/
theorem expand_buffer_double (buf : buffer_t) (h0 : 0 < buf.max) (h : buf.max < 2 ^ 63) :
    ∃ b, expand_buffer buf ((buf.max * 2) % 2 ^ 64) = some b ∧ b.max = buf.max * 2 ∧
      b.size = buf.size := by
  have hmod : (buf.max * 2) % 2 ^ 64 = buf.max * 2 := Nat.mod_eq_of_lt (by omega)
  obtain ⟨m, hm⟩ : ∃ m, buf.max * 2 = m + 1 := ⟨buf.max * 2 - 1, by omega⟩
  have hexp : expand_max (buf.max * 2) buf.max (buf.max * 2) = some (buf.max * 2) := by
    rw [hm, expand_max, ← hm, if_pos (by omega), hmod]
    cases m with
    | zero => rw [expand_max, if_neg (by omega)]
    | succ m => rw [expand_max, if_neg (by omega)]
  rw [hmod, expand_buffer, hexp]
  simp only [gt_iff_lt, show buf.max < buf.max * 2 by omega, if_true]
  exact ⟨_, rfl, rfl, rfl⟩

/-- With enough calls allowed, the loop of `iconv_2` ends by itself: on a buffer
of positive capacity, when the size that the buffer has and the bytes still to
come add up to at most `2^62`, it returns with every byte counted in `size`,
the size within the capacity and the log as it was. -/
theorem iconv_2_loop_size (src_size dest_initial_size : Nat) :
    ∀ (fuel : Nat) (dest_buf : buffer_t) (src : List Char) (dest_ptr : Option Nat)
      (out : List Diag),
      0 < dest_buf.max → dest_buf.size ≤ dest_buf.max →
      dest_buf.size + (utf8_encode src).length ≤ 2 ^ 62 →
      dest_buf.size + (utf8_encode src).length ≤ dest_buf.max * 2 ^ fuel →
      (iconv_2_loop src_size dest_initial_size (fuel + 1) dest_buf src dest_ptr
          (dest_buf.max - dest_buf.size) (dest_buf.max - dest_buf.size) out).2.1.size =
        dest_buf.size + (utf8_encode src).length ∧
      (iconv_2_loop src_size dest_initial_size (fuel + 1) dest_buf src dest_ptr
          (dest_buf.max - dest_buf.size) (dest_buf.max - dest_buf.size) out).2.1.size ≤
        (iconv_2_loop src_size dest_initial_size (fuel + 1) dest_buf src dest_ptr
          (dest_buf.max - dest_buf.size) (dest_buf.max - dest_buf.size) out).2.1.max ∧
      (iconv_2_loop src_size dest_initial_size (fuel + 1) dest_buf src dest_ptr
          (dest_buf.max - dest_buf.size) (dest_buf.max - dest_buf.size) out).2.2 = out ∧
      (iconv_2_loop src_size dest_initial_size (fuel + 1) dest_buf src dest_ptr
          (dest_buf.max - dest_buf.size) (dest_buf.max - dest_buf.size) out).1 =
        dest_buf.size + (utf8_encode src).length - dest_initial_size := by
  intro fuel
  induction fuel with
  | zero =>
    intro dest_buf src dest_ptr out h0 hsz h62 hcap
    have hfit : (utf8_encode src).length ≤ dest_buf.max - dest_buf.size := by
      simp only [pow_zero, Nat.mul_one] at hcap
      omega
    obtain ⟨s1, s2⟩ := store_bytes_size dest_buf dest_ptr (utf8_encode src)
    simp only [iconv_2_loop, iconv_fits src _ hfit, s1, s2]
    refine ⟨by omega, by omega, trivial, by omega⟩
  | succ fuel ih =>
    intro dest_buf src dest_ptr out h0 hsz h62 hcap
    by_cases hfit : (utf8_encode src).length ≤ dest_buf.max - dest_buf.size
    · obtain ⟨s1, s2⟩ := store_bytes_size dest_buf dest_ptr (utf8_encode src)
      rw [iconv_2_loop]
      simp only [iconv_fits src _ hfit, s1, s2]
      refine ⟨by omega, by omega, trivial, by omega⟩
    · rcases iconv_spec src (dest_buf.max - dest_buf.size) with h | ⟨e, w, l⟩
      · exact absurd h hfit
      · obtain ⟨s1, s2⟩ := store_bytes_size dest_buf dest_ptr
          (iconv src (dest_buf.max - dest_buf.size)).written
        have hmax : dest_buf.max < 2 ^ 63 := by omega
        obtain ⟨b, hb, hbmax, hbsize⟩ := expand_buffer_double
          { store_bytes dest_buf dest_ptr (iconv src (dest_buf.max - dest_buf.size)).written with
            size := dest_buf.size + (iconv src (dest_buf.max - dest_buf.size)).written.length }
          (by simpa [s2] using h0) (by simpa [s2] using hmax)
        simp only [s2] at hb hbmax
        simp only at hbsize
        have hpow : dest_buf.max * 2 ^ (fuel + 1) = dest_buf.max * 2 * 2 ^ fuel := by ring
        have key := ih b (iconv src (dest_buf.max - dest_buf.size)).src_ptr
          (if b.max > dest_buf.max then none
            else dest_ptr.map (fun p => p + (iconv src (dest_buf.max - dest_buf.size)).written.length))
          out (by omega) (by omega) (by omega) (by rw [hbmax, hbsize, ← hpow]; omega)
        have hleft : dest_buf.max - dest_buf.size -
            (iconv src (dest_buf.max - dest_buf.size)).written.length + (b.max - dest_buf.max) =
            b.max - b.size := by omega
        have hsize1 : dest_buf.size + (dest_buf.max - dest_buf.size -
            (dest_buf.max - dest_buf.size -
              (iconv src (dest_buf.max - dest_buf.size)).written.length)) =
            dest_buf.size + (iconv src (dest_buf.max - dest_buf.size)).written.length := by omega
        rw [iconv_2_loop]
        simp only [e, s1, s2, hsize1, hb, hleft]
        refine ⟨key.1.trans (by omega), key.2.1, key.2.2.1, key.2.2.2.trans (by omega)⟩

/-- The conversion `iconv_2` returns by itself: on an emptied buffer that is new
or of positive capacity, for a string whose encoding has at most `2^62` bytes,
the calls allowed are enough, and `iconv_2` returns the length of the encoding,
which is the size of the buffer then. -/
theorem iconv_2_size (env : Env) (to_ from_ : String) (buf : buffer_t) (s : List Char)
    (out : List Diag) (hopen : env.iconv_open to_ from_ = true) (hsize : buf.size = 0)
    (hbuf : buf.data = none ∨ 0 < buf.max) (hlen : (utf8_encode s).length ≤ 2 ^ 62) :
    (iconv_2 env to_ from_ buf s out).1 = (utf8_encode s).length ∧
    (iconv_2 env to_ from_ buf s out).2.1.size = (utf8_encode s).length ∧
    (iconv_2 env to_ from_ buf s out).2.1.size ≤ (iconv_2 env to_ from_ buf s out).2.1.max ∧
    (iconv_2 env to_ from_ buf s out).2.2 = out := by
  have h0 : 0 < (init_new_buffer buf 0x200).max := by
    unfold init_new_buffer is_buffer_new init_buffer
    cases hd : buf.data with
    | none =>
      show 0 < 0x200
      decide
    | some d =>
      rcases hbuf with h | h
      · rw [hd] at h
        exact absurd h (by simp)
      · simpa using h
  have hs : (init_new_buffer buf 0x200).size = 0 := by
    unfold init_new_buffer is_buffer_new init_buffer
    cases hd : buf.data
    · rfl
    · simpa using hsize
  have key := iconv_2_loop_size (4 * s.length) (init_new_buffer buf 0x200).size 65
    (init_new_buffer buf 0x200) s (some (init_new_buffer buf 0x200).size) out h0
    (by omega) (by omega)
    (by
      have : 2 ^ 62 ≤ (init_new_buffer buf 0x200).max * 2 ^ 65 :=
        le_trans (by norm_num) (Nat.mul_le_mul_right _ h0)
      omega)
  simp only [iconv_2, hopen, Bool.true_eq_false, if_false]
  rw [hs] at key ⊢
  simp only [Nat.sub_zero, Nat.zero_add] at key ⊢
  exact ⟨key.2.2.2, key.1, key.2.1, key.2.2.1⟩

/-- The block of a buffer after `expand_buffer`: the old block, with zero bytes
behind it up to the new capacity. -/
theorem expand_buffer_block (buf : buffer_t) (n : Nat) (b : buffer_t) (d : List Nat)
    (h : expand_buffer buf n = some b) (hd : buf.data = some d) (hl : d.length = buf.max) :
    ∃ j, b.data = some (d ++ List.replicate j 0) ∧ d.length + j = b.max := by
  unfold expand_buffer at h
  cases hm : expand_max n buf.max n with
  | none => rw [hm] at h; exact absurd h (by simp)
  | some m =>
    rw [hm] at h
    dsimp only at h
    by_cases hgt : m > buf.max
    · rw [if_pos hgt] at h
      have hb : b = ⟨buf.data.map (fun d => d ++ List.replicate (m - d.length) 0), buf.size, m⟩ :=
        (Option.some.inj h).symm
      refine ⟨m - d.length, ?_, ?_⟩
      · rw [hb]
        simp only [hd, Option.map_some']
      · rw [hb]
        show d.length + (m - d.length) = m
        omega
    · rw [if_neg hgt] at h
      have hb : b = buf := (Option.some.inj h).symm
      refine ⟨0, ?_, ?_⟩
      · rw [hb, hd]
        simp
      · rw [hb]
        omega

/-- Once `dest_ptr` points into a released block, the loop of `iconv_2` stores
nothing in the buffer: the block it leaves is the block it found, with zero
bytes behind it up to the capacity. -/
theorem iconv_2_loop_stale (src_size dest_initial_size : Nat) :
    ∀ (fuel : Nat) (dest_buf : buffer_t) (src : List Char) (dest_left dest_initial_left : Nat)
      (out : List Diag) (d : List Nat),
      dest_buf.data = some d → d.length = dest_buf.max →
      ∃ k, (iconv_2_loop src_size dest_initial_size fuel dest_buf src none dest_left
          dest_initial_left out).2.1.data = some (d ++ List.replicate k 0) ∧
        d.length + k = (iconv_2_loop src_size dest_initial_size fuel dest_buf src none dest_left
          dest_initial_left out).2.1.max := by
  intro fuel
  induction fuel with
  | zero =>
    intro dest_buf src dest_left dest_initial_left out d hd hl
    exact ⟨0, by simp [iconv_2_loop, hd], by simp [iconv_2_loop, hl]⟩
  | succ fuel ih =>
    intro dest_buf src dest_left dest_initial_left out d hd hl
    rw [iconv_2_loop]
    simp only [store_bytes, Option.map_none', ite_self]
    cases he : (iconv src dest_left).errno with
    | none => exact ⟨0, by simp [hd], by simp [hl]⟩
    | some en =>
      cases en with
      | E2BIG =>
        dsimp only
        cases hb : expand_buffer
            { dest_buf with size := dest_buf.size + (dest_initial_left -
              (dest_left - (iconv src dest_left).written.length)) }
            ((dest_buf.max * 2) % 2 ^ 64) with
        | none => exact ⟨0, by simp [hd], by simp [hl]⟩
        | some b =>
          obtain ⟨j, hj, hjl⟩ := expand_buffer_block _ _ b d hb hd hl
          obtain ⟨k, hk, hkl⟩ := ih b (iconv src dest_left).src_ptr
            (dest_left - (iconv src dest_left).written.length + (b.max - dest_buf.max))
            (dest_left - (iconv src dest_left).written.length + (b.max - dest_buf.max))
            out (d ++ List.replicate j 0) hj (by rw [List.length_append, List.length_replicate]; exact hjl)
          refine ⟨j + k, ?_, ?_⟩
          · dsimp only
            rw [hk, List.append_assoc, ← List.replicate_add]
          · dsimp only
            rw [← hkl, List.length_append, List.length_replicate]
            omega
      | EILSEQ => exact ⟨0, by simp [hd], by simp [hl]⟩
      | EINVAL => exact ⟨0, by simp [hd], by simp [hl]⟩
      | other en => exact ⟨0, by simp [hd], by simp [hl]⟩

/-- One turn of the loop of `iconv_2` when `iconv` fails with `E2BIG`. -/
theorem iconv_2_loop_E2BIG (src_size dest_initial_size fuel : Nat) (dest_buf : buffer_t)
    (src : List Char) (dest_ptr : Option Nat) (dest_left dest_initial_left : Nat)
    (out : List Diag) (b : buffer_t)
    (e : (iconv src dest_left).errno = some iconv_errno.E2BIG)
    (hb : expand_buffer
      ⟨(store_bytes dest_buf dest_ptr (iconv src dest_left).written).data,
        dest_buf.size + (dest_initial_left - (dest_left - (iconv src dest_left).written.length)),
        dest_buf.max⟩ ((dest_buf.max * 2) % 2 ^ 64) = some b) :
    iconv_2_loop src_size dest_initial_size (fuel + 1) dest_buf src dest_ptr dest_left
        dest_initial_left out =
      iconv_2_loop src_size dest_initial_size fuel b (iconv src dest_left).src_ptr
        (if b.max > dest_buf.max then none
          else dest_ptr.map (fun p => p + (iconv src dest_left).written.length))
        (dest_left - (iconv src dest_left).written.length + (b.max - dest_buf.max))
        (dest_left - (iconv src dest_left).written.length + (b.max - dest_buf.max)) out := by
  obtain ⟨s1, s2⟩ := store_bytes_size dest_buf dest_ptr (iconv src dest_left).written
  rw [iconv_2_loop]
  simp only [e, s1, s2, hb]

/-- A conversion whose result does not fit into the buffer.  The buffer is
emptied, and allocated with its block `d` of the size of its capacity once
`init_new_buffer` has run.  `iconv_2` then leaves in the block the bytes that
the first call of `iconv` has stored, behind them what the block held before,
and zero bytes up to the new capacity: nothing of what the later calls of
`iconv` store reaches the block. -/
theorem iconv_2_overflow_block (env : Env) (to_ from_ : String) (buf : buffer_t)
    (s : List Char) (out : List Diag) (d : List Nat)
    (hopen : env.iconv_open to_ from_ = true) (hsize : buf.size = 0)
    (hd : (init_new_buffer buf 0x200).data = some d)
    (hl : d.length = conversion_capacity buf) (h0 : 0 < conversion_capacity buf)
    (hlong : conversion_capacity buf < (utf8_encode s).length)
    (hlen : (utf8_encode s).length ≤ 2 ^ 62) :
    ∃ k, (iconv_2 env to_ from_ buf s out).2.1.data =
        some ((iconv s (conversion_capacity buf)).written ++
          d.drop (iconv s (conversion_capacity buf)).written.length ++ List.replicate k 0) ∧
      d.length + k = (iconv_2 env to_ from_ buf s out).2.1.max := by
  have hs : (init_new_buffer buf 0x200).size = 0 := by
    unfold init_new_buffer is_buffer_new init_buffer
    cases hdd : buf.data
    · rfl
    · simpa using hsize
  simp only [iconv_2, hopen, Bool.true_eq_false, if_false]
  unfold conversion_capacity at hl h0 hlong ⊢
  generalize init_new_buffer buf 0x200 = b0 at hd hl h0 hlong hs ⊢
  obtain ⟨data0, size0, max0⟩ := b0
  simp only at hd hl h0 hlong hs
  subst hd hs
  simp only [Nat.sub_zero]
  rcases iconv_spec s max0 with h | ⟨e, w, l⟩
  · omega
  · have hmax : max0 < 2 ^ 63 := by omega
    obtain ⟨b, hb, hbmax, hbsize⟩ := expand_buffer_double
      ⟨some ((iconv s max0).written ++ d.drop (iconv s max0).written.length),
        (iconv s max0).written.length, max0⟩ h0 hmax
    simp only at hb hbmax hbsize
    obtain ⟨j, hj, hjl⟩ := expand_buffer_block _ _ b _ hb rfl (by
      show ((iconv s max0).written ++ d.drop (iconv s max0).written.length).length = max0
      rw [List.length_append, List.length_drop]
      omega)
    obtain ⟨k, hk, hkl⟩ := iconv_2_loop_stale (4 * s.length) 0 65 b (iconv s max0).src_ptr
      (max0 - (iconv s max0).written.length + (b.max - max0))
      (max0 - (iconv s max0).written.length + (b.max - max0)) out _ hj (by
        rw [List.length_append, List.length_replicate, List.length_append, List.length_drop]
        rw [List.length_append, List.length_drop] at hjl
        exact hjl)
    refine ⟨j + k, ?_, ?_⟩
    · rw [iconv_2_loop_E2BIG (4 * s.length) 0 65 ⟨some d, 0, max0⟩ s (some 0) max0 max0 out b e
        (by
          simp only [store_bytes, Option.map_some', List.take_zero, List.nil_append, Nat.zero_add,
            Nat.sub_sub_self w]
          exact hb)]
      rw [if_pos (by show b.max > max0; omega), hk, List.append_assoc, List.append_assoc, ← List.replicate_add,
        List.append_assoc]
    · rw [iconv_2_loop_E2BIG (4 * s.length) 0 65 ⟨some d, 0, max0⟩ s (some 0) max0 max0 out b e
        (by
          simp only [store_bytes, Option.map_some', List.take_zero, List.nil_append, Nat.zero_add,
            Nat.sub_sub_self w]
          exact hb)]
      rw [if_pos (by show b.max > max0; omega), ← hkl]
      simp only [List.length_append, List.length_replicate, List.length_drop]
      omega

/-- A value longer than `0x200` bytes, converted into a new buffer: the buffer
holds the bytes that the first call of `iconv` has stored, at most `0x200`, and
zero bytes in the place of all the others. -/
theorem iconv_2_overflow (env : Env) (to_ from_ : String) (s : List Char) (out : List Diag)
    (hopen : env.iconv_open to_ from_ = true) (hlong : 0x200 < (utf8_encode s).length)
    (hlen : (utf8_encode s).length ≤ 2 ^ 62) :
    buffer_bytes (iconv_2 env to_ from_ DEFAULT_BUFFER_T s out).2.1 =
      (iconv s 0x200).written ++
        List.replicate ((utf8_encode s).length - (iconv s 0x200).written.length) 0 ∧
    (iconv s 0x200).written.length ≤ 0x200 := by
  obtain ⟨-, hsz, hle, -⟩ := iconv_2_size env to_ from_ DEFAULT_BUFFER_T s out hopen rfl
    (Or.inl rfl) hlen
  obtain ⟨k, hk, hkl⟩ := iconv_2_overflow_block env to_ from_ DEFAULT_BUFFER_T s out
    (List.replicate 0x200 0) hopen rfl rfl (List.length_replicate _ _) (by decide) hlong hlen
  have hw : (iconv s 0x200).written.length ≤ 0x200 := by
    rcases iconv_spec s 0x200 with h | ⟨_, w, _⟩
    · omega
    · exact w
  refine ⟨?_, hw⟩
  have hcap : conversion_capacity DEFAULT_BUFFER_T = 0x200 := rfl
  rw [hcap] at hk
  rw [List.length_replicate] at hkl
  unfold buffer_bytes
  rw [hk, hsz, Option.getD_some, List.drop_replicate, List.append_assoc, ← List.replicate_add,
    List.take_append_eq_append_take, List.take_of_length_le (by omega), List.take_replicate,
    Nat.min_eq_left (by omega)]

theorem tags_fit_cons (name_max value_max : Nat) (t : gsf_tag_t) (rest : List gsf_tag_t)
    (h : tags_fit name_max value_max (t :: rest)) :
    (∀ name value, t.name_buf = some name → t.value_buf = some value →
      (utf8_encode name).length ≤ name_max ∧ (utf8_encode value).length ≤ value_max) ∧
    tags_fit name_max value_max rest :=
  ⟨h t (List.mem_cons_self _ _), fun t' ht' => h t' (List.mem_cons_of_mem _ ht')⟩

/-- When every name and every value fits into its conversion buffer, the loop
of `write_gsf_tags_to_file` writes the lines of the entries, and leaves the log
and the capacities as they were. -/
theorem write_gsf_tags_loop_fits (env : Env) (hopen : env.iconv_open "UTF-8" "wchar_t" = true)
    (gsf_tag_buf : List gsf_tag_t) :
    ∀ (out_name_buf out_value_buf : buffer_t) (f : List Nat) (out : List Diag),
      tags_fit (conversion_capacity out_name_buf) (conversion_capacity out_value_buf)
        gsf_tag_buf →
      (write_gsf_tags_loop env gsf_tag_buf out_name_buf out_value_buf f out).f =
        f ++ gsf_tag_buf.flatMap tag_entry_lines ∧
      (write_gsf_tags_loop env gsf_tag_buf out_name_buf out_value_buf f out).out = out ∧
      conversion_capacity
          (write_gsf_tags_loop env gsf_tag_buf out_name_buf out_value_buf f out).out_name_buf =
        conversion_capacity out_name_buf ∧
      conversion_capacity
          (write_gsf_tags_loop env gsf_tag_buf out_name_buf out_value_buf f out).out_value_buf =
        conversion_capacity out_value_buf := by
  induction gsf_tag_buf with
  | nil =>
    intro nb vb f out _
    simp [write_gsf_tags_loop]
  | cons t rest ih =>
    intro nb vb f out hfit
    obtain ⟨ht, hrest⟩ := tags_fit_cons _ _ t rest hfit
    rcases t with ⟨_ | name, _ | value⟩
    · simpa [write_gsf_tags_loop, tag_entry_lines] using ih nb vb f out hrest
    · simpa [write_gsf_tags_loop, tag_entry_lines] using ih nb vb f out hrest
    · simpa [write_gsf_tags_loop, tag_entry_lines] using ih nb vb f out hrest
    · obtain ⟨hn, hv⟩ := ht name value rfl rfl
      obtain ⟨n1, n2, _, n4⟩ := iconv_2_fits env "UTF-8" "wchar_t" { nb with size := 0 } name out
        hopen rfl (by rw [conversion_capacity_reset]; exact hn)
      obtain ⟨v1, v2, _, v4⟩ := iconv_2_fits env "UTF-8" "wchar_t" { vb with size := 0 } value
        (iconv_2 env "UTF-8" "wchar_t" { nb with size := 0 } name out).2.2
        hopen rfl (by rw [conversion_capacity_reset]; exact hv)
      rw [conversion_capacity_reset] at n4 v4
      have hrest' : tags_fit
          (conversion_capacity (iconv_2 env "UTF-8" "wchar_t" { nb with size := 0 } name out).2.1)
          (conversion_capacity (iconv_2 env "UTF-8" "wchar_t" { vb with size := 0 } value
            (iconv_2 env "UTF-8" "wchar_t" { nb with size := 0 } name out).2.2).2.1) rest := by
        rw [n4, v4]
        exact hrest
      have key := ih _ _
        (fputc 10 (write_tag_value
          (buffer_bytes (iconv_2 env "UTF-8" "wchar_t" { nb with size := 0 } name out).2.1)
          (buffer_bytes (iconv_2 env "UTF-8" "wchar_t" { vb with size := 0 } value
            (iconv_2 env "UTF-8" "wchar_t" { nb with size := 0 } name out).2.2).2.1)
          (fputc ('=').toNat (fwrite
            (buffer_bytes (iconv_2 env "UTF-8" "wchar_t" { nb with size := 0 } name out).2.1)
            f))))
        (iconv_2 env "UTF-8" "wchar_t" { vb with size := 0 } value
            (iconv_2 env "UTF-8" "wchar_t" { nb with size := 0 } name out).2.2).2.2 hrest'
      obtain ⟨k1, k2, k3, k4⟩ := key
      simp only [write_gsf_tags_loop, tag_entry_lines, List.flatMap_cons]
      refine ⟨?_, k2.trans (v2.trans n2), k3.trans n4, k4.trans v4⟩
      rw [k1, v1, n1, write_tag_value_segments, tag_lines_eq]
      simp [fwrite, fputc]

/-- When every name and every value fits into its conversion buffer,
`write_gsf_tags_to_file` appends the tag block, and leaves the log and the
capacities as they were. -/
theorem write_gsf_tags_to_file_fits (env : Env)
    (hopen : env.iconv_open "UTF-8" "wchar_t" = true) (out_name_buf out_value_buf : buffer_t)
    (gsf_tag_buf : List gsf_tag_t) (f : List Nat) (out : List Diag)
    (hfit : tags_fit (conversion_capacity out_name_buf) (conversion_capacity out_value_buf)
      gsf_tag_buf) :
    (write_gsf_tags_to_file env out_name_buf out_value_buf gsf_tag_buf f out).f =
      f ++ tag_block gsf_tag_buf ∧
    (write_gsf_tags_to_file env out_name_buf out_value_buf gsf_tag_buf f out).out = out ∧
    conversion_capacity
        (write_gsf_tags_to_file env out_name_buf out_value_buf gsf_tag_buf f out).out_name_buf =
      conversion_capacity out_name_buf ∧
    conversion_capacity
        (write_gsf_tags_to_file env out_name_buf out_value_buf gsf_tag_buf f out).out_value_buf =
      conversion_capacity out_value_buf := by
  obtain ⟨h1, h2, h3, h4⟩ := write_gsf_tags_loop_fits env hopen gsf_tag_buf out_name_buf
    out_value_buf (fwrite (ascii "[TAG]") f) out hfit
  refine ⟨?_, h2, h3, h4⟩
  show fwrite (ascii "utf8=1") (write_gsf_tags_loop env gsf_tag_buf out_name_buf out_value_buf
    (fwrite (ascii "[TAG]") f) out).f = _
  rw [h1]
  simp [tag_block, fwrite]

/-- The capacity of a conversion buffer is at least `0x200` when the buffer is
new, as both static buffers of `write_gsf_tags_to_file` are at the start. -/
theorem conversion_capacity_new : conversion_capacity DEFAULT_BUFFER_T = 0x200 := rfl

/-- A value with `k` newlines has `k + 1` segments, none of which holds a
newline, and joining them with newlines gives the value back; an entry whose
value is cleared has no lines. -/
theorem tag_lines_segments :
    (∀ name : List Char, tag_entry_lines ⟨some name, none⟩ = []) ∧
    (∀ value : List Char,
      (value.splitOn NEWLINE).length = value.count NEWLINE + 1 ∧
      (∀ segment ∈ value.splitOn NEWLINE, NEWLINE ∉ segment) ∧
      [NEWLINE].intercalate (value.splitOn NEWLINE) = value) := by
  refine ⟨fun _ => rfl, fun value => ⟨?_, ?_, List.intercalate_splitOn _ _⟩⟩
  · induction value with
    | nil => simp [List.splitOn]
    | cons ch rest ih =>
      have hne : rest.splitOn NEWLINE ≠ [] := List.splitOnP_ne_nil _ _
      by_cases hch : ch = NEWLINE
      · subst hch
        simp only [List.splitOn, List.splitOnP_cons, beq_self_eq_true, if_true,
          List.length_cons, List.count_cons_self] at ih ⊢
        omega
      · have hb : (ch == NEWLINE) = false := by simpa using hch
        have hc : rest.count NEWLINE = (ch :: rest).count NEWLINE := by
          rw [List.count_cons_of_ne (Ne.symm hch)]
        simp only [List.splitOn, List.splitOnP_cons, hb, Bool.false_eq_true, if_false] at ih ⊢
        rw [← hc, ← ih]
        cases h : List.splitOnP (fun x => x == NEWLINE) rest with
        | nil => simp
        | cons s0 segs => simp
  · induction value with
    | nil => simp [List.splitOn]
    | cons ch rest ih =>
      intro segment hseg
      by_cases hch : ch = NEWLINE
      · subst hch
        simp only [List.splitOn, List.splitOnP_cons, beq_self_eq_true, if_true,
          List.mem_cons] at hseg ih
        rcases hseg with h | h
        · subst h; simp
        · exact ih segment h
      · have hb : (ch == NEWLINE) = false := by simpa using hch
        simp only [List.splitOn, List.splitOnP_cons, hb, Bool.false_eq_true, if_false] at hseg ih
        cases h : List.splitOnP (fun x => x == NEWLINE) rest with
        | nil => simp [h] at hseg
        | cons s0 segs =>
          rw [h] at hseg ih
          simp only [List.modifyHead_cons, List.mem_cons] at hseg
          rcases hseg with h' | h'
          · subst h'
            intro hmem
            rcases List.mem_cons.mp hmem with h1 | h1
            · exact hch h1.symm
            · exact ih s0 (List.mem_cons_self _ _) h1
          · exact ih segment (List.mem_cons_of_mem _ h')

/-! ## Lemmas on the tag store -/

theorem get_gsf_tag_from_shift (name : List Char) (l : List gsf_tag_t) :
    ∀ i, get_gsf_tag_from name l i = (get_gsf_tag_from name l 0).map (· + i) := by
  induction l with
  | nil => intro i; rfl
  | cons t rest ih =>
    intro i
    by_cases h : t.name_buf = some name
    · simp [get_gsf_tag_from, h]
    · simp only [get_gsf_tag_from, h, if_false]
      rw [ih (i + 1), ih (0 + 1)]
      cases get_gsf_tag_from name rest 0 with
      | none => rfl
      | some j => simp; omega

theorem get_gsf_tag_cons (name : List Char) (t : gsf_tag_t) (rest : List gsf_tag_t) :
    get_gsf_tag (t :: rest) name =
      if t.name_buf = some name then some 0 else (get_gsf_tag rest name).map (· + 1) := by
  unfold get_gsf_tag
  simp only [get_gsf_tag_from]
  split_ifs
  · rfl
  · exact get_gsf_tag_from_shift name rest (0 + 1)

theorem get_gsf_tag_none_iff (name : List Char) (l : List gsf_tag_t) :
    get_gsf_tag l name = none ↔ ∀ t ∈ l, t.name_buf ≠ some name := by
  induction l with
  | nil => simp [get_gsf_tag, get_gsf_tag_from]
  | cons t rest ih =>
    rw [get_gsf_tag_cons]
    by_cases h : t.name_buf = some name
    · simp [h]
    · simp [h, ih]

theorem get_gsf_tag_some_split (name : List Char) (l : List gsf_tag_t) :
    ∀ i, get_gsf_tag l name = some i →
      ∃ pre e post, l = pre ++ e :: post ∧ pre.length = i ∧ e.name_buf = some name ∧
        get_gsf_tag pre name = none := by
  induction l with
  | nil => intro i h; simp [get_gsf_tag, get_gsf_tag_from] at h
  | cons t rest ih =>
    intro i h
    rw [get_gsf_tag_cons] at h
    by_cases hn : t.name_buf = some name
    · simp only [hn, if_true, Option.some.injEq] at h
      exact ⟨[], t, rest, rfl, by simpa using h, hn, rfl⟩
    · simp only [hn, if_false] at h
      cases hr : get_gsf_tag rest name with
      | none => simp [hr] at h
      | some j =>
        simp only [hr, Option.map_some', Option.some.injEq] at h
        obtain ⟨pre, e, post, h1, h2, h3, h4⟩ := ih j hr
        refine ⟨t :: pre, e, post, by simp [h1], by simp [h2, h], h3, ?_⟩
        rw [get_gsf_tag_cons]
        simp [hn, h4]

theorem get_gsf_tag_append_found (name : List Char) (pre : List gsf_tag_t) (e : gsf_tag_t)
    (post : List gsf_tag_t) (hpre : get_gsf_tag pre name = none) (he : e.name_buf = some name) :
    get_gsf_tag (pre ++ e :: post) name = some pre.length := by
  induction pre with
  | nil => simp [get_gsf_tag_cons, he]
  | cons t pre ih =>
    rw [get_gsf_tag_cons] at hpre
    by_cases hn : t.name_buf = some name
    · simp [hn] at hpre
    · simp only [hn, if_false, Option.map_eq_none'] at hpre
      simp [get_gsf_tag_cons, hn, ih hpre]

theorem get_gsf_tag_append_new (name : List Char) (l : List gsf_tag_t) (e : gsf_tag_t)
    (hl : get_gsf_tag l name = none) (he : e.name_buf = some name) :
    get_gsf_tag (l ++ [e]) name = some l.length :=
  get_gsf_tag_append_found name l e [] hl he

theorem update_tag_split (f : gsf_tag_t → gsf_tag_t) (pre : List gsf_tag_t) (e : gsf_tag_t)
    (post : List gsf_tag_t) :
    update_tag f (pre ++ e :: post) pre.length = pre ++ f e :: post := by
  induction pre with
  | nil => rfl
  | cons t pre ih => simp [update_tag, ih]

theorem get_at_split (pre : List gsf_tag_t) (e : gsf_tag_t) (post : List gsf_tag_t) :
    (pre ++ e :: post).get? pre.length = some e := by
  induction pre with
  | nil => rfl
  | cons t pre ih => simpa using ih

theorem set_gsf_tag_found (store : List gsf_tag_t) (name : List Char)
    (value : Option (List Char)) (pre : List gsf_tag_t) (e : gsf_tag_t) (post : List gsf_tag_t)
    (hs : store = pre ++ e :: post) (he : e.name_buf = some name)
    (hpre : get_gsf_tag pre name = none) :
    set_gsf_tag store name value =
      pre ++ { e with value_buf := if value = some [] then none else value } :: post := by
  subst hs
  unfold set_gsf_tag
  simp only [get_gsf_tag_append_found name pre e post hpre he]
  rcases value with _ | v
  · simp [update_tag_split]
  · cases v with
    | nil => simp [update_tag_split]
    | cons c v => simp [update_tag_split]

theorem set_gsf_tag_new (store : List gsf_tag_t) (name : List Char) (v : List Char)
    (hv : v ≠ []) (h : get_gsf_tag store name = none) :
    set_gsf_tag store name (some v) = store ++ [{ name_buf := some name, value_buf := some v }] := by
  unfold set_gsf_tag
  simp only [h]
  have : v.length ≠ 0 := by
    intro hl
    exact hv (List.length_eq_zero.mp hl)
  simp [this]

theorem set_gsf_tag_names (store : List gsf_tag_t) (name : List Char)
    (value : Option (List Char)) :
    (set_gsf_tag store name value).map (·.name_buf) = store.map (·.name_buf) ∨
      (get_gsf_tag store name = none ∧
        (set_gsf_tag store name value).map (·.name_buf) = store.map (·.name_buf) ++ [some name]) := by
  cases h : get_gsf_tag store name with
  | some i =>
    obtain ⟨pre, e, post, hs, _, he, hpre⟩ := get_gsf_tag_some_split name store i h
    left
    rw [set_gsf_tag_found store name value pre e post hs he hpre, hs]
    simp
  | none =>
    unfold set_gsf_tag
    simp only [h]
    split_ifs
    · right
      simp
    · left
      rfl

theorem reachable_names_nodup (ops : List (List Char × Option (List Char))) :
    ∀ store : List gsf_tag_t, (store.map (·.name_buf)).Nodup →
      ((ops.foldl (fun s op => set_gsf_tag s op.1 op.2) store).map (·.name_buf)).Nodup := by
  induction ops with
  | nil => intro store h; exact h
  | cons op ops ih =>
    intro store h
    apply ih
    rcases set_gsf_tag_names store op.1 op.2 with h1 | ⟨hnone, h1⟩
    · rw [h1]; exact h
    · rw [h1]
      rw [List.nodup_append]
      refine ⟨h, List.nodup_singleton _, ?_⟩
      intro x hx hx'
      simp only [List.mem_singleton] at hx'
      subst hx'
      rw [List.mem_map] at hx
      obtain ⟨t, ht, hname⟩ := hx
      exact (get_gsf_tag_none_iff op.1 store).mp hnone t ht hname

theorem get_gsf_tag_value_split (name : List Char) (pre : List gsf_tag_t) (e : gsf_tag_t)
    (post : List gsf_tag_t) (hpre : get_gsf_tag pre name = none) (he : e.name_buf = some name) :
    get_gsf_tag_value (pre ++ e :: post) name = e.value_buf := by
  unfold get_gsf_tag_value
  rw [get_gsf_tag_append_found name pre e post hpre he]
  simp only [get_at_split]

theorem get_gsf_tag_value_none (name : List Char) (store : List gsf_tag_t)
    (h : get_gsf_tag store name = none) : get_gsf_tag_value store name = none := by
  unfold get_gsf_tag_value
  rw [h]

theorem get_gsf_tag_value_set (store : List gsf_tag_t) (name : List Char)
    (value : Option (List Char)) :
    get_gsf_tag_value (set_gsf_tag store name value) name =
      if value = some [] then none else value := by
  cases h : get_gsf_tag store name with
  | some i =>
    obtain ⟨pre, e, post, hs, _, he, hpre⟩ := get_gsf_tag_some_split name store i h
    rw [set_gsf_tag_found store name value pre e post hs he hpre]
    exact get_gsf_tag_value_split name pre _ post hpre he
  | none =>
    rcases value with _ | v
    · have : set_gsf_tag store name none = store := by
        unfold set_gsf_tag
        simp [h]
      rw [this, get_gsf_tag_value_none name store h]
      rfl
    · by_cases hv : v = []
      · subst hv
        have : set_gsf_tag store name (some []) = store := by
          unfold set_gsf_tag
          simp [h]
        rw [this, get_gsf_tag_value_none name store h]
        rfl
      · rw [set_gsf_tag_new store name v hv h]
        rw [get_gsf_tag_value_split name store _ [] h rfl]
        simp [hv]

/-! ## Lemmas on the range loop -/

theorem make_minigsf_song_id (env : Env) (st st' : State)
    (h : make_minigsf env st = .ok st') : st'.song_id = st.song_id := by
  unfold make_minigsf at h
  split_ifs at h with hlib
  · simp only [Except.ok.injEq] at h
    subst h
    rfl
  · split at h
    · simp only [Except.ok.injEq] at h
      subst h
      rfl
    · split at h
      · simp at h
      · simp only [Except.ok.injEq] at h
        subst h
        rfl
      · dsimp only at h
        split_ifs at h with hopen
        · simp only [Except.ok.injEq] at h
          subst h
          rfl
        · simp only [Except.ok.injEq] at h
          subst h
          rfl

theorem make_minigsf_for_ids_song_id (env : Env) (ids : List Nat) (st : State) (x y : Nat) :
    (match make_minigsf_for_ids env ids { st with song_id := x } with
      | .error e => (.error e : Except Stop State)
      | .ok st' => .ok { st' with song_id := y }) =
    (match make_minigsf_for_ids env ids st with
      | .error e => .error e
      | .ok st' => .ok { st' with song_id := y }) := by
  cases ids with
  | nil => rfl
  | cons id ids => rfl

theorem minigsf_range_loop_no_wrap (env : Env) (range_end step : Nat) :
    ∀ (n fuel : Nat) (st : State), n < fuel →
      (∀ k, k < n → st.song_id + k * step ≤ range_end) →
      range_end < st.song_id + n * step → st.song_id + n * step < 2 ^ 32 →
      minigsf_range_loop env fuel st range_end step =
        match make_minigsf_for_ids env
            ((List.range n).map (fun k => st.song_id + k * step)) st with
        | .error e => .error e
        | .ok st' => .ok { st' with song_id := st.song_id + n * step } := by
  intro n
  induction n with
  | zero =>
    intro fuel st hfuel _ hend _
    obtain ⟨fuel, rfl⟩ : ∃ m, fuel = m + 1 := ⟨fuel - 1, by omega⟩
    have hgt : ¬ st.song_id ≤ range_end := by omega
    simp [minigsf_range_loop, hgt, make_minigsf_for_ids]
  | succ n ih =>
    intro fuel st hfuel hle hend hlt
    obtain ⟨fuel, rfl⟩ : ∃ m, fuel = m + 1 := ⟨fuel - 1, by omega⟩
    have h0 : st.song_id ≤ range_end := by simpa using hle 0 (by omega)
    have hrange : (List.range (n + 1)).map (fun k => st.song_id + k * step) =
        st.song_id :: (List.range n).map (fun k => st.song_id + step + k * step) := by
      rw [List.range_succ_eq_map]
      simp only [List.map_cons, List.map_map, Nat.zero_mul, Nat.add_zero]
      congr 1
      apply List.map_congr_left
      intro k _
      simp only [Function.comp, Nat.succ_eq_add_one]
      ring
    rw [hrange]
    have hst : ({ st with song_id := st.song_id } : State) = st := rfl
    simp only [minigsf_range_loop, h0, if_true, make_minigsf_for_ids, hst]
    cases hm : make_minigsf env st with
    | error e => rfl
    | ok st1 =>
      have hid := make_minigsf_song_id env st st1 hm
      have hmod : (st1.song_id + step) % 2 ^ 32 = st.song_id + step := by
        rw [hid]
        apply Nat.mod_eq_of_lt
        have : step ≤ (n + 1) * step := Nat.le_mul_of_pos_left step (by omega)
        omega
      simp only [hmod]
      have key := ih fuel { st1 with song_id := st.song_id + step } (by omega)
        (by
          intro k hk
          have := hle (k + 1) (by omega)
          simp only [] at this ⊢
          have e : (k + 1) * step = step + k * step := by ring
          omega)
        (by
          simp only []
          have e : (n + 1) * step = step + n * step := by ring
          omega)
        (by
          simp only []
          have e : (n + 1) * step = step + n * step := by ring
          omega)
      simp only [] at key
      rw [key]
      have e : st.song_id + step + n * step = st.song_id + (n + 1) * step := by ring
      rw [e]
      exact make_minigsf_for_ids_song_id env _ st1 _ _

/-- Without wraparound the range loop does what the words of the specification
say: when `start` exceeds `range_end` it runs `make_minigsf` for no id, and
otherwise, when the first value of `start + k * step` above `range_end` is still
below `2^32`, it runs `make_minigsf` once for each id of `range_ids`, in
increasing order, and for no other id; enough fuel is one unit more than the
number of ids. -/
theorem minigsf_range_no_wrap (env : Env) (st : State) (start range_end step fuel : Nat)
    (hstep : 1 ≤ step)
    (hwrap : start ≤ range_end → start + ((range_end - start) / step + 1) * step < 2 ^ 32)
    (hfuel : (range_ids start range_end step).length < fuel) :
    minigsf_range env fuel st start range_end step =
      match make_minigsf_for_ids env (range_ids start range_end step) st with
      | .error e => .error e
      | .ok st' =>
        .ok { st' with song_id := start + (range_ids start range_end step).length * step } := by
  have hstep' : ¬ step ≤ 0 := by omega
  unfold minigsf_range
  simp only [hstep', if_false]
  by_cases hse : start ≤ range_end
  · have hwrap' := hwrap hse
    have hids : range_ids start range_end step =
        (List.range ((range_end - start) / step + 1)).map (fun k => start + k * step) := by
      simp [range_ids, hse]
    rw [hids] at hfuel ⊢
    simp only [List.length_map, List.length_range] at hfuel ⊢
    have hdiv : (range_end - start) / step * step ≤ range_end - start :=
      Nat.div_mul_le_self _ _
    have hlt : range_end - start < ((range_end - start) / step + 1) * step := by
      have := Nat.lt_div_mul_add (a := range_end - start) (b := step) (by omega)
      rw [Nat.add_mul, Nat.one_mul]
      exact this
    have key := minigsf_range_loop_no_wrap env range_end step
      ((range_end - start) / step + 1) fuel { st with song_id := start } hfuel
      (by
        intro k hk
        simp only []
        have : k * step ≤ (range_end - start) / step * step :=
          Nat.mul_le_mul_right step (by omega)
        omega)
      (by simp only []; omega)
      (by simp only []; exact hwrap')
    simp only [] at key
    rw [key]
    cases (List.range ((range_end - start) / step + 1)).map (fun k => start + k * step) with
    | nil => simp [make_minigsf_for_ids]
    | cons id ids => simp [make_minigsf_for_ids]
  · have hids : range_ids start range_end step = [] := by simp [range_ids, hse]
    rw [hids]
    obtain ⟨fuel, rfl⟩ : ∃ m, fuel = m + 1 := ⟨fuel - 1, by rw [hids] at hfuel; simp at hfuel; omega⟩
    have hgt : ¬ start ≤ range_end := hse
    simp [minigsf_range_loop, hgt, make_minigsf_for_ids]

theorem minigsf_range_no_wrap_example :
    range_ids 1 5 2 = [1, 3, 5] ∧
    minigsf_range example_env 4 initial_state 1 5 2 =
      match make_minigsf_for_ids example_env (range_ids 1 5 2) initial_state with
      | .error e => .error e
      | .ok st' =>
        .ok { st' with song_id := 1 + (range_ids 1 5 2).length * 2 } :=
  ⟨by decide, minigsf_range_no_wrap example_env initial_state 1 5 2 4 (by decide) (by decide)
    (by decide)⟩

theorem minigsf_range_1_5_2 :
    (main_loop example_env 10 initial_state range_script_1_5_2).toOption.map
        (fun st => (st.files.map (fun file => String.mk file.1), st.song_number, st.song_id)) =
      some (["1", "3", "5"], 4, 7) := by
  decide

/-! ## Lemmas on what the parsing functions leave unchanged -/

theorem parse_one_token_globals (env : Env) (line_start : Option (List Char)) (st : State) :
    (parse_one_token env line_start st).2.same_globals st ∧
      (parse_one_token env line_start st).2.files = st.files := by
  unfold parse_one_token State.same_globals
  cases line_start <;> dsimp only <;>
    repeat' (first | exact ⟨⟨rfl, rfl, rfl, rfl, rfl, rfl⟩, rfl⟩ | split)

theorem parse_one_token_type_globals (env : Env) (line_start : Option (List Char))
    (expected_type : TokType) (st : State) :
    (parse_one_token_type env line_start expected_type st).2.same_globals st ∧
      (parse_one_token_type env line_start expected_type st).2.files = st.files := by
  have h := parse_one_token_globals env line_start st
  unfold parse_one_token_type
  rcases hp : parse_one_token env line_start st with ⟨_ | tok, st1⟩
  · rw [hp] at h
    exact h
  · rw [hp] at h
    dsimp only
    split_ifs
    · exact h
    · exact h

/-- Parsing a token leaves the static buffers of `write_gsf_tags_to_file` alone. -/
theorem parse_one_token_statics (env : Env) (line_start : Option (List Char)) (st : State) :
    (parse_one_token env line_start st).2.out_name_buf = st.out_name_buf ∧
      (parse_one_token env line_start st).2.out_value_buf = st.out_value_buf := by
  unfold parse_one_token
  cases line_start <;> dsimp only <;>
    repeat' (first | exact ⟨rfl, rfl⟩ | split)

theorem parse_one_token_type_statics (env : Env) (line_start : Option (List Char))
    (expected_type : TokType) (st : State) :
    (parse_one_token_type env line_start expected_type st).2.out_name_buf = st.out_name_buf ∧
      (parse_one_token_type env line_start expected_type st).2.out_value_buf =
        st.out_value_buf := by
  have h := parse_one_token_statics env line_start st
  unfold parse_one_token_type
  rcases hp : parse_one_token env line_start st with ⟨_ | tok, st1⟩
  · rw [hp] at h
    exact h
  · rw [hp] at h
    dsimp only
    split_ifs
    · exact h
    · exact h

/-! ## The `unsigned` globals stay 32-bit values -/

theorem wf_of_same_globals (a b : State) (h : a.same_globals b) (hb : b.wf) : a.wf := by
  obtain ⟨h1, _, h3, h4, h5, _⟩ := h
  unfold State.wf at hb ⊢
  rw [h1, h3, h4, h5]
  exact hb

theorem parse_one_token_type_wf (env : Env) (line_start : Option (List Char))
    (expected_type : TokType) (st : State) (h : st.wf) :
    (parse_one_token_type env line_start expected_type st).2.wf :=
  wf_of_same_globals _ _ (parse_one_token_type_globals env line_start expected_type st).1 h

theorem parse_set_gsf_tag_wf (env : Env) (name : List Char) (st : State) (h : st.wf) :
    (parse_set_gsf_tag env name st).2.wf := by
  have hp := parse_one_token_type_wf env none .TOK_STR st h
  unfold parse_set_gsf_tag
  generalize parse_one_token_type env none .TOK_STR st = r at *
  obtain ⟨_ | tok, st1⟩ := r <;> exact hp

theorem parse_set_gsf_tag_optional_wf (env : Env) (name : List Char) (st : State)
    (h : st.wf) : (parse_set_gsf_tag_optional env name st).2.wf := by
  have hp := parse_one_token_type_wf env none .TOK_STR st h
  unfold parse_set_gsf_tag_optional
  generalize parse_one_token_type env none .TOK_STR st = r at *
  obtain ⟨_ | tok, st1⟩ := r <;> exact hp

theorem set_optional_tags_wf (env : Env) (names : List (List Char)) :
    ∀ st : State, st.wf → (set_optional_tags env names st).wf := by
  induction names with
  | nil => intro st h; exact h
  | cons name names ih =>
    intro st h
    have hp := parse_set_gsf_tag_optional_wf env name st h
    unfold set_optional_tags
    generalize parse_set_gsf_tag_optional env name st = r at *
    obtain ⟨_ | tok, st1⟩ := r
    · exact hp
    · exact ih st1 hp

theorem make_minigsf_wf (env : Env) (st st' : State) (h : st.wf)
    (hm : make_minigsf env st = .ok st') : st'.wf := by
  have hmod : (st.song_number + 1) % 2 ^ 32 < 2 ^ 32 := Nat.mod_lt _ (by norm_num)
  obtain ⟨h1, h2, h3, h4⟩ := h
  unfold make_minigsf at hm
  split_ifs at hm with hlib
  · simp only [Except.ok.injEq] at hm
    subst hm
    exact ⟨h1, h2, h3, h4⟩
  · split at hm
    · simp only [Except.ok.injEq] at hm
      subst hm
      exact ⟨h1, h2, h3, h4⟩
    · split at hm
      · simp at hm
      · simp only [Except.ok.injEq] at hm
        subst hm
        exact ⟨h1, h2, h3, h4⟩
      · dsimp only at hm
        split_ifs at hm with hopen
        · simp only [Except.ok.injEq] at hm
          subst hm
          exact ⟨h1, h2, h3, h4⟩
        · simp only [Except.ok.injEq] at hm
          subst hm
          exact ⟨h1, h2, hmod, h4⟩

theorem make_gsflib_wf (env : Env) (st st' : State) (inname outname outname' : List Char)
    (h : st.wf) (hm : make_gsflib env st inname outname = .ok (st', outname')) : st'.wf := by
  unfold make_gsflib at hm
  split_ifs at hm with hlib
  · simp only [Except.ok.injEq, Prod.mk.injEq] at hm
    obtain ⟨rfl, _⟩ := hm
    exact h
  · dsimp only at hm
    split at hm
    · simp only [Except.ok.injEq, Prod.mk.injEq] at hm
      obtain ⟨rfl, _⟩ := hm
      exact h
    · split at hm
      · simp at hm
      · split_ifs at hm with hopen <;>
          (simp only [Except.ok.injEq, Prod.mk.injEq] at hm
           obtain ⟨rfl, _⟩ := hm
           exact h)

theorem minigsf_range_loop_wf (env : Env) (range_end step : Nat) :
    ∀ (fuel : Nat) (st st' : State), st.wf →
      minigsf_range_loop env fuel st range_end step = .ok st' → st'.wf := by
  intro fuel
  induction fuel with
  | zero => intro st st' _ h; simp [minigsf_range_loop] at h
  | succ fuel ih =>
    intro st st' hwf h
    unfold minigsf_range_loop at h
    split_ifs at h with hle
    · cases hm : make_minigsf env st with
      | error e => simp [hm] at h
      | ok st1 =>
        simp only [hm] at h
        have h1 := make_minigsf_wf env st st1 hwf hm
        apply ih _ st' _ h
        obtain ⟨a, b, c, _⟩ := h1
        exact ⟨a, b, c, Nat.mod_lt _ (by norm_num)⟩
    · simp only [Except.ok.injEq] at h
      subst h
      exact hwf

theorem minigsf_range_wf (env : Env) (fuel : Nat) (st st' : State) (start range_end step : Nat)
    (hwf : st.wf) (hstart : start < 2 ^ 32)
    (h : minigsf_range env fuel st start range_end step = .ok st') : st'.wf := by
  unfold minigsf_range at h
  split_ifs at h
  · simp only [Except.ok.injEq] at h
    subst h
    exact hwf
  · apply minigsf_range_loop_wf env range_end step fuel _ st' _ h
    obtain ⟨a, b, c, _⟩ := hwf
    exact ⟨a, b, c, hstart⟩

theorem ite_ok_cases {c : Prop} [Decidable c] {a b : Except Stop State} {P : State → Prop}
    (ha : ∀ s, a = .ok s → P s) (hb : ∀ s, b = .ok s → P s) :
    ∀ s, (if c then a else b) = .ok s → P s := by
  intro s h
  by_cases hc : c
  · rw [if_pos hc] at h
    exact ha s h
  · rw [if_neg hc] at h
    exact hb s h

theorem main_MakeGSFLib_wf (env : Env) (st : State) (hwf : st.wf) :
    ∀ s, main_MakeGSFLib env st = .ok s → s.wf := by
  intro s h
  have hstr := parse_one_token_type_wf env none .TOK_STR st hwf
  unfold main_MakeGSFLib at h
  generalize parse_one_token_type env none .TOK_STR st = r at *
  obtain ⟨_ | tok, st2⟩ := r
  · simp only [Except.ok.injEq] at h
    subst h
    exact hstr
  · dsimp only at h hstr
    have hstr2 := parse_one_token_type_wf env none .TOK_STR st2 hstr
    generalize parse_one_token_type env none .TOK_STR st2 = r at *
    obtain ⟨_ | tok2, st3⟩ := r
    · simp only [Except.ok.injEq] at h
      subst h
      exact hstr2
    · dsimp only at h hstr2
      cases hm : make_gsflib env st3 tok.text tok2.text with
      | error e => simp [hm] at h
      | ok r =>
        obtain ⟨st4, outname⟩ := r
        simp only [hm, Except.ok.injEq] at h
        subst h
        exact make_gsflib_wf env st3 st4 _ _ _ hstr2 hm

theorem main_GSFLib_wf (env : Env) (st : State) (hwf : st.wf) : (main_GSFLib env st).wf := by
  have hstr := parse_one_token_type_wf env none .TOK_STR st hwf
  unfold main_GSFLib
  split_ifs
  · generalize parse_one_token_type env none .TOK_STR st = r at *
    obtain ⟨_ | tok, st2⟩ := r <;> exact hstr
  · exact hwf

theorem main_Tag_wf (env : Env) (st : State) (hwf : st.wf) : (main_Tag env st).wf := by
  have hstr := parse_one_token_type_wf env none .TOK_STR st hwf
  unfold main_Tag
  generalize parse_one_token_type env none .TOK_STR st = r at *
  obtain ⟨_ | tok, st2⟩ := r
  · exact hstr
  · dsimp only at hstr ⊢
    split_ifs
    · exact parse_set_gsf_tag_wf env _ _ hstr
    · exact hstr

theorem main_FilenameTemplate_wf (env : Env) (st : State) (hwf : st.wf) :
    (main_FilenameTemplate env st).wf := by
  have hstr := parse_one_token_type_wf env none .TOK_STR st hwf
  unfold main_FilenameTemplate
  generalize parse_one_token_type env none .TOK_STR st = r at *
  obtain ⟨_ | tok, st2⟩ := r <;> exact hstr

theorem main_MiniGSFOffset_wf (env : Env) (st : State) (hwf : st.wf) :
    (main_MiniGSFOffset env st).wf := by
  have hnum := parse_one_token_type_wf env none .TOK_NUM st hwf
  unfold main_MiniGSFOffset
  generalize parse_one_token_type env none .TOK_NUM st = r at *
  obtain ⟨_ | tok, st2⟩ := r
  · exact hnum
  · obtain ⟨a, _, c, d⟩ := hnum
    exact ⟨a, Nat.mod_lt _ (by norm_num), c, d⟩

theorem main_SetSongNumber_wf (env : Env) (st : State) (hwf : st.wf) :
    (main_SetSongNumber env st).wf := by
  have hnum := parse_one_token_type_wf env none .TOK_NUM st hwf
  unfold main_SetSongNumber
  generalize parse_one_token_type env none .TOK_NUM st = r at *
  obtain ⟨_ | tok, st2⟩ := r
  · exact hnum
  · obtain ⟨a, b, _, d⟩ := hnum
    exact ⟨a, b, Nat.mod_lt _ (by norm_num), d⟩

theorem main_MakeMiniGSF_wf (env : Env) (st : State) (hwf : st.wf) :
    ∀ s, main_MakeMiniGSF env st = .ok s → s.wf := by
  intro s h
  have hnum := parse_one_token_type_wf env none .TOK_NUM st hwf
  unfold main_MakeMiniGSF at h
  generalize parse_one_token_type env none .TOK_NUM st = r at *
  obtain ⟨_ | tok, st2⟩ := r
  · simp only [Except.ok.injEq] at h
    subst h
    exact hnum
  · dsimp only at h hnum
    apply make_minigsf_wf env _ s _ h
    apply set_optional_tags_wf
    obtain ⟨a, b, c, _⟩ := hnum
    exact ⟨a, b, c, Nat.mod_lt _ (by norm_num)⟩

theorem main_MakeMiniGSFRange_wf (env : Env) (fuel : Nat) (st : State) (hwf : st.wf) :
    ∀ s, main_MakeMiniGSFRange env fuel st = .ok s → s.wf := by
  intro s h
  have hmod : ∀ v : Nat, v % 2 ^ 32 < 2 ^ 32 := fun v => Nat.mod_lt _ (by norm_num)
  have hnum := parse_one_token_type_wf env none .TOK_NUM st hwf
  unfold main_MakeMiniGSFRange at h
  generalize parse_one_token_type env none .TOK_NUM st = r at *
  obtain ⟨_ | tok, st2⟩ := r
  · simp only [Except.ok.injEq] at h
    subst h
    exact hnum
  · dsimp only at h hnum
    have hnum2 := parse_one_token_type_wf env none .TOK_NUM st2 hnum
    generalize parse_one_token_type env none .TOK_NUM st2 = r at *
    obtain ⟨_ | tok2, st3⟩ := r
    · simp only [Except.ok.injEq] at h
      subst h
      exact hnum2
    · dsimp only at h hnum2
      have hnum3 := parse_one_token_type_wf env none .TOK_NUM st3 hnum2
      generalize parse_one_token_type env none .TOK_NUM st3 = r at *
      obtain ⟨_ | tok3, st4⟩ := r
      · exact minigsf_range_wf env fuel _ s _ _ _ hnum3 (hmod _) h
      · exact minigsf_range_wf env fuel _ s _ _ _ hnum3 (hmod _) h

theorem main_command_wf (env : Env) (fuel : Nat) (st : State) (n : List Char) (hwf : st.wf) :
    ∀ s, main_command env fuel st n = .ok s → s.wf := by
  unfold main_command
  repeat' apply ite_ok_cases
  any_goals exact main_MakeGSFLib_wf env st hwf
  any_goals exact main_MakeMiniGSF_wf env st hwf
  any_goals exact main_MakeMiniGSFRange_wf env fuel st hwf
  all_goals
    intro s hs
    simp only [Except.ok.injEq] at hs
    subst hs
  any_goals exact parse_set_gsf_tag_wf env _ st hwf
  · obtain ⟨_, b, c, d⟩ := hwf
    exact ⟨by norm_num, b, c, d⟩
  · exact main_GSFLib_wf env st hwf
  · exact main_Tag_wf env st hwf
  · exact main_FilenameTemplate_wf env st hwf
  · exact main_MiniGSFOffset_wf env st hwf
  · exact main_SetSongNumber_wf env st hwf
  · exact hwf

theorem main_line_wf (env : Env) (fuel : Nat) (st st' : State) (line : List Char)
    (hwf : st.wf) (h : main_line env fuel st line = .ok st') : st'.wf := by
  have hp := parse_one_token_type_wf env (some line) .TOK_ID st hwf
  unfold main_line at h
  generalize parse_one_token_type env (some line) .TOK_ID st = r at *
  obtain ⟨_ | cmd_tok, st1⟩ := r
  · simp only [Except.ok.injEq] at h
    subst h
    exact hp
  · exact main_command_wf env fuel st1 cmd_tok.text hp st' h

/-- Every state the program reaches holds 32-bit values in its `unsigned`
globals. -/
theorem main_loop_wf (env : Env) (fuel : Nat) (lines : List (List Char)) :
    ∀ st st' : State, st.wf → main_loop env fuel st lines = .ok st' → st'.wf := by
  induction lines with
  | nil =>
    intro st st' hwf h
    simp only [main_loop, Except.ok.injEq] at h
    subst h
    exact hwf
  | cons line lines ih =>
    intro st st' hwf h
    unfold main_loop at h
    cases hl : main_line env fuel st line with
    | error e => simp [hl] at h
    | ok st1 =>
      simp only [hl] at h
      exact ih st1 st' (main_line_wf env fuel st st1 line hwf hl) h

theorem reachable_wf (env : Env) (fuel : Nat) (lines : List (List Char)) (st' : State)
    (h : main_loop env fuel initial_state lines = .ok st') : st'.wf :=
  main_loop_wf env fuel lines initial_state st' (by unfold State.wf; decide) h

/-! ## The claims -/

/-- Claim C1: when `deflateInit` and the `deflate` loop succeed with compressed stream
`c`, `c` is shorter than `2^32` bytes and its CRC32 is a 32-bit value,
`write_gsf_data_to_file` appends to the stream exactly `P`, `S`, `F`, `0x22`, the
little-endian four bytes of `0`, of the length of `c` and of the CRC32 of `c`, and
then `c`: `16 + |c|` bytes, whose bytes 8..11 and 12..15 decode to the length of
`c` and to the CRC32 of the compressed bytes. -/
theorem write_gsf_data_to_file_layout (env : Env) (f data : List Nat) (size : Nat)
    (out : List Diag) (c : List Nat)
    (hinit : env.deflateInit = 0)
    (hdeflate : env.deflate ((data.take size).take (size % 2 ^ 32)) = .ok c)
    (hlen : c.length < 2 ^ 32) (hcrc : env.crc32 c < 2 ^ 32) :
    ∃ written : List Nat,
      (write_gsf_data_to_file env f data size out).1 = f ++ written ∧
      written = [('P').toNat, ('S').toNat, ('F').toNat, 0x22] ++ le32 0 ++ le32 c.length ++
        le32 (env.crc32 c) ++ c ∧
      written.length = 16 + c.length ∧
      le32_decode ((written.drop 8).take 4) = c.length ∧
      le32_decode ((written.drop 12).take 4) = env.crc32 c := by
  refine ⟨_, ?_, rfl, ?_, ?_, ?_⟩
  · unfold write_gsf_data_to_file
    simp only [hinit, ne_eq, not_true_eq_false, if_false, hdeflate, fput32_eq, fputc, fwrite]
    simp [le32]
  · simp [le32]
    omega
  · have h := le32_decode_le32 c.length
    rw [Nat.mod_eq_of_lt hlen] at h
    simpa [le32] using h
  · have h := le32_decode_le32 (env.crc32 c)
    rw [Nat.mod_eq_of_lt hcrc] at h
    simpa [le32] using h

theorem write_gsf_data_to_file_layout_witness :
    ∃ written : List Nat,
      (write_gsf_data_to_file example_env [] [1, 2, 3] 3 []).1 = [] ++ written ∧
      written = [('P').toNat, ('S').toNat, ('F').toNat, 0x22] ++ le32 0 ++
        le32 [0x78, 0x9c, 1, 2, 3].length ++ le32 (example_env.crc32 [0x78, 0x9c, 1, 2, 3]) ++
        [0x78, 0x9c, 1, 2, 3] ∧
      written.length = 16 + [0x78, 0x9c, 1, 2, 3].length ∧
      le32_decode ((written.drop 8).take 4) = [0x78, 0x9c, 1, 2, 3].length ∧
      le32_decode ((written.drop 12).take 4) = example_env.crc32 [0x78, 0x9c, 1, 2, 3] :=
  write_gsf_data_to_file_layout example_env [] [1, 2, 3] 3 [] [0x78, 0x9c, 1, 2, 3]
    (by decide) rfl (by decide) (by decide)

/-- Claim C2: the block `program_data` that `make_minigsf` hands to
`write_gsf_data_to_file` is sixteen bytes: the little-endian four bytes of
`entry_point`, of `minigsf_offset`, of `4` and of `song_id`, and each group
decodes to that value; the file `make_minigsf` writes is what
`write_gsf_data_to_file` makes of these sixteen bytes, followed by the tags. -/
theorem make_minigsf_payload (env : Env) (st : State) (hwf : st.wf) :
    minigsf_program_data st =
      le32 st.entry_point ++ le32 st.minigsf_offset ++ le32 4 ++ le32 st.song_id ∧
    (minigsf_program_data st).length = 16 ∧
    le32_decode ((minigsf_program_data st).take 4) = st.entry_point ∧
    le32_decode (((minigsf_program_data st).drop 4).take 4) = st.minigsf_offset ∧
    le32_decode (((minigsf_program_data st).drop 8).take 4) = 4 ∧
    le32_decode (((minigsf_program_data st).drop 12).take 4) = st.song_id ∧
    (∀ st', make_minigsf env st = .ok st' → st'.files ≠ st.files →
      ∃ filename out, st'.files = st.files ++ [(filename,
        (write_gsf_tags_to_file env st.out_name_buf st.out_value_buf st.gsf_tag_buf
          (write_gsf_data_to_file env [] (minigsf_program_data st)
            (minigsf_program_data st).length out).1
          (write_gsf_data_to_file env [] (minigsf_program_data st)
            (minigsf_program_data st).length out).2).f)]) := by
  obtain ⟨h1, h2, h3, h4⟩ := hwf
  have hlen : (minigsf_program_data st).length = 16 := by
    rw [minigsf_program_data_eq]
    simp [le32]
  have hd : ∀ v, v < 2 ^ 32 → le32_decode (le32 v) = v := by
    intro v hv
    rw [le32_decode_le32, Nat.mod_eq_of_lt hv]
  refine ⟨minigsf_program_data_eq st, hlen, ?_, ?_, ?_, ?_, ?_⟩
  · rw [minigsf_program_data_eq]
    simpa [le32] using hd _ h1
  · rw [minigsf_program_data_eq]
    simpa [le32] using hd _ h2
  · rw [minigsf_program_data_eq]
    simp [le32, le32_decode]
  · rw [minigsf_program_data_eq]
    simpa [le32] using hd _ h4
  · intro st' hst hfiles
    rw [hlen]
    unfold make_minigsf at hst
    split_ifs at hst with hlib
    · simp only [Except.ok.injEq] at hst
      subst hst
      exact absurd rfl hfiles
    · split at hst
      · simp only [Except.ok.injEq] at hst
        subst hst
        exact absurd rfl hfiles
      · split at hst
        · simp at hst
        · simp only [Except.ok.injEq] at hst
          subst hst
          exact absurd rfl hfiles
        · dsimp only at hst
          split_ifs at hst with hopen
          · simp only [Except.ok.injEq] at hst
            subst hst
            exact absurd rfl hfiles
          · simp only [Except.ok.injEq] at hst
            subst hst
            exact ⟨_, _, rfl⟩

theorem make_minigsf_payload_witness :
    minigsf_program_data initial_state =
      le32 initial_state.entry_point ++ le32 initial_state.minigsf_offset ++ le32 4 ++
        le32 initial_state.song_id ∧
    (minigsf_program_data initial_state).length = 16 ∧
    le32_decode ((minigsf_program_data initial_state).take 4) = initial_state.entry_point ∧
    le32_decode (((minigsf_program_data initial_state).drop 4).take 4) =
      initial_state.minigsf_offset ∧
    le32_decode (((minigsf_program_data initial_state).drop 8).take 4) = 4 ∧
    le32_decode (((minigsf_program_data initial_state).drop 12).take 4) =
      initial_state.song_id ∧
    (∀ st', make_minigsf example_env initial_state = .ok st' →
      st'.files ≠ initial_state.files →
      ∃ filename out, st'.files = initial_state.files ++ [(filename,
        (write_gsf_tags_to_file example_env initial_state.out_name_buf
          initial_state.out_value_buf initial_state.gsf_tag_buf
          (write_gsf_data_to_file example_env [] (minigsf_program_data initial_state)
            (minigsf_program_data initial_state).length out).1
          (write_gsf_data_to_file example_env [] (minigsf_program_data initial_state)
            (minigsf_program_data initial_state).length out).2).f)]) :=
  make_minigsf_payload example_env initial_state (by unfold State.wf; decide)

/-- Claim C3: for the bytes `r` read from the source file (any number of them
that leaves the size `12 + |r|` of the buffer within `2^63`, the sizes up to which
the doubling of a `size_t` capacity does not wrap around), `make_gsflib` fills `in_buf` so that its first `size = 12 + |r|` bytes are the
little-endian four bytes of `entry_point`, the same four bytes again, the four
bytes of `|r|`, and then `r`; this block with this size is what it hands to
`write_gsf_data_to_file`, whose output is the file written. -/
theorem make_gsflib_payload (env : Env) (st : State) (inname outname : List Char)
    (r : List Nat) (ferror : Bool)
    (hbytes : ∀ b ∈ r, b < 256) (hlen : 12 + r.length ≤ 2 ^ 63)
    (hlib : get_gsf_tag st.gsf_tag_buf "_lib".toList = none)
    (hin : env.fopen_rb (get_os_filename inname) = some (r, ferror))
    (hout : env.fopen_wb (get_os_filename outname) = true) :
    ∃ (in_buf : buffer_t) (block payload : List Nat) (st' : State) (out : List Diag),
      make_gsflib_in_buf st.entry_point r = some in_buf ∧
      in_buf.data = some block ∧
      payload = block.take in_buf.size ∧
      payload = le32 st.entry_point ++ le32 st.entry_point ++ le32 r.length ++ r ∧
      in_buf.size = 12 + r.length ∧
      payload.length = 12 + r.length ∧
      make_gsflib env st inname outname = .ok (st', get_os_filename outname) ∧
      st'.files = st.files ++ [(get_os_filename outname,
        (write_gsf_data_to_file env [] block in_buf.size out).1)] ∧
      write_gsf_data_to_file env [] block in_buf.size out =
        write_gsf_data_to_file env [] payload payload.length out := by
  obtain ⟨in_buf, block, hbuf, hdata, hle, hsize, htake⟩ :=
    make_gsflib_in_buf_eq st.entry_point r hlen
  have hmap : r.map (· % 256) = r := by
    conv_rhs => rw [← List.map_id r]
    apply List.map_congr_left
    intro b hb
    exact Nat.mod_eq_of_lt (hbytes b hb)
  rw [hmap] at htake
  have hmk : make_gsflib env st inname outname =
      .ok ({ st with
        out := (write_gsf_data_to_file env [] block in_buf.size
          (if ferror then st.out ++ [Diag.error_while_reading (get_os_filename inname)]
            else st.out)).2
        files := st.files ++ [(get_os_filename outname,
          (write_gsf_data_to_file env [] block in_buf.size
            (if ferror then st.out ++ [Diag.error_while_reading (get_os_filename inname)]
              else st.out)).1)] }, get_os_filename outname) := by
    unfold make_gsflib
    simp only [hlib, Option.isSome_none, Bool.false_eq_true, if_false, hin, hbuf, hout, hdata,
      Option.getD_some, Bool.true_eq_false]
  refine ⟨in_buf, block, block.take in_buf.size, _, _,
    hbuf, hdata, rfl, htake, hsize, ?_, hmk, rfl, ?_⟩
  · rw [htake]
    simp [le32]
    omega
  · exact write_gsf_data_take env [] block in_buf.size _ hle

theorem make_gsflib_payload_witness :
    ∃ (in_buf : buffer_t) (block payload : List Nat) (st' : State) (out : List Diag),
      make_gsflib_in_buf initial_state.entry_point [1, 2, 3] = some in_buf ∧
      in_buf.data = some block ∧
      payload = block.take in_buf.size ∧
      payload = le32 initial_state.entry_point ++ le32 initial_state.entry_point ++
        le32 [1, 2, 3].length ++ [1, 2, 3] ∧
      in_buf.size = 12 + [1, 2, 3].length ∧
      payload.length = 12 + [1, 2, 3].length ∧
      make_gsflib example_env initial_state "rom.bin".toList "lib.gsflib".toList =
        .ok (st', get_os_filename "lib.gsflib".toList) ∧
      st'.files = initial_state.files ++ [(get_os_filename "lib.gsflib".toList,
        (write_gsf_data_to_file example_env [] block in_buf.size out).1)] ∧
      write_gsf_data_to_file example_env [] block in_buf.size out =
        write_gsf_data_to_file example_env [] payload payload.length out :=
  make_gsflib_payload example_env initial_state "rom.bin".toList "lib.gsflib".toList
    [1, 2, 3] false (by decide) (by decide) (by decide) (by decide) (by decide)

/-! ## A value longer than the conversion buffer -/

set_option maxRecDepth 1000000 in
/-- The bytes written for the store `long_value_store` when both static buffers
are new: the first `0x200` bytes of the value, which `iconv` stored before the
block was moved, and the zero byte of the new block behind them. -/
theorem long_value_written :
    (write_gsf_tags_to_file example_env DEFAULT_BUFFER_T DEFAULT_BUFFER_T long_value_store
      [] []).f =
      ascii "[TAG]title=" ++ List.replicate 512 97 ++ [0, 10] ++ ascii "utf8=1" := by
  decide

set_option maxRecDepth 1000000 in
theorem long_value_tag_block :
    tag_block long_value_store =
      ascii "[TAG]title=" ++ List.replicate 513 97 ++ [10] ++ ascii "utf8=1" := by
  decide

set_option maxRecDepth 1000000 in
/-- After the call the buffer of the value has twice the capacity, and counts
the 513 bytes of the value. -/
theorem long_value_buffer :
    (write_gsf_tags_to_file example_env DEFAULT_BUFFER_T DEFAULT_BUFFER_T long_value_store
      [] []).out_value_buf.max = 0x400 ∧
    (write_gsf_tags_to_file example_env DEFAULT_BUFFER_T DEFAULT_BUFFER_T long_value_store
      [] []).out_value_buf.size = 513 ∧
    (write_gsf_tags_to_file example_env DEFAULT_BUFFER_T DEFAULT_BUFFER_T long_value_store
      [] []).out = [] := by
  decide

set_option maxRecDepth 1000000 in
/-- The static buffers keep their capacity: a second call for the same store
has room for the value and writes the tag block. -/
theorem long_value_second_call :
    (write_gsf_tags_to_file example_env
      (write_gsf_tags_to_file example_env DEFAULT_BUFFER_T DEFAULT_BUFFER_T long_value_store
        [] []).out_name_buf
      (write_gsf_tags_to_file example_env DEFAULT_BUFFER_T DEFAULT_BUFFER_T long_value_store
        [] []).out_value_buf long_value_store [] []).f = tag_block long_value_store := by
  decide

set_option maxRecDepth 1000000 in
theorem long_value_differs :
    ascii "[TAG]title=" ++ List.replicate 512 97 ++ [0, 10] ++ ascii "utf8=1" ≠
      [] ++ (ascii "[TAG]title=" ++ List.replicate 513 97 ++ [10] ++ ascii "utf8=1") := by
  decide

/-- Claim C4: the output of `write_gsf_tags_to_file` is not the tag block for
every store.  For the store of one tag `title` whose value is 513 letters `a`,
a value longer than the `0x200` bytes of the conversion buffer, the tag block
is `[TAG]title=`, 513 letters `a`, a newline and `utf8=1`, and
`write_gsf_tags_to_file` writes `[TAG]title=`, 512 letters `a`, a zero byte, a
newline and `utf8=1`: `iconv_2` goes on storing through `dest_ptr` after
`expand_buffer` has moved the block. -/
theorem write_gsf_tags_to_file_long_value :
    (write_gsf_tags_to_file example_env DEFAULT_BUFFER_T DEFAULT_BUFFER_T long_value_store
      [] []).f =
      ascii "[TAG]title=" ++ List.replicate 512 97 ++ [0, 10] ++ ascii "utf8=1" ∧
    tag_block long_value_store =
      ascii "[TAG]title=" ++ List.replicate 513 97 ++ [10] ++ ascii "utf8=1" ∧
    (write_gsf_tags_to_file example_env DEFAULT_BUFFER_T DEFAULT_BUFFER_T long_value_store
      [] []).f ≠ [] ++ tag_block long_value_store := by
  refine ⟨long_value_written, long_value_tag_block, ?_⟩
  rw [long_value_written, long_value_tag_block]
  exact long_value_differs

/-- Claim C5 fails on the code at `MakeMiniGSFRange 5 5 4294967295`: the only id of
the range is 5, but `song_id += step` wraps around modulo `2^32` to 4, which is
again at most `end`, and so on down to 0: `make_minigsf` runs for the ids 5, 4,
3, 2, 1, 0 in this order (the mini-files written, named by the template `%i`),
and `song_number` has gone from 1 to 7. -/
theorem minigsf_range_wraps_around :
    (main_loop example_env 10 initial_state range_script).toOption.map
        (fun st => (st.files.map (fun file => String.mk file.1), st.song_number)) =
      some (["5", "4", "3", "2", "1", "0"], 7) := by
  decide

/-- Claim C6 fails on the code at the script `GSFLib "a.gsflib"`,
`MakeGSFLib "rom.bin" "b.gsflib"`: after the first line the library reference is
`a.gsflib`; the second line reports that the reference is already defined and
writes no file, and yet the reference is `b.gsflib` afterwards.  The branch
`GSFLib` does what `MakeGSFLib` misses: with a reference recorded it reports the
error and leaves the tag store as it is. -/
theorem makegsflib_overwrites_lib :
    ((main_loop example_env 0 initial_state (lib_script.take 1)).toOption.map
        (fun st => get_gsf_tag_value st.gsf_tag_buf "_lib".toList) =
      some (some "a.gsflib".toList)) ∧
    ((main_loop example_env 0 initial_state lib_script).toOption.map
        (fun st => (get_gsf_tag_value st.gsf_tag_buf "_lib".toList, st.out, st.files)) =
      some (some "b.gsflib".toList, [Diag.gsflib_already_defined], [])) ∧
    (∀ (env : Env) (st : State), get_gsf_tag st.gsf_tag_buf "_lib".toList ≠ none →
      (main_GSFLib env st).gsf_tag_buf = st.gsf_tag_buf ∧
      (main_GSFLib env st).out = st.out ++ [Diag.gsflib_already_defined]) := by
  refine ⟨by decide, by decide, ?_⟩
  intro env st h
  have h' : ¬ (get_gsf_tag st.gsf_tag_buf "_lib".toList).isNone = true := by
    simpa [Option.isNone_iff_eq_none] using h
  simp only [main_GSFLib, h', Bool.false_eq_true, if_false, and_self]

/-- Claim C7: `make_minigsf` writes no file and leaves `song_number` as it is when no
library reference is set, when no filename template is set, and when the
expansion of the template fails; when it writes a mini-file it adds one to
`song_number` modulo `2^32`.  It returns in every case but that of an expansion
that does not return, and whenever it returns, `entry_point`, `minigsf_offset`,
`song_id`, the template and the tag store are as before, and either nothing was
written and `song_number` is unchanged, or one file was written and
`song_number` went up by one. -/
theorem make_minigsf_effect (env : Env) (st : State) :
    (get_gsf_tag st.gsf_tag_buf "_lib".toList = none →
      ∃ st', make_minigsf env st = .ok st' ∧ st'.files = st.files ∧
        st'.song_number = st.song_number) ∧
    (st.filename_template_buf = none →
      ∃ st', make_minigsf env st = .ok st' ∧ st'.files = st.files ∧
        st'.song_number = st.song_number) ∧
    (∀ t out, st.filename_template_buf = some t →
      expand_template st none t [] st.out = .failed out →
      ∃ st', make_minigsf env st = .ok st' ∧ st'.files = st.files ∧
        st'.song_number = st.song_number) ∧
    (∀ t filename_buf out, get_gsf_tag st.gsf_tag_buf "_lib".toList ≠ none →
      st.filename_template_buf = some t →
      expand_template st none t [] st.out = .done filename_buf out →
      env.fopen_wb (get_os_filename filename_buf) = true →
      ∃ st' bytes, make_minigsf env st = .ok st' ∧
        st'.files = st.files ++ [(get_os_filename filename_buf, bytes)] ∧
        st'.song_number = (st.song_number + 1) % 2 ^ 32) ∧
    ((∀ t, st.filename_template_buf = some t →
        expand_template st none t [] st.out ≠ .no_return) →
      ∃ st', make_minigsf env st = .ok st') ∧
    (∀ st', make_minigsf env st = .ok st' →
      st'.entry_point = st.entry_point ∧ st'.minigsf_offset = st.minigsf_offset ∧
      st'.song_id = st.song_id ∧ st'.filename_template_buf = st.filename_template_buf ∧
      st'.gsf_tag_buf = st.gsf_tag_buf ∧
      ((st'.files = st.files ∧ st'.song_number = st.song_number) ∨
        (∃ file, st'.files = st.files ++ [file] ∧
          st'.song_number = (st.song_number + 1) % 2 ^ 32))) := by
  have hA : (get_gsf_tag st.gsf_tag_buf "_lib".toList).isNone = true →
      make_minigsf env st = .ok { st with out := st.out ++ [Diag.gsflib_not_defined] } := by
    intro hlib
    simp only [make_minigsf, hlib, if_true]
  have hB : ¬ (get_gsf_tag st.gsf_tag_buf "_lib".toList).isNone = true →
      st.filename_template_buf = none →
      make_minigsf env st = .ok { st with out := st.out ++ [Diag.template_not_defined] } := by
    intro hlib htpl
    simp only [make_minigsf, hlib, Bool.false_eq_true, if_false]
    rw [htpl]
  have hC : ∀ t out, ¬ (get_gsf_tag st.gsf_tag_buf "_lib".toList).isNone = true →
      st.filename_template_buf = some t →
      expand_template st none t [] st.out = .failed out →
      make_minigsf env st = .ok { st with out := out } := by
    intro t out hlib htpl hexp
    simp only [make_minigsf, hlib, Bool.false_eq_true, if_false]
    rw [htpl]
    simp only [hexp]
  refine ⟨?_, ?_, ?_, ?_, ?_, ?_⟩
  · intro hlib
    exact ⟨_, hA (by rw [hlib]; rfl), rfl, rfl⟩
  · intro htpl
    by_cases hlib : (get_gsf_tag st.gsf_tag_buf "_lib".toList).isNone = true
    · exact ⟨_, hA hlib, rfl, rfl⟩
    · exact ⟨_, hB hlib htpl, rfl, rfl⟩
  · intro t out htpl hexp
    by_cases hlib : (get_gsf_tag st.gsf_tag_buf "_lib".toList).isNone = true
    · exact ⟨_, hA hlib, rfl, rfl⟩
    · exact ⟨_, hC t out hlib htpl hexp, rfl, rfl⟩
  · intro t filename_buf out hlib htpl hexp hopen
    have hlib' : ¬ (get_gsf_tag st.gsf_tag_buf "_lib".toList).isNone = true := by
      simpa [Option.isNone_iff_eq_none] using hlib
    refine ⟨{ st with
        out := (write_gsf_tags_to_file env st.out_name_buf st.out_value_buf st.gsf_tag_buf
          (write_gsf_data_to_file env [] (minigsf_program_data st) 0x10 out).1
          (write_gsf_data_to_file env [] (minigsf_program_data st) 0x10 out).2).out
        files := st.files ++ [(get_os_filename filename_buf,
          (write_gsf_tags_to_file env st.out_name_buf st.out_value_buf st.gsf_tag_buf
            (write_gsf_data_to_file env [] (minigsf_program_data st) 0x10 out).1
            (write_gsf_data_to_file env [] (minigsf_program_data st) 0x10 out).2).f)]
        song_number := (st.song_number + 1) % 2 ^ 32
        out_name_buf :=
          (write_gsf_tags_to_file env st.out_name_buf st.out_value_buf st.gsf_tag_buf
            (write_gsf_data_to_file env [] (minigsf_program_data st) 0x10 out).1
            (write_gsf_data_to_file env [] (minigsf_program_data st) 0x10 out).2).out_name_buf
        out_value_buf :=
          (write_gsf_tags_to_file env st.out_name_buf st.out_value_buf st.gsf_tag_buf
            (write_gsf_data_to_file env [] (minigsf_program_data st) 0x10 out).1
            (write_gsf_data_to_file env [] (minigsf_program_data st) 0x10 out).2).out_value_buf },
      _, ?_, rfl, rfl⟩
    simp only [make_minigsf, hlib', Bool.false_eq_true, if_false]
    rw [htpl]
    simp only [hexp, hopen, Bool.true_eq_false, if_false]
  · intro hret
    unfold make_minigsf
    split_ifs with hlib
    · exact ⟨_, rfl⟩
    · split
      · exact ⟨_, rfl⟩
      · rename_i t htpl
        split
        · rename_i hexp
          exact absurd hexp (hret t htpl)
        · exact ⟨_, rfl⟩
        · dsimp only
          split_ifs
          · exact ⟨_, rfl⟩
          · exact ⟨_, rfl⟩
  · intro st' hst
    unfold make_minigsf at hst
    split_ifs at hst with hlib
    · simp only [Except.ok.injEq] at hst
      subst hst
      exact ⟨rfl, rfl, rfl, rfl, rfl, Or.inl ⟨rfl, rfl⟩⟩
    · split at hst
      · simp only [Except.ok.injEq] at hst
        subst hst
        exact ⟨rfl, rfl, rfl, rfl, rfl, Or.inl ⟨rfl, rfl⟩⟩
      · split at hst
        · simp at hst
        · simp only [Except.ok.injEq] at hst
          subst hst
          exact ⟨rfl, rfl, rfl, rfl, rfl, Or.inl ⟨rfl, rfl⟩⟩
        · dsimp only at hst
          split_ifs at hst with hopen
          · simp only [Except.ok.injEq] at hst
            subst hst
            exact ⟨rfl, rfl, rfl, rfl, rfl, Or.inl ⟨rfl, rfl⟩⟩
          · simp only [Except.ok.injEq] at hst
            subst hst
            exact ⟨rfl, rfl, rfl, rfl, rfl, Or.inr ⟨_, rfl, rfl⟩⟩

/-- Claim C8: for every store and name, after `set_gsf_tag` with a non-empty value `v`
the value lookup `get_gsf_tag_value` returns `v`; after `set_gsf_tag` with the
empty string or with `NULL` it returns nothing. -/
theorem set_gsf_tag_then_get_value (store : List gsf_tag_t) (name v : List Char)
    (hv : v ≠ []) :
    get_gsf_tag_value (set_gsf_tag store name (some v)) name = some v ∧
    get_gsf_tag_value (set_gsf_tag store name (some [])) name = none ∧
    get_gsf_tag_value (set_gsf_tag store name none) name = none := by
  refine ⟨?_, ?_, ?_⟩
  · rw [get_gsf_tag_value_set]
    simp [hv]
  · rw [get_gsf_tag_value_set]
    simp
  · rw [get_gsf_tag_value_set]
    simp

theorem set_gsf_tag_then_get_value_witness :
    get_gsf_tag_value
        (set_gsf_tag [⟨some "title".toList, some "old".toList⟩] "title".toList
          (some "new".toList)) "title".toList = some "new".toList ∧
    get_gsf_tag_value
        (set_gsf_tag [⟨some "title".toList, some "old".toList⟩] "title".toList (some []))
        "title".toList = none ∧
    get_gsf_tag_value
        (set_gsf_tag [⟨some "title".toList, some "old".toList⟩] "title".toList none)
        "title".toList = none :=
  set_gsf_tag_then_get_value [⟨some "title".toList, some "old".toList⟩] "title".toList
    "new".toList (by decide)

/-- Claim C9, as stated, fails: in the store `a = x`, `b = y`, after `set_gsf_tag` of
`a` to the empty string the entry lookup `get_gsf_tag` still finds the entry of
`a`, and a later `set_gsf_tag` of `a` to `z` does not append an entry behind
`b`: the entry of `a` keeps the first place. -/
theorem set_gsf_tag_empty_keeps_entry :
    get_gsf_tag
        (set_gsf_tag [⟨some "a".toList, some "x".toList⟩, ⟨some "b".toList, some "y".toList⟩]
          "a".toList (some [])) "a".toList ≠ none ∧
    set_gsf_tag
        (set_gsf_tag [⟨some "a".toList, some "x".toList⟩, ⟨some "b".toList, some "y".toList⟩]
          "a".toList (some [])) "a".toList (some "z".toList) =
      [⟨some "a".toList, some "z".toList⟩, ⟨some "b".toList, some "y".toList⟩] ∧
    ¬ ∃ others : List gsf_tag_t,
      set_gsf_tag
          (set_gsf_tag [⟨some "a".toList, some "x".toList⟩, ⟨some "b".toList, some "y".toList⟩]
            "a".toList (some [])) "a".toList (some "z".toList) =
        others ++ [⟨some "a".toList, some "z".toList⟩] := by
  have h2 : set_gsf_tag
        (set_gsf_tag [⟨some "a".toList, some "x".toList⟩, ⟨some "b".toList, some "y".toList⟩]
          "a".toList (some [])) "a".toList (some "z".toList) =
      [⟨some "a".toList, some "z".toList⟩, ⟨some "b".toList, some "y".toList⟩] := by decide
  refine ⟨by decide, h2, ?_⟩
  rintro ⟨others, h⟩
  rw [h2] at h
  have := congrArg List.getLast? h
  simp at this

/-- Claim C9, amended: for every store that holds `name` (entry lookup finds entry
`i`) and every cleared value, empty or absent: after `set_gsf_tag` with that
value the entry lookup still finds entry `i`, the store has as many entries
with the same names as before, and the value lookup returns nothing; a later
`set_gsf_tag` with a non-empty `v` puts `v` into that same entry `i` and leads
to the very store that setting `v` at once would have given: nothing is
appended. -/
theorem set_gsf_tag_empty_clears_value (store : List gsf_tag_t) (name v : List Char)
    (i : Nat) (cleared : Option (List Char))
    (hfound : get_gsf_tag store name = some i) (hv : v ≠ [])
    (hc : cleared = some [] ∨ cleared = none) :
    get_gsf_tag (set_gsf_tag store name cleared) name = some i ∧
    (set_gsf_tag store name cleared).map (·.name_buf) = store.map (·.name_buf) ∧
    get_gsf_tag_value (set_gsf_tag store name cleared) name = none ∧
    set_gsf_tag (set_gsf_tag store name cleared) name (some v) =
      set_gsf_tag store name (some v) ∧
    (set_gsf_tag (set_gsf_tag store name cleared) name (some v)).length = store.length ∧
    (set_gsf_tag (set_gsf_tag store name cleared) name (some v)).get? i =
      some ⟨some name, some v⟩ := by
  obtain ⟨pre, e, post, hs, hi, he, hpre⟩ := get_gsf_tag_some_split name store i hfound
  have h1 := set_gsf_tag_found store name cleared pre e post hs he hpre
  have h2 := set_gsf_tag_found store name (some v) pre e post hs he hpre
  have h3 := set_gsf_tag_found _ name (some v) pre
    { e with value_buf := if cleared = some [] then none else cleared } post h1 he hpre
  have hv' : ¬ (some v = some []) := by simpa using hv
  simp only [hv', if_false] at h2 h3
  refine ⟨?_, ?_, ?_, ?_, ?_, ?_⟩
  · rw [h1, ← hi]
    exact get_gsf_tag_append_found name pre _ post hpre he
  · rw [h1, hs]
    simp
  · rw [get_gsf_tag_value_set]
    rcases hc with h | h <;> simp [h]
  · rw [h3, h2]
  · rw [h3, hs]
    simp
  · rw [h3, ← hi, get_at_split, he]

theorem set_gsf_tag_empty_clears_value_witness :
    get_gsf_tag (set_gsf_tag [⟨some "a".toList, some "x".toList⟩,
      ⟨some "b".toList, some "y".toList⟩] "a".toList (some [])) "a".toList = some 0 ∧
    (set_gsf_tag [⟨some "a".toList, some "x".toList⟩,
      ⟨some "b".toList, some "y".toList⟩] "a".toList (some [])).map (·.name_buf) =
      ([⟨some "a".toList, some "x".toList⟩,
        ⟨some "b".toList, some "y".toList⟩] : List gsf_tag_t).map (·.name_buf) ∧
    get_gsf_tag_value (set_gsf_tag [⟨some "a".toList, some "x".toList⟩,
      ⟨some "b".toList, some "y".toList⟩] "a".toList (some [])) "a".toList = none ∧
    set_gsf_tag (set_gsf_tag [⟨some "a".toList, some "x".toList⟩,
      ⟨some "b".toList, some "y".toList⟩] "a".toList (some [])) "a".toList (some "z".toList) =
      set_gsf_tag [⟨some "a".toList, some "x".toList⟩,
        ⟨some "b".toList, some "y".toList⟩] "a".toList (some "z".toList) ∧
    (set_gsf_tag (set_gsf_tag [⟨some "a".toList, some "x".toList⟩,
      ⟨some "b".toList, some "y".toList⟩] "a".toList (some [])) "a".toList
        (some "z".toList)).length =
      ([⟨some "a".toList, some "x".toList⟩,
        ⟨some "b".toList, some "y".toList⟩] : List gsf_tag_t).length ∧
    (set_gsf_tag (set_gsf_tag [⟨some "a".toList, some "x".toList⟩,
      ⟨some "b".toList, some "y".toList⟩] "a".toList (some [])) "a".toList
        (some "z".toList)).get? 0 = some ⟨some "a".toList, some "z".toList⟩ :=
  set_gsf_tag_empty_clears_value
    [⟨some "a".toList, some "x".toList⟩, ⟨some "b".toList, some "y".toList⟩]
    "a".toList "z".toList 0 (some []) (by decide) (by decide) (by decide)

/-- Claim C10: in every store built from the empty store by `set_gsf_tag` calls no two
entries have the same name; `set_gsf_tag` with a non-empty value on a store that
holds the name replaces the value of the entry found and nothing else (same
entries before and behind it, same name), and on a store that does not hold the
name it appends exactly one entry at the end. -/
theorem set_gsf_tag_upsert (store : List gsf_tag_t) (name v : List Char) (hv : v ≠ []) :
    (∀ ops : List (List Char × Option (List Char)),
      ((ops.foldl (fun s op => set_gsf_tag s op.1 op.2) []).map (·.name_buf)).Nodup) ∧
    (∀ i, get_gsf_tag store name = some i →
      ∃ pre e post, store = pre ++ e :: post ∧ pre.length = i ∧ e.name_buf = some name ∧
        get_gsf_tag pre name = none ∧
        set_gsf_tag store name (some v) = pre ++ { e with value_buf := some v } :: post ∧
        (set_gsf_tag store name (some v)).length = store.length) ∧
    (get_gsf_tag store name = none →
      set_gsf_tag store name (some v) = store ++ [⟨some name, some v⟩]) := by
  refine ⟨fun ops => reachable_names_nodup ops [] List.nodup_nil, ?_, ?_⟩
  · intro i hi
    obtain ⟨pre, e, post, hs, hlen, he, hpre⟩ := get_gsf_tag_some_split name store i hi
    have h := set_gsf_tag_found store name (some v) pre e post hs he hpre
    have hv' : ¬ (some v = some []) := by simpa using hv
    simp only [hv', if_false] at h
    refine ⟨pre, e, post, hs, hlen, he, hpre, h, ?_⟩
    rw [h, hs]
    simp
  · intro hnone
    exact set_gsf_tag_new store name v hv hnone

theorem set_gsf_tag_upsert_witness :
    (∀ ops : List (List Char × Option (List Char)),
      ((ops.foldl (fun s op => set_gsf_tag s op.1 op.2) []).map (·.name_buf)).Nodup) ∧
    (∀ i, get_gsf_tag [⟨some "a".toList, some "x".toList⟩] "a".toList = some i →
      ∃ pre e post, [⟨some "a".toList, some "x".toList⟩] = pre ++ e :: post ∧
        pre.length = i ∧ e.name_buf = some "a".toList ∧
        get_gsf_tag pre "a".toList = none ∧
        set_gsf_tag [⟨some "a".toList, some "x".toList⟩] "a".toList (some "z".toList) =
          pre ++ { e with value_buf := some "z".toList } :: post ∧
        (set_gsf_tag [⟨some "a".toList, some "x".toList⟩] "a".toList (some "z".toList)).length =
          ([⟨some "a".toList, some "x".toList⟩] : List gsf_tag_t).length) ∧
    (get_gsf_tag [⟨some "a".toList, some "x".toList⟩] "a".toList = none →
      set_gsf_tag [⟨some "a".toList, some "x".toList⟩] "a".toList (some "z".toList) =
        [⟨some "a".toList, some "x".toList⟩] ++ [⟨some "a".toList, some "z".toList⟩]) :=
  set_gsf_tag_upsert [⟨some "a".toList, some "x".toList⟩] "a".toList "z".toList (by decide)

/-! ## Lemmas on tag names -/

theorem gsf_tag_name_ok_name (lc : Locale) (name : List Char) (out : List Diag) :
    (gsf_tag_name_ok lc name out).2.1 = (gsf_tag_name_scan lc name).2 := by
  unfold gsf_tag_name_ok
  dsimp only
  split_ifs <;> rfl

theorem gsf_tag_name_scan_name (lc : Locale) (name : List Char) :
    (gsf_tag_name_scan lc name).2 =
      name.map (fun ch => if lc.iswlower ch = false then lc.towlower ch else ch) := by
  induction name with
  | nil => rfl
  | cons ch rest ih => simp [gsf_tag_name_scan, ih]

theorem gsf_tag_name_scan_bad (lc : Locale) (name : List Char) :
    (gsf_tag_name_scan lc name).1 = 0 ↔ ∀ ch ∈ name, lc.iswalnum ch = true ∨ ch = '_' := by
  induction name with
  | nil => simp [gsf_tag_name_scan]
  | cons ch rest ih =>
    have hstep : (gsf_tag_name_scan lc (ch :: rest)).1 =
        (if lc.iswalnum ch = false ∧ ch ≠ '_' then 1 else 0) + (gsf_tag_name_scan lc rest).1 :=
      rfl
    rw [hstep]
    simp only [List.mem_cons, forall_eq_or_imp]
    rw [← ih]
    by_cases h : lc.iswalnum ch = false ∧ ch ≠ '_'
    · rw [if_pos h]
      constructor
      · intro h0; omega
      · rintro ⟨h1, _⟩
        rcases h1 with h1 | h1
        · rw [h.1] at h1; exact absurd h1 (by decide)
        · exact absurd h1 h.2
    · rw [if_neg h, Nat.zero_add]
      constructor
      · intro h0
        refine ⟨?_, h0⟩
        by_cases ha : lc.iswalnum ch = true
        · exact Or.inl ha
        · right
          by_contra hne
          exact h ⟨by simpa using ha, hne⟩
      · exact fun h0 => h0.2

theorem gsf_tag_name_ok_valid_iff (lc : Locale) (name : List Char) (out : List Diag) :
    (gsf_tag_name_ok lc name out).1 = true ↔
      name ≠ [] ∧ name.head? ≠ some '_' ∧ name ∉ reserved_tag_names ∧
        ∀ ch ∈ name, lc.iswalnum ch = true ∨ ch = '_' := by
  rw [← gsf_tag_name_scan_bad]
  unfold gsf_tag_name_ok reserved_tag_names
  dsimp only
  by_cases hscan : (gsf_tag_name_scan lc name).1 = 0
  · by_cases hlen : name.length = 0
    · have : name = [] := List.length_eq_zero.mp hlen
      subst this
      simp [gsf_tag_name_scan]
    · have hne : name ≠ [] := fun h => hlen (by rw [h]; rfl)
      by_cases hres : name.head? = some '_' ∨ name = "filedir".toList ∨
          name = "filename".toList ∨ name = "fileext".toList
      · simp only [hscan, hlen, hres, if_true, if_false, ne_eq, not_true_eq_false,
          Nat.zero_add, Nat.add_one_ne_zero, not_false_eq_true, Bool.false_eq_true, false_iff,
          List.mem_cons, List.mem_singleton, not_and]
        intro _ h1 h2
        rcases hres with h | h
        · exact absurd h h1
        · exact absurd (by simpa using h) h2
      · simp only [hscan, hlen, hres, if_false, ne_eq, not_true_eq_false, true_iff]
        refine ⟨hne, ?_, ?_, trivial⟩
        · exact fun h => hres (Or.inl h)
        · intro h
          apply hres
          right
          simpa using h
  · simp [hscan]

theorem char_ofNat_toNat_small (n : Nat) (h : n < 55296) : (Char.ofNat n).toNat = n := by
  unfold Char.ofNat
  rw [dif_pos (Or.inl h)]
  rfl

theorem char_eq_of_toNat (a b : Char) (h : a.toNat = b.toNat) : a = b := by
  rw [← Char.ofNat_toNat a, ← Char.ofNat_toNat b, h]

theorem c_locale_fixes_lower (ch : Char) (h : c_locale.iswlower ch = true) :
    c_locale.towlower ch = ch := by
  have h1 : 'a' ≤ ch ∧ ch ≤ 'z' := by simpa [c_locale] using h
  have h2 : 97 ≤ ch.toNat := h1.1
  have h3 : ¬ ('A' ≤ ch ∧ ch ≤ 'Z') := by
    rintro ⟨_, h4⟩
    have h5 : ch.toNat ≤ 90 := h4
    omega
  simp only [c_locale, h3, if_false]

theorem c_locale_ascii_standard : c_locale.ascii_standard :=
  fun _ _ => ⟨rfl, rfl, rfl, rfl⟩

/-- The folding of one character by the loop of `gsf_tag_name_ok`, for an ASCII
letter, a digit or `_`, in a locale that is standard on ASCII. -/
theorem fold_ascii_word_char (lc : Locale) (hstd : lc.ascii_standard) (ch : Char)
    (h : is_ascii_word_char ch) :
    is_tag_name_char (if lc.iswlower ch = false then lc.towlower ch else ch) ∧
      (ch ≠ '_' → (if lc.iswlower ch = false then lc.towlower ch else ch) ≠ '_') ∧
      (if lc.iswlower ch = false then lc.towlower ch else ch) = lc.towlower ch ∧
      (lc.iswalnum ch = true ∨ ch = '_') := by
  have hlt : ch.toNat < 128 := by
    rcases h with h | h | h | h
    · have : ch.toNat ≤ 122 := h.2
      omega
    · have : ch.toNat ≤ 90 := h.2
      omega
    · have : ch.toNat ≤ 57 := h.2
      omega
    · subst h; decide
  obtain ⟨_, hal, hlo, hto⟩ := hstd ch hlt
  rw [hlo, hto, hal]
  rcases h with h | h | h | h
  · have hl : c_locale.iswlower ch = true := by simpa [c_locale] using h
    have hne : ch ≠ '_' := by
      intro e; subst e; revert h; decide
    rw [c_locale_fixes_lower ch hl]
    simp only [hl, Bool.true_eq_false, if_false, ite_self]
    refine ⟨Or.inl h, fun _ => hne, trivial, ?_⟩
    left
    simp only [c_locale, decide_eq_true_eq]
    exact Or.inr (Or.inl h)
  · have h1 : 65 ≤ ch.toNat := h.1
    have h2 : ch.toNat ≤ 90 := h.2
    have hl : c_locale.iswlower ch = false := by
      simp only [c_locale, decide_eq_false_iff_not]
      rintro ⟨h3, _⟩
      have : 97 ≤ ch.toNat := h3
      omega
    have hto' : c_locale.towlower ch = Char.ofNat (ch.toNat + 32) := by
      simp only [c_locale, h, and_self, if_true]
    have hv := char_ofNat_toNat_small (ch.toNat + 32) (by omega)
    simp only [hl, if_true, hto']
    refine ⟨Or.inl ⟨?_, ?_⟩, fun _ => ?_, ?_⟩
    · show 97 ≤ (Char.ofNat (ch.toNat + 32)).toNat
      omega
    · show (Char.ofNat (ch.toNat + 32)).toNat ≤ 122
      omega
    · intro e
      have := congrArg Char.toNat e
      rw [hv] at this
      have h95 : ('_').toNat = 95 := rfl
      omega
    · refine ⟨trivial, Or.inl ?_⟩
      simp only [c_locale, decide_eq_true_eq]
      exact Or.inr (Or.inr h)
  · have h1 : 48 ≤ ch.toNat := h.1
    have h2 : ch.toNat ≤ 57 := h.2
    have hl : c_locale.iswlower ch = false := by
      simp only [c_locale, decide_eq_false_iff_not]
      rintro ⟨h3, _⟩
      have : 97 ≤ ch.toNat := h3
      omega
    have hu : ¬ ('A' ≤ ch ∧ ch ≤ 'Z') := by
      rintro ⟨h3, _⟩
      have : 65 ≤ ch.toNat := h3
      omega
    have hto' : c_locale.towlower ch = ch := by
      simp only [c_locale, hu, if_false]
    have hne : ch ≠ '_' := by
      intro e; subst e; revert h2; decide
    simp only [hl, if_true, hto']
    refine ⟨Or.inr (Or.inl h), fun _ => hne, trivial, Or.inl ?_⟩
    simp only [c_locale, decide_eq_true_eq]
    exact Or.inl h
  · subst h
    refine ⟨?_, fun h => absurd rfl h, ?_, Or.inr rfl⟩
    · have : (if c_locale.iswlower '_' = false then c_locale.towlower '_' else '_') = '_' := by
        decide
      rw [this]
      exact Or.inr (Or.inr rfl)
    · decide

theorem towlower_of_lower (lc : Locale) (hstd : lc.ascii_standard) (ch : Char)
    (h : 'a' ≤ ch ∧ ch ≤ 'z') : lc.towlower ch = ch := by
  have h2 : ch.toNat ≤ 122 := h.2
  rw [(hstd ch (by omega)).2.2.2]
  exact c_locale_fixes_lower ch (by simpa [c_locale] using h)

theorem map_towlower_of_lower (lc : Locale) (hstd : lc.ascii_standard) (l : List Char)
    (h : ∀ ch ∈ l, 'a' ≤ ch ∧ ch ≤ 'z') : l.map lc.towlower = l := by
  induction l with
  | nil => rfl
  | cons ch rest ih =>
    rw [List.map_cons, towlower_of_lower lc hstd ch (h ch (List.mem_cons_self _ _)),
      ih (fun c hc => h c (List.mem_cons_of_mem _ hc))]

theorem reserved_tag_names_lower :
    ∀ name ∈ reserved_tag_names, ∀ ch ∈ name, 'a' ≤ ch ∧ ch ≤ 'z' := by
  decide

theorem ascii_word_char_of_alnum (lc : Locale) (hstd : lc.ascii_standard)
    (hascii : ∀ ch, lc.iswalnum ch = true → ch.toNat < 128) (ch : Char)
    (h : lc.iswalnum ch = true ∨ ch = '_') : is_ascii_word_char ch := by
  rcases h with h | h
  · have hc := (hstd ch (hascii ch h)).2.1
    rw [h] at hc
    have : ('0' ≤ ch ∧ ch ≤ '9') ∨ ('a' ≤ ch ∧ ch ≤ 'z') ∨ ('A' ≤ ch ∧ ch ≤ 'Z') := by
      simpa [c_locale] using hc.symm
    rcases this with h1 | h1 | h1
    · exact Or.inr (Or.inr (Or.inl h1))
    · exact Or.inl h1
    · exact Or.inr (Or.inl h1)
  · exact Or.inr (Or.inr (Or.inr h))

/-! ## The claims on tag names -/

/-- Claim C11 fails on the code at the name `FileDir`: `gsf_tag_name_ok` compares
the name with the reserved names before its loop folds the name, so it finds
`FileDir` valid and leaves `filedir` in the buffer, and the line
`Tag "FileDir" "x"` stores the value under the reserved name `filedir`.  The
name `filedir`, written in lowercase, is refused as reserved. -/
theorem tag_name_reserved_before_folding :
    gsf_tag_name_ok c_locale "FileDir".toList [] = (true, "filedir".toList, []) ∧
    ((main_loop example_env 0 initial_state filedir_script).toOption.map
        (fun st => (st.gsf_tag_buf, st.out)) =
      some ([⟨some "filedir".toList, some "x".toList⟩], [])) ∧
    gsf_tag_name_ok c_locale "filedir".toList [] =
      (false, "filedir".toList, [Diag.tag_name_reserved "filedir".toList]) := by
  refine ⟨by decide, by decide, by decide⟩

/-- Claim C12: in a locale whose `towlower` leaves every lowercase character as it
is, `gsf_tag_name_ok` leaves in the name buffer the name with `towlower` applied
to every character, whatever the verdict; in the "C" locale `Title` becomes
`title` and is valid, `Bad Name!` becomes `bad name!` and is invalid. -/
theorem gsf_tag_name_ok_folds (lc : Locale) (name : List Char) (out : List Diag)
    (hfix : ∀ ch, lc.iswlower ch = true → lc.towlower ch = ch) :
    (gsf_tag_name_ok lc name out).2.1 = name.map lc.towlower ∧
    ((gsf_tag_name_ok c_locale "Title".toList []).1 = true ∧
      (gsf_tag_name_ok c_locale "Title".toList []).2.1 = "title".toList) ∧
    ((gsf_tag_name_ok c_locale "Bad Name!".toList []).1 = false ∧
      (gsf_tag_name_ok c_locale "Bad Name!".toList []).2.1 = "bad name!".toList) := by
  refine ⟨?_, by decide, by decide⟩
  rw [gsf_tag_name_ok_name, gsf_tag_name_scan_name]
  apply List.map_congr_left
  intro ch _
  by_cases h : lc.iswlower ch = false
  · rw [if_pos h]
  · rw [if_neg h]
    exact (hfix ch (by simpa using h)).symm

theorem gsf_tag_name_ok_folds_witness :
    (gsf_tag_name_ok c_locale "FooBar".toList []).2.1 = "FooBar".toList.map c_locale.towlower ∧
    ((gsf_tag_name_ok c_locale "Title".toList []).1 = true ∧
      (gsf_tag_name_ok c_locale "Title".toList []).2.1 = "title".toList) ∧
    ((gsf_tag_name_ok c_locale "Bad Name!".toList []).1 = false ∧
      (gsf_tag_name_ok c_locale "Bad Name!".toList []).2.1 = "bad name!".toList) :=
  gsf_tag_name_ok_folds c_locale "FooBar".toList [] c_locale_fixes_lower

/-- Claim C13, as stated, fails: in a locale that knows the letters of ISO 8859-1
the name made of the one letter `U+00E9` is valid, and its folding, the same
letter, is not one of `[a-z0-9_]`. -/
theorem tag_name_valid_outside_ascii :
    (gsf_tag_name_ok latin1_locale [Char.ofNat 0xE9] []).1 = true ∧
    (gsf_tag_name_ok latin1_locale [Char.ofNat 0xE9] []).2.1 = [Char.ofNat 0xE9] ∧
    ¬ (∀ ch ∈ (gsf_tag_name_ok latin1_locale [Char.ofNat 0xE9] []).2.1,
        is_tag_name_char ch) := by
  refine ⟨by decide, by decide, ?_⟩
  intro h
  have h1 := h (Char.ofNat 0xE9) (by decide)
  revert h1
  unfold is_tag_name_char
  decide

/-- Claim C13, amended: if `gsf_tag_name_ok` returns valid then the name is
non-empty, does not start with `_`, and every character of it is alphanumeric in
the locale (`iswalnum`) or `_`; in a locale that is standard on ASCII and has no
other alphanumerics, the folded name is then non-empty, made of `[a-z0-9_]` only,
and does not start with `_`.  Conversely, in a locale that is standard on ASCII,
every non-empty name made of ASCII letters, digits and `_` only, not starting
with `_` and not folding to a reserved name, is valid.  In the "C" locale `Title`
is valid, and `_hidden`, `bad name!` and the empty name are invalid. -/
theorem gsf_tag_name_ok_valid (lc : Locale) (name : List Char) (out : List Diag)
    (hstd : lc.ascii_standard) :
    ((gsf_tag_name_ok lc name out).1 = true →
      name ≠ [] ∧ name.head? ≠ some '_' ∧ ∀ ch ∈ name, lc.iswalnum ch = true ∨ ch = '_') ∧
    ((∀ ch, lc.iswalnum ch = true → ch.toNat < 128) →
      (gsf_tag_name_ok lc name out).1 = true →
      (gsf_tag_name_ok lc name out).2.1 ≠ [] ∧
        (∀ ch ∈ (gsf_tag_name_ok lc name out).2.1, is_tag_name_char ch) ∧
        (gsf_tag_name_ok lc name out).2.1.head? ≠ some '_') ∧
    (name ≠ [] → (∀ ch ∈ name, is_ascii_word_char ch) → name.head? ≠ some '_' →
      name.map lc.towlower ∉ reserved_tag_names →
      (gsf_tag_name_ok lc name out).1 = true) ∧
    ((gsf_tag_name_ok c_locale "Title".toList []).1 = true ∧
      (gsf_tag_name_ok c_locale "_hidden".toList []).1 = false ∧
      (gsf_tag_name_ok c_locale "bad name!".toList []).1 = false ∧
      (gsf_tag_name_ok c_locale [] []).1 = false) := by
  refine ⟨?_, ?_, ?_, by decide⟩
  · intro h
    obtain ⟨h1, h2, _, h4⟩ := (gsf_tag_name_ok_valid_iff lc name out).mp h
    exact ⟨h1, h2, h4⟩
  · intro hascii h
    obtain ⟨h1, h2, _, h4⟩ := (gsf_tag_name_ok_valid_iff lc name out).mp h
    rw [gsf_tag_name_ok_name, gsf_tag_name_scan_name]
    refine ⟨?_, ?_, ?_⟩
    · intro hmap
      exact h1 (List.map_eq_nil_iff.mp hmap)
    · intro ch hch
      obtain ⟨c, hc, rfl⟩ := List.mem_map.mp hch
      exact (fold_ascii_word_char lc hstd c
        (ascii_word_char_of_alnum lc hstd hascii c (h4 c hc))).1
    · cases name with
      | nil => exact absurd rfl h1
      | cons c rest =>
        have hc : c ≠ '_' := by
          intro e
          apply h2
          rw [e]
          rfl
        have := (fold_ascii_word_char lc hstd c
          (ascii_word_char_of_alnum lc hstd hascii c (h4 c (List.mem_cons_self _ _)))).2.1 hc
        simpa using this
  · intro hne hchars hhead hres
    apply (gsf_tag_name_ok_valid_iff lc name out).mpr
    refine ⟨hne, hhead, ?_, ?_⟩
    · intro hmem
      apply hres
      rw [map_towlower_of_lower lc hstd name (reserved_tag_names_lower name hmem)]
      exact hmem
    · intro ch hch
      exact (fold_ascii_word_char lc hstd ch (hchars ch hch)).2.2.2

theorem gsf_tag_name_ok_valid_witness :
    ((gsf_tag_name_ok c_locale "Title".toList []).1 = true →
      "Title".toList ≠ [] ∧ "Title".toList.head? ≠ some '_' ∧
        ∀ ch ∈ "Title".toList, c_locale.iswalnum ch = true ∨ ch = '_') ∧
    ((∀ ch, c_locale.iswalnum ch = true → ch.toNat < 128) →
      (gsf_tag_name_ok c_locale "Title".toList []).1 = true →
      (gsf_tag_name_ok c_locale "Title".toList []).2.1 ≠ [] ∧
        (∀ ch ∈ (gsf_tag_name_ok c_locale "Title".toList []).2.1, is_tag_name_char ch) ∧
        (gsf_tag_name_ok c_locale "Title".toList []).2.1.head? ≠ some '_') ∧
    ("Title".toList ≠ [] → (∀ ch ∈ "Title".toList, is_ascii_word_char ch) →
      "Title".toList.head? ≠ some '_' →
      "Title".toList.map c_locale.towlower ∉ reserved_tag_names →
      (gsf_tag_name_ok c_locale "Title".toList []).1 = true) ∧
    ((gsf_tag_name_ok c_locale "Title".toList []).1 = true ∧
      (gsf_tag_name_ok c_locale "_hidden".toList []).1 = false ∧
      (gsf_tag_name_ok c_locale "bad name!".toList []).1 = false ∧
      (gsf_tag_name_ok c_locale [] []).1 = false) :=
  gsf_tag_name_ok_valid c_locale "Title".toList [] c_locale_ascii_standard

/-! ## Lemmas on the loops of `parse_one_token` -/

theorem skip_whitespace_some (lc : Locale) (l l' : List Char)
    (h : skip_whitespace lc l = some l') :
    ∃ p ch rest, l = p ++ l' ∧ l' = ch :: rest ∧ lc.iswspace ch = false ∧ ch ≠ NUL ∧
      ch ≠ '#' := by
  induction l with
  | nil => simp [skip_whitespace] at h
  | cons c tl ih =>
    unfold skip_whitespace at h
    split_ifs at h with h1 h2
    · obtain ⟨p, ch, rest, hp, hl, hrest⟩ := ih h
      exact ⟨c :: p, ch, rest, by rw [hp]; rfl, hl, hrest⟩
    · simp only [Option.some.injEq] at h
      subst h
      exact ⟨[], c, tl, rfl, rfl, by simpa using h1, fun e => h2 (Or.inl e),
        fun e => h2 (Or.inr e)⟩

theorem skip_whitespace_comment (lc : Locale) (hsharp : lc.iswspace '#' = false)
    (c : List Char) (l : List Char) :
    skip_whitespace lc (l ++ '#' :: c) = (skip_whitespace lc l).map (· ++ '#' :: c) := by
  induction l with
  | nil => simp [skip_whitespace, hsharp]
  | cons x tl ih =>
    simp only [List.cons_append, skip_whitespace]
    split_ifs
    · exact ih
    · rfl
    · rfl

theorem parse_number_stop (lc : Locale) (hex : Bool) (ch : Char) (rest : List Char)
    (o e : Nat) (m : List Diag) (h : lc.iswspace ch = true ∨ ch = NUL ∨ ch = '#') :
    parse_number lc hex (ch :: rest) o e m = (o, e, m, ch :: rest) := by
  rw [parse_number, if_pos h]

theorem parse_number_cons (lc : Locale) (hex : Bool) (ch : Char) (tl : List Char)
    (o e : Nat) (m : List Diag) (h : ¬ (lc.iswspace ch = true ∨ ch = NUL ∨ ch = '#')) :
    parse_number lc hex (ch :: tl) o e m =
      parse_number lc hex tl
        (if hex = true then
          ((o <<< 4) % 2 ^ 64) |||
            (if '0' ≤ ch ∧ ch ≤ '9' then (ch.toNat - ('0').toNat, e, m)
              else if hex = true ∧ 'A' ≤ ch ∧ ch ≤ 'F' then
                (ch.toNat - ('A').toNat + 0x0a, e, m)
              else if hex = true ∧ 'a' ≤ ch ∧ ch ≤ 'f' then
                (ch.toNat - ('a').toNat + 0x0a, e, m)
              else (0, e + 1, m ++ [Diag.cant_parse_digit ch])).1
          else
            (o * 10 +
              (if '0' ≤ ch ∧ ch ≤ '9' then (ch.toNat - ('0').toNat, e, m)
                else if hex = true ∧ 'A' ≤ ch ∧ ch ≤ 'F' then
                  (ch.toNat - ('A').toNat + 0x0a, e, m)
                else if hex = true ∧ 'a' ≤ ch ∧ ch ≤ 'f' then
                  (ch.toNat - ('a').toNat + 0x0a, e, m)
                else (0, e + 1, m ++ [Diag.cant_parse_digit ch])).1) % 2 ^ 64)
        (if '0' ≤ ch ∧ ch ≤ '9' then (ch.toNat - ('0').toNat, e, m)
          else if hex = true ∧ 'A' ≤ ch ∧ ch ≤ 'F' then
            (ch.toNat - ('A').toNat + 0x0a, e, m)
          else if hex = true ∧ 'a' ≤ ch ∧ ch ≤ 'f' then
            (ch.toNat - ('a').toNat + 0x0a, e, m)
          else (0, e + 1, m ++ [Diag.cant_parse_digit ch])).2.1
        (if '0' ≤ ch ∧ ch ≤ '9' then (ch.toNat - ('0').toNat, e, m)
          else if hex = true ∧ 'A' ≤ ch ∧ ch ≤ 'F' then
            (ch.toNat - ('A').toNat + 0x0a, e, m)
          else if hex = true ∧ 'a' ≤ ch ∧ ch ≤ 'f' then
            (ch.toNat - ('a').toNat + 0x0a, e, m)
          else (0, e + 1, m ++ [Diag.cant_parse_digit ch])).2.2 := by
  rw [parse_number, if_neg h]

theorem parse_number_step (lc : Locale) (hex : Bool) (ch : Char)
    (o e : Nat) (m : List Diag) (h : ¬ (lc.iswspace ch = true ∨ ch = NUL ∨ ch = '#')) :
    ∃ o' e' m', ∀ tl, parse_number lc hex (ch :: tl) o e m = parse_number lc hex tl o' e' m' :=
  ⟨_, _, _, fun tl => parse_number_cons lc hex ch tl o e m h⟩

theorem parse_number_rest (lc : Locale) (hex : Bool) (l : List Char) :
    ∀ (o e : Nat) (m : List Diag),
      ∃ p, l = p ++ (parse_number lc hex l o e m).2.2.2 ∧
        (∀ ch tl, l = ch :: tl → ¬ (lc.iswspace ch = true ∨ ch = NUL ∨ ch = '#') → p ≠ []) := by
  induction l with
  | nil => intro o e m; exact ⟨[], rfl, fun ch tl h => by simp at h⟩
  | cons x tl ih =>
    intro o e m
    by_cases h1 : lc.iswspace x = true ∨ x = NUL ∨ x = '#'
    · rw [parse_number_stop lc hex x tl o e m h1]
      exact ⟨[], rfl, fun ch tl' h hn => by
        simp only [List.cons.injEq] at h
        rw [← h.1] at hn
        exact absurd h1 hn⟩
    · obtain ⟨o', e', m', hstep⟩ := parse_number_step lc hex x o e m h1
      rw [hstep tl]
      obtain ⟨p, hp, _⟩ := ih o' e' m'
      exact ⟨x :: p, by rw [List.cons_append, ← hp], fun _ _ _ _ => List.cons_ne_nil _ _⟩

theorem parse_number_comment (lc : Locale) (hex : Bool) (c : List Char) (l : List Char) :
    ∀ (o e : Nat) (m : List Diag),
      parse_number lc hex (l ++ '#' :: c) o e m =
        ((parse_number lc hex l o e m).1, (parse_number lc hex l o e m).2.1,
          (parse_number lc hex l o e m).2.2.1,
          (parse_number lc hex l o e m).2.2.2 ++ '#' :: c) := by
  induction l with
  | nil =>
    intro o e m
    rw [List.nil_append, parse_number_stop lc hex '#' c o e m (Or.inr (Or.inr rfl))]
    rfl
  | cons x tl ih =>
    intro o e m
    by_cases h1 : lc.iswspace x = true ∨ x = NUL ∨ x = '#'
    · rw [List.cons_append, parse_number_stop lc hex x _ o e m h1,
        parse_number_stop lc hex x tl o e m h1]
      rfl
    · obtain ⟨o', e', m', hstep⟩ := parse_number_step lc hex x o e m h1
      rw [List.cons_append, hstep, hstep, ih]

theorem parse_identifier_stop (lc : Locale) (ch : Char) (rest : List Char)
    (h : lc.iswspace ch = true ∨ ch = NUL ∨ ch = '#') :
    parse_identifier lc (ch :: rest) = ([], ch :: rest) := by
  rw [parse_identifier, if_pos h]

theorem parse_identifier_cons (lc : Locale) (ch : Char) (rest : List Char)
    (h : ¬ (lc.iswspace ch = true ∨ ch = NUL ∨ ch = '#')) :
    parse_identifier lc (ch :: rest) =
      (ch :: (parse_identifier lc rest).1, (parse_identifier lc rest).2) := by
  rw [parse_identifier, if_neg h]

theorem parse_identifier_rest (lc : Locale) (l : List Char) :
    l = (parse_identifier lc l).1 ++ (parse_identifier lc l).2 ∧
      (∀ ch tl, l = ch :: tl → ¬ (lc.iswspace ch = true ∨ ch = NUL ∨ ch = '#') →
        (parse_identifier lc l).1 ≠ []) := by
  induction l with
  | nil => exact ⟨rfl, fun ch tl h => by simp at h⟩
  | cons x tl ih =>
    by_cases h1 : lc.iswspace x = true ∨ x = NUL ∨ x = '#'
    · rw [parse_identifier_stop lc x tl h1]
      exact ⟨rfl, fun ch tl' h hn => by
        simp only [List.cons.injEq] at h
        rw [← h.1] at hn
        exact absurd h1 hn⟩
    · rw [parse_identifier_cons lc x tl h1]
      exact ⟨by rw [List.cons_append, ← ih.1], fun _ _ _ _ => List.cons_ne_nil _ _⟩

theorem parse_identifier_comment (lc : Locale) (c : List Char) (l : List Char) :
    parse_identifier lc (l ++ '#' :: c) =
      ((parse_identifier lc l).1, (parse_identifier lc l).2 ++ '#' :: c) := by
  induction l with
  | nil =>
    rw [List.nil_append, parse_identifier_stop lc '#' c (Or.inr (Or.inr rfl))]
    rfl
  | cons x tl ih =>
    by_cases h1 : lc.iswspace x = true ∨ x = NUL ∨ x = '#'
    · rw [List.cons_append, parse_identifier_stop lc x _ h1, parse_identifier_stop lc x tl h1]
      rfl
    · rw [List.cons_append, parse_identifier_cons lc x _ h1, ih, parse_identifier_cons lc x tl h1]

theorem parse_string_cons (ch : Char) (tl string_buf : List Char) :
    parse_string (ch :: tl) string_buf =
      if ch = NUL then .error Diag.string_no_end_quote
      else if ch = DQUOTE then .ok (string_buf, tl)
      else if ch = BACKSLASH then
        match tl with
        | [] => .error Diag.escaping_newlines_unsupported
        | ch2 :: rest =>
          if ch2 = NUL then .error Diag.escaping_newlines_unsupported
          else parse_string rest (string_buf ++ [if ch2 = 'n' then NEWLINE else ch2])
      else parse_string tl (string_buf ++ [ch]) := by
  cases tl with
  | nil =>
    simp only [parse_string]
  | cons ch2 rest =>
    simp only [parse_string]

/-! ## Lemmas on `parse_one_token` -/

theorem parse_string_rest (n : Nat) :
    ∀ (l string_buf text rest : List Char), l.length ≤ n →
      parse_string l string_buf = .ok (text, rest) → ∃ p, p ≠ [] ∧ l = p ++ rest := by
  induction n with
  | zero =>
    intro l string_buf text rest hlen h
    cases l with
    | nil => simp [parse_string] at h
    | cons ch tl => simp at hlen
  | succ n ih =>
    intro l string_buf text rest hlen h
    cases l with
    | nil => simp [parse_string] at h
    | cons ch tl =>
      rw [parse_string_cons] at h
      simp only [List.length_cons, Nat.add_le_add_iff_right] at hlen
      split_ifs at h with h1 h2 h3
      · simp only [Except.ok.injEq, Prod.mk.injEq] at h
        exact ⟨[ch], List.cons_ne_nil _ _, by rw [h.2]; rfl⟩
      · cases tl with
        | nil => simp at h
        | cons ch2 rest2 =>
          dsimp only at h
          rw [if_neg (fun e => by rw [if_pos e] at h; simp at h)] at h
          obtain ⟨p, _, hp⟩ := ih rest2 _ text rest (by
            simp only [List.length_cons] at hlen; omega) h
          exact ⟨ch :: ch2 :: p, List.cons_ne_nil _ _, by rw [hp]; rfl⟩
      · obtain ⟨p, _, hp⟩ := ih tl _ text rest hlen h
        exact ⟨ch :: p, List.cons_ne_nil _ _, by rw [hp]; rfl⟩

theorem number_digits_rest (lc : Locale) (hex : Bool) (ch : Char) (rest : List Char)
    (h : ¬ (lc.iswspace ch = true ∨ ch = NUL ∨ ch = '#')) :
    ∃ q, q ≠ [] ∧ ch :: rest = q ++ (parse_number lc hex
      (if ch = '$' then rest
        else if ch = '0' ∧ rest.head? = some 'x' then rest.drop 1
        else ch :: rest) 0 0 []).2.2.2 := by
  by_cases h1 : ch = '$'
  · rw [if_pos h1]
    obtain ⟨p, hp, _⟩ := parse_number_rest lc hex rest 0 0 []
    exact ⟨ch :: p, List.cons_ne_nil _ _, by rw [List.cons_append, ← hp]⟩
  · rw [if_neg h1]
    by_cases h2 : ch = '0' ∧ rest.head? = some 'x'
    · rw [if_pos h2]
      obtain ⟨p, hp, _⟩ := parse_number_rest lc hex (rest.drop 1) 0 0 []
      cases rest with
      | nil => simp at h2
      | cons x tl =>
        rw [List.drop_one, List.tail_cons] at hp
        rw [List.drop_one, List.tail_cons]
        exact ⟨ch :: x :: p, List.cons_ne_nil _ _, by
          rw [List.cons_append, List.cons_append, ← hp]⟩
    · rw [if_neg h2]
      obtain ⟨p, hp, hne⟩ := parse_number_rest lc hex (ch :: rest) 0 0 []
      exact ⟨p, hne ch rest rfl h, hp⟩

theorem parse_one_token_start (env : Env) (l : List Char) (st : State) :
    parse_one_token env (some l) st = parse_one_token env none { st with line := some l } := rfl

theorem parse_one_token_exhausted (env : Env) (st : State) (h : st.line = none) :
    parse_one_token env none st = (none, st) := by
  simp only [parse_one_token, h]

theorem parse_one_token_progress (env : Env) (st : State) (l : List Char)
    (h : st.line = some l) :
    ((parse_one_token env none st).1 = none ∧ (parse_one_token env none st).2.line = none) ∨
      ∃ tok p r, p ≠ [] ∧ l = p ++ r ∧ (parse_one_token env none st).1 = some tok ∧
        (parse_one_token env none st).2.line = some r := by
  simp only [parse_one_token, h]
  cases hs : skip_whitespace env.locale l with
  | none => exact Or.inl ⟨rfl, rfl⟩
  | some l' =>
    obtain ⟨p, ch, rest, hp, hl, hsp, hnul, hsharp⟩ := skip_whitespace_some _ _ _ hs
    subst hl
    have hstop : ¬ (env.locale.iswspace ch = true ∨ ch = NUL ∨ ch = '#') := by
      rw [hsp]; simp [hnul, hsharp]
    dsimp only
    by_cases hq : ch = DQUOTE
    · rw [if_pos hq]
      cases hps : parse_string rest [] with
      | error msg => exact Or.inl ⟨rfl, rfl⟩
      | ok r =>
        obtain ⟨text, rest2⟩ := r
        obtain ⟨q, _, hq2⟩ := parse_string_rest _ rest [] text rest2 (Nat.le_refl _) hps
        exact Or.inr ⟨_, p ++ ch :: q, rest2, by simp, by
          rw [hp, hq2, List.append_assoc]; rfl, rfl, rfl⟩
    · rw [if_neg hq]
      by_cases hn : ch = '$' ∨ iswdigit ch = true
      · rw [if_pos hn]
        obtain ⟨q, hq1, hq2⟩ := number_digits_rest env.locale
          (decide (ch = '$' ∨ (ch = '0' ∧ rest.head? = some 'x'))) ch rest hstop
        by_cases herr : (parse_number env.locale
            (decide (ch = '$' ∨ (ch = '0' ∧ rest.head? = some 'x')))
            (if ch = '$' then rest
              else if ch = '0' ∧ rest.head? = some 'x' then rest.drop 1
              else ch :: rest) 0 0 []).2.1 ≠ 0
        · rw [if_pos herr]
          exact Or.inl ⟨rfl, rfl⟩
        · rw [if_neg herr]
          exact Or.inr ⟨_, p ++ q, _, by simp [hq1], by
            rw [List.append_assoc, ← hq2, hp], rfl, rfl⟩
      · rw [if_neg hn]
        right
        obtain ⟨h1, h2⟩ := parse_identifier_rest env.locale (ch :: rest)
        exact ⟨_, p ++ (parse_identifier env.locale (ch :: rest)).1, _, by
          simp [h2 ch rest rfl hstop], by rw [List.append_assoc, ← h1, hp], rfl, rfl⟩

theorem next_tokens_exhausted (env : Env) (fuel : Nat) (st : State) (h : st.line = none) :
    next_tokens env fuel st = [] := by
  cases fuel with
  | zero => rfl
  | succ f => rw [next_tokens, parse_one_token_exhausted env st h]

theorem next_tokens_fuel (env : Env) (f1 : Nat) :
    ∀ (f2 : Nat) (st : State),
      (∀ l, st.line = some l → l.length < f1 ∧ l.length < f2) →
        next_tokens env f1 st = next_tokens env f2 st := by
  induction f1 with
  | zero =>
    intro f2 st h
    cases hl : st.line with
    | none => rw [next_tokens_exhausted env _ st hl, next_tokens_exhausted env _ st hl]
    | some l => exact absurd (h l hl).1 (Nat.not_lt_zero _)
  | succ f1 ih =>
    intro f2 st h
    cases hl : st.line with
    | none => rw [next_tokens_exhausted env _ st hl, next_tokens_exhausted env _ st hl]
    | some l =>
      cases f2 with
      | zero => exact absurd (h l hl).2 (Nat.not_lt_zero _)
      | succ f2 =>
        rw [next_tokens, next_tokens]
        rcases parse_one_token_progress env st l hl with ⟨h1, _⟩ | ⟨tok, p, r, hp, hlr, h1, h2⟩
        · generalize parse_one_token env none st = res at *
          obtain ⟨t, st1⟩ := res
          simp only at h1
          subst h1
          rfl
        · generalize parse_one_token env none st = res at *
          obtain ⟨t, st1⟩ := res
          simp only at h1 h2
          subst h1
          simp only
          rw [ih f2 st1]
          intro l1 hl1
          rw [h2] at hl1
          simp only [Option.some.injEq] at hl1
          subst hl1
          have hlen : r.length < l.length := by
            rw [hlr, List.length_append]
            have : 0 < p.length := List.length_pos.mpr hp
            omega
          have := h l hl
          omega

theorem parse_one_token_comment (env : Env) (hsharp : env.locale.iswspace '#' = false)
    (c l : List Char) (st : State) (hl : st.line = some l) (hq : DQUOTE ∉ l) :
    parse_one_token env none { st with line := some (l ++ '#' :: c) } =
      ((parse_one_token env none st).1,
        { (parse_one_token env none st).2 with
          line := (parse_one_token env none st).2.line.map (· ++ '#' :: c) }) := by
  simp only [parse_one_token, hl, skip_whitespace_comment _ hsharp]
  cases hs : skip_whitespace env.locale l with
  | none => rfl
  | some l' =>
    obtain ⟨p, ch, rest, hp, hl', hsp, hnul, hsh⟩ := skip_whitespace_some _ _ _ hs
    subst hl'
    have hstop : ¬ (env.locale.iswspace ch = true ∨ ch = NUL ∨ ch = '#') := by
      rw [hsp]; simp [hnul, hsh]
    have hch : ch ≠ DQUOTE := by
      intro e
      apply hq
      rw [hp, e]
      simp
    simp only [Option.map_some', List.cons_append, if_neg hch]
    by_cases hn : ch = '$' ∨ iswdigit ch = true
    · rw [if_pos hn, if_pos hn]
      have hhead : (rest ++ '#' :: c).head? = some 'x' ↔ rest.head? = some 'x' := by
        cases rest with
        | nil => simp
        | cons x tl => exact Iff.rfl
      have hdig : (if ch = '$' then rest ++ '#' :: c
            else if ch = '0' ∧ (rest ++ '#' :: c).head? = some 'x' then
              (rest ++ '#' :: c).drop 1
            else ch :: (rest ++ '#' :: c)) =
          (if ch = '$' then rest
            else if ch = '0' ∧ rest.head? = some 'x' then rest.drop 1
            else ch :: rest) ++ '#' :: c := by
        by_cases h1 : ch = '$'
        · rw [if_pos h1, if_pos h1]
        · rw [if_neg h1, if_neg h1]
          simp only [hhead]
          by_cases h2 : ch = '0' ∧ rest.head? = some 'x'
          · rw [if_pos h2, if_pos h2]
            cases rest with
            | nil => simp at h2
            | cons x tl => rfl
          · rw [if_neg h2, if_neg h2]
            rfl
      simp only [hhead] at hdig ⊢
      rw [hdig, parse_number_comment]
      by_cases herr : (parse_number env.locale
            (decide (ch = '$' ∨ (ch = '0' ∧ rest.head? = some 'x')))
            (if ch = '$' then rest
              else if ch = '0' ∧ rest.head? = some 'x' then rest.drop 1
              else ch :: rest) 0 0 []).2.1 ≠ 0
      · rw [if_pos herr, if_pos herr]
        rfl
      · rw [if_neg herr, if_neg herr]
        rfl
    · rw [if_neg hn, if_neg hn]
      rw [← List.cons_append, parse_identifier_comment]
      rfl

theorem next_tokens_comment (env : Env) (hsharp : env.locale.iswspace '#' = false)
    (c : List Char) (fuel : Nat) :
    ∀ (st : State) (l : List Char), st.line = some l → DQUOTE ∉ l →
      next_tokens env fuel { st with line := some (l ++ '#' :: c) } =
        next_tokens env fuel st := by
  induction fuel with
  | zero => intro st l _ _; rfl
  | succ f ih =>
    intro st l hl hq
    rw [next_tokens, next_tokens, parse_one_token_comment env hsharp c l st hl hq]
    rcases parse_one_token_progress env st l hl with ⟨h1, _⟩ | ⟨tok, p, r, hp, hlr, h1, h2⟩
    · generalize parse_one_token env none st = res at *
      obtain ⟨t, st1⟩ := res
      simp only at h1
      subst h1
      rfl
    · generalize parse_one_token env none st = res at *
      obtain ⟨t, st1⟩ := res
      simp only at h1 h2
      subst h1
      simp only [h2, Option.map_some']
      rw [ih st1 r h2]
      intro hmem
      apply hq
      rw [hlr]
      exact List.mem_append_right _ hmem

theorem tokens_of_line_eq (env : Env) (line : List Char) (st : State) :
    tokens_of_line env line st =
      next_tokens env (line.length + 1) { st with line := some line } := rfl

/-! ## Lemmas on the number tokens -/

theorem hex_digit_lt (ch : Char) (h : is_hex_digit ch) :
    ch.toNat < 128 ∧ digit_value ch < 16 ∧ ch ≠ NUL ∧ ch ≠ '#' ∧ ch ≠ '$' ∧ ch ≠ DQUOTE ∧
      ch ≠ 'x' ∧ c_locale.iswspace ch = false := by
  have key : ∀ n : Nat, (48 ≤ n ∧ n ≤ 57) ∨ (65 ≤ n ∧ n ≤ 70) ∨ (97 ≤ n ∧ n ≤ 102) →
      n < 128 ∧ n ≠ 0 ∧ n ≠ 35 ∧ n ≠ 36 ∧ n ≠ 34 ∧ n ≠ 120 ∧ n ≠ 32 ∧ ¬ (9 ≤ n ∧ n ≤ 13) := by
    intro n hn; omega
  have hn : (48 ≤ ch.toNat ∧ ch.toNat ≤ 57) ∨ (65 ≤ ch.toNat ∧ ch.toNat ≤ 70) ∨
      (97 ≤ ch.toNat ∧ ch.toNat ≤ 102) := h
  obtain ⟨k1, k2, k3, k4, k5, k6, k7, k8⟩ := key _ hn
  have hne : ∀ c : Char, ch.toNat ≠ c.toNat → ch ≠ c := fun c hc e => hc (by rw [e])
  refine ⟨k1, ?_, hne _ k2, hne _ k3, hne _ k4, hne _ k5, hne _ k6, ?_⟩
  · unfold digit_value
    split_ifs with h1 h2 h3
    · have : ch.toNat ≤ 57 := h1.2
      omega
    · have : ch.toNat ≤ 70 := h2.2
      omega
    · have : ch.toNat ≤ 102 := h3.2
      omega
    · omega
  · have h32 : ch ≠ ' ' := hne _ k7
    simp [c_locale, h32, k8]
    omega

theorem dec_digit_lt (ch : Char) (h : is_dec_digit ch) :
    is_hex_digit ch ∧ digit_value ch < 10 := by
  refine ⟨Or.inl h, ?_⟩
  unfold digit_value
  rw [if_pos h]
  have : ch.toNat ≤ 57 := h.2
  omega

theorem hex_digit_go (lc : Locale) (hstd : lc.ascii_standard) (ch : Char)
    (h : is_hex_digit ch) : ¬ (lc.iswspace ch = true ∨ ch = NUL ∨ ch = '#') := by
  obtain ⟨h1, _, h3, h4, _, _, _, h8⟩ := hex_digit_lt ch h
  rw [(hstd ch h1).1, h8]
  simp [h3, h4]

theorem hex_step (acc d : Nat) (hd : d < 16) :
    ((acc % 2 ^ 64) <<< 4) % 2 ^ 64 ||| d = (acc * 16 + d) % 2 ^ 64 := by
  rw [Nat.shiftLeft_eq]
  have h1 : (acc % 2 ^ 64 * 2 ^ 4) % 2 ^ 64 = 2 ^ 4 * (acc % 2 ^ 60) := by
    norm_num
    omega
  rw [h1, ← Nat.mul_add_lt_is_or (by norm_num; exact hd)]
  norm_num
  omega

theorem dec_step (acc d : Nat) :
    ((acc % 2 ^ 64) * 10 + d) % 2 ^ 64 = (acc * 10 + d) % 2 ^ 64 := by
  norm_num
  omega

theorem digit_chain (hex : Bool) (ch : Char) (e : Nat) (m : List Diag)
    (h : is_dec_digit ch ∨ (hex = true ∧ is_hex_digit ch)) :
    (if '0' ≤ ch ∧ ch ≤ '9' then (ch.toNat - ('0').toNat, e, m)
      else if hex = true ∧ 'A' ≤ ch ∧ ch ≤ 'F' then (ch.toNat - ('A').toNat + 0x0a, e, m)
      else if hex = true ∧ 'a' ≤ ch ∧ ch ≤ 'f' then (ch.toNat - ('a').toNat + 0x0a, e, m)
      else (0, e + 1, m ++ [Diag.cant_parse_digit ch])) = (digit_value ch, e, m) := by
  unfold digit_value is_dec_digit
  by_cases h1 : '0' ≤ ch ∧ ch ≤ '9'
  · rw [if_pos h1, if_pos h1]
    rfl
  · rw [if_neg h1, if_neg h1]
    rcases h with h | ⟨hx, h⟩
    · exact absurd h h1
    · subst hx
      rcases h with h | h | h
      · exact absurd h h1
      · rw [if_pos ⟨rfl, h⟩, if_pos h]
        rfl
      · have h2 : ¬ ('A' ≤ ch ∧ ch ≤ 'F') := by
          intro h2
          have a1 : ch.toNat ≤ 70 := h2.2
          have a2 : 97 ≤ ch.toNat := h.1
          omega
        rw [if_neg (fun hh => h2 hh.2), if_pos ⟨rfl, h⟩, if_neg h2, if_pos h]
        rfl

theorem parse_number_end (lc : Locale) (hex : Bool) (rest : List Char)
    (hend : token_ended lc rest) (o e : Nat) (m : List Diag) :
    parse_number lc hex rest o e m = (o, e, m, rest) := by
  rcases hend with h | ⟨t, tl, h, ht⟩
  · subst h
    rw [parse_number]
  · subst h
    exact parse_number_stop lc hex t tl o e m ht

theorem parse_number_digits (lc : Locale) (hstd : lc.ascii_standard) (hex : Bool)
    (rest : List Char) (hend : token_ended lc rest) (ds : List Char) :
    ∀ acc : Nat, (∀ d ∈ ds, is_dec_digit d ∨ (hex = true ∧ is_hex_digit d)) →
      parse_number lc hex (ds ++ rest) (acc % 2 ^ 64) 0 [] =
        ((ds.foldl (fun a d => a * (if hex = true then 16 else 10) + digit_value d) acc) % 2 ^ 64,
          0, [], rest) := by
  induction ds with
  | nil =>
    intro acc _
    exact parse_number_end lc hex rest hend _ _ _
  | cons d tl ih =>
    intro acc hds
    have hd := hds d (List.mem_cons_self _ _)
    have hhex : is_hex_digit d := by
      rcases hd with h | h
      · exact (dec_digit_lt d h).1
      · exact h.2
    rw [List.cons_append, parse_number_cons lc hex d _ _ _ _ (hex_digit_go lc hstd d hhex),
      digit_chain hex d 0 [] hd]
    simp only [List.foldl_cons]
    cases hex with
    | true =>
      simp only [if_true]
      rw [hex_step acc _ (hex_digit_lt d hhex).2.1]
      exact ih _ (fun x hx => hds x (List.mem_cons_of_mem _ hx))
    | false =>
      simp only [Bool.false_eq_true, if_false]
      rw [dec_step acc]
      exact ih _ (fun x hx => hds x (List.mem_cons_of_mem _ hx))

theorem skip_whitespace_go (lc : Locale) (ch : Char) (rest : List Char)
    (h : ¬ (lc.iswspace ch = true ∨ ch = NUL ∨ ch = '#')) :
    skip_whitespace lc (ch :: rest) = some (ch :: rest) := by
  rw [skip_whitespace, if_neg (fun e => h (Or.inl e)), if_neg (fun e => h (Or.inr e))]

theorem dollar_go (lc : Locale) (hstd : lc.ascii_standard) :
    ¬ (lc.iswspace '$' = true ∨ '$' = NUL ∨ '$' = '#') := by
  rw [(hstd '$' (by decide)).1]
  decide

theorem token_ended_head (lc : Locale) (hstd : lc.ascii_standard) (rest : List Char)
    (hend : token_ended lc rest) : rest.head? ≠ some 'x' := by
  rcases hend with h | ⟨t, tl, h, ht⟩
  · subst h
    simp
  · subst h
    simp only [List.head?_cons, ne_eq, Option.some.injEq]
    intro e
    subst e
    rcases ht with ht | ht | ht
    · rw [(hstd 'x' (by decide)).1] at ht
      revert ht
      decide
    · revert ht
      decide
    · revert ht
      decide

theorem parse_one_token_hex_dollar (env : Env) (hstd : env.locale.ascii_standard)
    (ds rest : List Char) (st : State) (hend : token_ended env.locale rest)
    (hds : ∀ d ∈ ds, is_hex_digit d) :
    parse_one_token env (some ('$' :: (ds ++ rest))) st =
      (some (token_t.NUM (base_value 16 ds % 2 ^ 64)), { st with line := some rest }) := by
  have hp := parse_number_digits env.locale hstd true rest hend ds 0
    (fun d hd => Or.inr ⟨rfl, hds d hd⟩)
  simp only [if_true, Nat.zero_mod] at hp
  simp only [parse_one_token]
  rw [skip_whitespace_go env.locale '$' (ds ++ rest) (dollar_go _ hstd)]
  dsimp only
  rw [if_neg (by decide), if_pos (Or.inl rfl)]
  simp only [true_or, decide_True, if_true, hp]
  simp [base_value]

theorem zero_go (lc : Locale) (hstd : lc.ascii_standard) :
    ¬ (lc.iswspace '0' = true ∨ '0' = NUL ∨ '0' = '#') := by
  rw [(hstd '0' (by decide)).1]
  decide

theorem parse_one_token_hex_0x (env : Env) (hstd : env.locale.ascii_standard)
    (ds rest : List Char) (st : State) (hend : token_ended env.locale rest)
    (hds : ∀ d ∈ ds, is_hex_digit d) :
    parse_one_token env (some ('0' :: 'x' :: (ds ++ rest))) st =
      (some (token_t.NUM (base_value 16 ds % 2 ^ 64)), { st with line := some rest }) := by
  have hp := parse_number_digits env.locale hstd true rest hend ds 0
    (fun d hd => Or.inr ⟨rfl, hds d hd⟩)
  simp only [if_true, Nat.zero_mod] at hp
  simp only [parse_one_token]
  rw [skip_whitespace_go env.locale '0' ('x' :: (ds ++ rest)) (zero_go _ hstd)]
  dsimp only
  rw [if_neg (by decide), if_pos (Or.inr (by decide))]
  have h0 : ¬ ('0' = '$') := by decide
  simp only [h0, false_or, true_and, List.head?_cons, decide_True, if_true, if_false,
    List.drop_one, List.tail_cons, hp]
  simp [base_value]

theorem parse_one_token_dec (env : Env) (hstd : env.locale.ascii_standard)
    (ds rest : List Char) (st : State) (hne : ds ≠ []) (hend : token_ended env.locale rest)
    (hds : ∀ d ∈ ds, is_dec_digit d) :
    parse_one_token env (some (ds ++ rest)) st =
      (some (token_t.NUM (base_value 10 ds % 2 ^ 64)), { st with line := some rest }) := by
  have hp := parse_number_digits env.locale hstd false rest hend ds 0
    (fun d hd => Or.inl (hds d hd))
  simp only [Bool.false_eq_true, if_false, Nat.zero_mod] at hp
  cases ds with
  | nil => exact absurd rfl hne
  | cons d tl =>
    have hd := hds d (List.mem_cons_self _ _)
    have hhex := (dec_digit_lt d hd).1
    obtain ⟨_, _, _, _, hdollar, hquote, _, _⟩ := hex_digit_lt d hhex
    have hx : ¬ (d = '0' ∧ (tl ++ rest).head? = some 'x') := by
      rintro ⟨_, h2⟩
      cases tl with
      | nil => exact token_ended_head env.locale hstd rest hend h2
      | cons t tl2 =>
        simp only [List.cons_append, List.head?_cons, Option.some.injEq] at h2
        have := hds t (List.mem_cons_of_mem _ (List.mem_cons_self _ _))
        rw [h2] at this
        revert this
        decide
    simp only [parse_one_token, List.cons_append]
    rw [skip_whitespace_go env.locale d (tl ++ rest) (hex_digit_go _ hstd d hhex)]
    dsimp only
    rw [if_neg hquote, if_pos (Or.inr (by simpa [iswdigit] using hd))]
    simp only [hdollar, hx, false_or, decide_False, if_false]
    rw [← List.cons_append, hp]
    simp [base_value]

/-! ## Lemmas on the string tokens -/

theorem parse_string_escape_char (ch : Char) (hnul : ch ≠ NUL) (tl string_buf : List Char) :
    parse_string (escape_char ch ++ tl) string_buf = parse_string tl (string_buf ++ [ch]) := by
  unfold escape_char
  by_cases h1 : ch = BACKSLASH ∨ ch = DQUOTE
  · rw [if_pos h1]
    have hb : BACKSLASH ≠ NUL := by decide
    have hb2 : BACKSLASH ≠ DQUOTE := by decide
    have hn : ch ≠ 'n' := by
      rcases h1 with h | h <;> (subst h; decide)
    show parse_string (BACKSLASH :: ch :: tl) string_buf = _
    rw [parse_string_cons, if_neg hb, if_neg hb2, if_pos rfl]
    simp only [if_neg hnul, if_neg hn]
  · rw [if_neg h1]
    by_cases h2 : ch = NEWLINE
    · rw [if_pos h2]
      subst h2
      show parse_string (BACKSLASH :: 'n' :: tl) string_buf = _
      rw [parse_string_cons]
      simp only [show BACKSLASH ≠ NUL from by decide, show BACKSLASH ≠ DQUOTE from by decide,
        show ('n' : Char) ≠ NUL from by decide, if_false, if_true]
    · rw [if_neg h2]
      show parse_string (ch :: tl) string_buf = _
      rw [parse_string_cons, if_neg hnul, if_neg (fun e => h1 (Or.inr e)),
        if_neg (fun e => h1 (Or.inl e))]

theorem parse_string_escape_string (rest : List Char) (s : List Char) :
    ∀ string_buf : List Char, NUL ∉ s →
      parse_string (escape_string s ++ DQUOTE :: rest) string_buf =
        .ok (string_buf ++ s, rest) := by
  induction s with
  | nil =>
    intro string_buf _
    show parse_string (DQUOTE :: rest) string_buf = _
    rw [parse_string_cons, if_neg (by decide), if_pos rfl, List.append_nil]
  | cons ch tl ih =>
    intro string_buf hs
    have hnul : ch ≠ NUL := fun e => hs (by rw [e]; exact List.mem_cons_self _ _)
    rw [escape_string, List.append_assoc, parse_string_escape_char ch hnul,
      ih _ (fun h => hs (List.mem_cons_of_mem _ h)), List.append_assoc]
    rfl

/-! ## Lemmas on the lexical errors -/

theorem skip_whitespace_leading (lc : Locale) (l : List Char) (ws : List Char)
    (hws : ∀ c ∈ ws, lc.iswspace c = true) :
    skip_whitespace lc (ws ++ l) = skip_whitespace lc l := by
  induction ws with
  | nil => rfl
  | cons c tl ih =>
    rw [List.cons_append, skip_whitespace, if_pos (hws c (List.mem_cons_self _ _))]
    exact ih (fun x hx => hws x (List.mem_cons_of_mem _ hx))

theorem line_text_cons (ch : Char) (tl : List Char) (h : ch ≠ NUL) :
    line_text (ch :: tl) = ch :: line_text tl := by
  simp [line_text, List.takeWhile_cons, h]

theorem closes_string_cons (ch : Char) (l : List Char) (h1 : ch ≠ DQUOTE)
    (h2 : ch ≠ BACKSLASH) : closes_string (ch :: l) = closes_string l := by
  cases l with
  | nil => simp [closes_string, h1]
  | cons ch2 rest => rw [closes_string, if_neg h1, if_neg h2]

theorem closes_string_quote (l : List Char) : closes_string (DQUOTE :: l) = true := by
  cases l with
  | nil => simp [closes_string]
  | cons ch2 rest => rw [closes_string, if_pos rfl]

theorem closes_string_escape (ch2 : Char) (l : List Char) :
    closes_string (BACKSLASH :: ch2 :: l) = closes_string l := by
  rw [closes_string, if_neg (by decide), if_pos rfl]

theorem parse_string_error (n : Nat) :
    ∀ (l string_buf : List Char), l.length ≤ n → closes_string (line_text l) = false →
      ∃ msg, parse_string l string_buf = .error msg := by
  induction n with
  | zero =>
    intro l string_buf hlen _
    cases l with
    | nil => exact ⟨_, rfl⟩
    | cons ch tl => simp at hlen
  | succ n ih =>
    intro l string_buf hlen h
    cases l with
    | nil => exact ⟨_, rfl⟩
    | cons ch tl =>
      simp only [List.length_cons, Nat.add_le_add_iff_right] at hlen
      rw [parse_string_cons]
      by_cases h1 : ch = NUL
      · rw [if_pos h1]
        exact ⟨_, rfl⟩
      · rw [if_neg h1]
        rw [line_text_cons ch tl h1] at h
        by_cases h2 : ch = DQUOTE
        · rw [h2, closes_string_quote] at h
          exact absurd h (by decide)
        · rw [if_neg h2]
          by_cases h3 : ch = BACKSLASH
          · rw [if_pos h3]
            cases tl with
            | nil => exact ⟨_, rfl⟩
            | cons ch2 rest =>
              dsimp only
              by_cases h4 : ch2 = NUL
              · rw [if_pos h4]
                exact ⟨_, rfl⟩
              · rw [if_neg h4]
                rw [h3, line_text_cons ch2 rest h4, closes_string_escape] at h
                exact ih rest _ (by simp only [List.length_cons] at hlen; omega) h
          · rw [if_neg h3]
            rw [closes_string_cons ch _ h2 h3] at h
            exact ih tl _ hlen h

theorem digit_chain_bad (hex : Bool) (ch : Char) (e : Nat) (m : List Diag)
    (h : ¬ is_digit_of hex ch) :
    (if '0' ≤ ch ∧ ch ≤ '9' then (ch.toNat - ('0').toNat, e, m)
      else if hex = true ∧ 'A' ≤ ch ∧ ch ≤ 'F' then (ch.toNat - ('A').toNat + 0x0a, e, m)
      else if hex = true ∧ 'a' ≤ ch ∧ ch ≤ 'f' then (ch.toNat - ('a').toNat + 0x0a, e, m)
      else (0, e + 1, m ++ [Diag.cant_parse_digit ch])) =
      (0, e + 1, m ++ [Diag.cant_parse_digit ch]) := by
  have h1 : ¬ ('0' ≤ ch ∧ ch ≤ '9') := fun hh => h (Or.inl hh)
  have h2 : ¬ (hex = true ∧ 'A' ≤ ch ∧ ch ≤ 'F') :=
    fun hh => h (Or.inr ⟨hh.1, Or.inr (Or.inl hh.2)⟩)
  have h3 : ¬ (hex = true ∧ 'a' ≤ ch ∧ ch ≤ 'f') :=
    fun hh => h (Or.inr ⟨hh.1, Or.inr (Or.inr hh.2)⟩)
  rw [if_neg h1, if_neg h2, if_neg h3]

theorem parse_number_cons_error (lc : Locale) (hex : Bool) (ch : Char)
    (o e : Nat) (m : List Diag) (h : ¬ (lc.iswspace ch = true ∨ ch = NUL ∨ ch = '#')) :
    ∃ o' m', ∀ tl, parse_number lc hex (ch :: tl) o e m =
      parse_number lc hex tl o' (if is_digit_of hex ch then e else e + 1) m' := by
  have key := fun tl => parse_number_cons lc hex ch tl o e m h
  by_cases hd : is_digit_of hex ch
  · rw [digit_chain hex ch e m hd] at key
    rw [if_pos hd]
    exact ⟨_, _, key⟩
  · rw [digit_chain_bad hex ch e m hd] at key
    rw [if_neg hd]
    exact ⟨_, _, key⟩

theorem parse_number_error_mono (lc : Locale) (hex : Bool) (l : List Char) :
    ∀ (o e : Nat) (m : List Diag), e ≤ (parse_number lc hex l o e m).2.1 := by
  induction l with
  | nil => intro o e m; rw [parse_number]
  | cons ch tl ih =>
    intro o e m
    by_cases h : lc.iswspace ch = true ∨ ch = NUL ∨ ch = '#'
    · rw [parse_number_stop lc hex ch tl o e m h]
    · obtain ⟨o', m', hstep⟩ := parse_number_cons_error lc hex ch o e m h
      rw [hstep tl]
      refine Nat.le_trans ?_ (ih _ _ _)
      split_ifs <;> omega

theorem parse_number_bad (lc : Locale) (hex : Bool) (rest : List Char) (ds : List Char) :
    ∀ (o e : Nat) (m : List Diag), (∀ c ∈ ds, ¬ ends_token lc c) →
      (∃ d ∈ ds, ¬ is_digit_of hex d) → e < (parse_number lc hex (ds ++ rest) o e m).2.1 := by
  induction ds with
  | nil =>
    intro o e m _ hbad
    obtain ⟨d, hd, _⟩ := hbad
    simp at hd
  | cons ch tl ih =>
    intro o e m hgo hbad
    obtain ⟨o', m', hstep⟩ := parse_number_cons_error lc hex ch o e m
      (hgo ch (List.mem_cons_self _ _))
    rw [List.cons_append, hstep]
    by_cases hd : is_digit_of hex ch
    · rw [if_pos hd]
      apply ih _ _ _ (fun c hc => hgo c (List.mem_cons_of_mem _ hc))
      obtain ⟨d, hmem, hbd⟩ := hbad
      rcases List.mem_cons.mp hmem with e1 | e1
      · rw [e1] at hbd
        exact absurd hd hbd
      · exact ⟨d, e1, hbd⟩
    · rw [if_neg hd]
      exact Nat.lt_of_lt_of_le (Nat.lt_succ_self e) (parse_number_error_mono lc hex _ _ _ _)

theorem parse_one_token_string_error (env : Env) (ws body : List Char) (st : State)
    (hquote : env.locale.iswspace DQUOTE = false)
    (hws : ∀ c ∈ ws, env.locale.iswspace c = true)
    (hbody : closes_string (line_text body) = false) :
    ∃ msgs, parse_one_token env (some (ws ++ DQUOTE :: body)) st =
      (none, { st with line := none, out := st.out ++ msgs }) := by
  have hgo : ¬ (env.locale.iswspace DQUOTE = true ∨ DQUOTE = NUL ∨ DQUOTE = '#') := by
    rw [hquote]
    decide
  obtain ⟨msg, hmsg⟩ := parse_string_error _ body [] (Nat.le_refl _) hbody
  refine ⟨[msg], ?_⟩
  simp only [parse_one_token]
  rw [skip_whitespace_leading env.locale _ ws hws, skip_whitespace_go env.locale DQUOTE _ hgo]
  dsimp only
  rw [if_pos rfl, hmsg]

theorem number_digits_code (ch : Char) (tl rest : List Char)
    (h : tl = [] → ¬ (ch = '0' ∧ rest.head? = some 'x')) :
    decide (ch = '$' ∨ (ch = '0' ∧ (tl ++ rest).head? = some 'x')) =
        (number_digits (ch :: tl)).1 ∧
      (if ch = '$' then tl ++ rest
        else if ch = '0' ∧ (tl ++ rest).head? = some 'x' then (tl ++ rest).drop 1
        else ch :: (tl ++ rest)) = (number_digits (ch :: tl)).2 ++ rest := by
  unfold number_digits
  by_cases h1 : ch = '$'
  · simp only [h1, true_or, decide_True, if_true, and_self]
  · simp only [h1, false_or, if_false]
    cases tl with
    | nil =>
      have := h rfl
      simp only [List.nil_append]
      simp only [this, decide_False, if_false, true_and]
      rfl
    | cons ch2 rest2 =>
      simp only [List.cons_append, List.head?_cons, Option.some.injEq]
      by_cases h2 : ch = '0' ∧ ch2 = 'x'
      · simp only [h2, and_self, decide_True, if_true, true_and]
        rfl
      · simp only [h2, decide_False, if_false, true_and]
        rfl

theorem number_digits_sub (t : List Char) (c : Char) (h : c ∈ (number_digits t).2) :
    c ∈ t := by
  cases t with
  | nil => exact h
  | cons ch tl =>
    simp only [number_digits] at h
    by_cases h1 : ch = '$'
    · rw [if_pos h1] at h
      exact List.mem_cons_of_mem _ h
    · rw [if_neg h1] at h
      cases tl with
      | nil => exact h
      | cons ch2 rest2 =>
        dsimp only at h
        by_cases h2 : ch = '0' ∧ ch2 = 'x'
        · rw [if_pos h2] at h
          exact List.mem_cons_of_mem _ (List.mem_cons_of_mem _ h)
        · rw [if_neg h2] at h
          exact h

theorem parse_one_token_number_error (env : Env) (ws t rest : List Char) (st : State)
    (hws : ∀ c ∈ ws, env.locale.iswspace c = true)
    (hstart : starts_number t) (hgo : ∀ c ∈ t, ¬ ends_token env.locale c)
    (hbad : bad_number t) :
    ∃ msgs, parse_one_token env (some (ws ++ (t ++ rest))) st =
      (none, { st with line := none, out := st.out ++ msgs }) := by
  obtain ⟨ch, tl, ht, hch⟩ := hstart
  subst ht
  have hq : ch ≠ DQUOTE := by
    rcases hch with h | h
    · rw [h]; decide
    · exact (hex_digit_lt ch (Or.inl h)).2.2.2.2.2.1
  have hn : ch = '$' ∨ iswdigit ch = true := by
    rcases hch with h | h
    · exact Or.inl h
    · exact Or.inr (by simpa [iswdigit] using h)
  have hx : tl = [] → ¬ (ch = '0' ∧ rest.head? = some 'x') := by
    rintro rfl ⟨h0, _⟩
    subst h0
    have hnd : number_digits ['0'] = (false, ['0']) := rfl
    rw [bad_number, hnd] at hbad
    obtain ⟨d, hd, hbd⟩ := hbad
    simp only [List.mem_singleton] at hd
    subst hd
    exact hbd (Or.inl (by decide))
  obtain ⟨hc1, hc2⟩ := number_digits_code ch tl rest hx
  have hsub : ∀ c ∈ (number_digits (ch :: tl)).2, ¬ ends_token env.locale c :=
    fun c hc => hgo c (number_digits_sub _ c hc)
  have herr := parse_number_bad env.locale (number_digits (ch :: tl)).1 rest
    (number_digits (ch :: tl)).2 0 0 [] hsub hbad
  refine ⟨(parse_number env.locale (number_digits (ch :: tl)).1
    ((number_digits (ch :: tl)).2 ++ rest) 0 0 []).2.2.1, ?_⟩
  simp only [parse_one_token]
  rw [skip_whitespace_leading env.locale _ ws hws, List.cons_append,
    skip_whitespace_go env.locale ch _ (hgo ch (List.mem_cons_self _ _))]
  dsimp only
  rw [if_neg hq, if_pos hn, hc1, hc2, if_pos (Nat.pos_iff_ne_zero.mp herr)]

/-! ## Lemmas on the file names -/

theorem takeWhile_string (s junk : List Char) (hs : NUL ∉ s) :
    (s ++ NUL :: junk).takeWhile (fun ch => decide (ch ≠ NUL)) = s := by
  induction s with
  | nil => rfl
  | cons ch tl ih =>
    have hne : ch ≠ NUL := fun e => hs (by rw [e]; exact List.mem_cons_self _ _)
    have htl : NUL ∉ tl := fun h => hs (List.mem_cons_of_mem _ h)
    rw [List.cons_append, List.takeWhile_cons, if_pos (decide_eq_true hne), ih htl]

theorem wcslen_string (s junk : List Char) (hs : NUL ∉ s) :
    wcslen (s ++ NUL :: junk) = s.length := by
  rw [wcslen, takeWhile_string s junk hs]

theorem getD_append_length (done rest : List Char) (ch d : Char) :
    (done ++ ch :: rest).getD done.length d = ch := by
  induction done with
  | nil => rfl
  | cons x tl ih =>
    rw [List.cons_append, List.length_cons, List.getD_cons_succ]
    exact ih

theorem take_append_length (done rest : List Char) :
    (done ++ rest).take done.length = done := by
  induction done with
  | nil => rfl
  | cons x tl ih => rw [List.cons_append, List.length_cons, List.take_succ_cons, ih]

theorem drop_append_length (done rest : List Char) (n : Nat) :
    (done ++ rest).drop (done.length + n) = rest.drop n := by
  induction done with
  | nil => rw [List.nil_append, List.length_nil, Nat.zero_add]
  | cons x tl ih =>
    rw [List.cons_append, List.length_cons, Nat.add_right_comm, List.drop_succ_cons, ih]

theorem memmove_remove (done tl junk : List Char) (ch : Char) :
    memmove (done ++ ch :: (tl ++ NUL :: junk)) done.length (done.length + 1)
        (tl.length + 1) =
      done ++ (tl ++ NUL :: NUL :: junk) := by
  have h1 : (tl ++ NUL :: junk).take (tl.length + 1) = tl ++ [NUL] := by
    rw [show tl ++ NUL :: junk = (tl ++ [NUL]) ++ junk from by simp]
    have := take_append_length (tl ++ [NUL]) junk
    rw [List.length_append, List.length_singleton] at this
    exact this
  have h2 : (ch :: (tl ++ NUL :: junk)).drop (tl.length + 1) = NUL :: junk := by
    rw [List.drop_succ_cons]
    have := drop_append_length tl (NUL :: junk) 0
    rw [Nat.add_zero, List.drop_zero] at this
    exact this
  rw [memmove, take_append_length, drop_append_length, drop_append_length,
    List.drop_succ_cons, List.drop_zero, h1, h2]
  simp

theorem is_filename_char_eq (ch : Char) :
    is_filename_char ch = !decide (ch.toNat < 0x20 ∨ ch ∈ illegal_filename_chars) := by
  simp only [is_filename_char, illegal_filename_chars, DQUOTE, BACKSLASH]
  by_cases h1 : ch.toNat < 0x20
  · simp [h1]
  · simp [h1]
    omega

theorem get_os_filename_loop_spec (todo : List Char) :
    ∀ (done junk : List Char) (fuel : Nat), NUL ∉ todo → todo.length < fuel →
      ∃ junk', get_os_filename_loop fuel (done ++ (todo ++ NUL :: junk)) done.length
          (done.length + todo.length) =
        some (done ++ (filename_chars todo ++ NUL :: junk'),
          done.length + (filename_chars todo).length) := by
  induction todo with
  | nil =>
    intro done junk fuel _ hfuel
    cases fuel with
    | zero => exact absurd hfuel (Nat.lt_irrefl _)
    | succ f =>
      refine ⟨junk, ?_⟩
      rw [get_os_filename_loop]
      simp only [List.nil_append, getD_append_length, if_true, filename_chars, List.filter_nil,
        List.length_nil]
  | cons ch tl ih =>
    intro done junk fuel hs hfuel
    have hne : ch ≠ NUL := fun e => hs (by rw [e]; exact List.mem_cons_self _ _)
    have htl : NUL ∉ tl := fun h => hs (List.mem_cons_of_mem _ h)
    cases fuel with
    | zero => exact absurd hfuel (Nat.not_lt_zero _)
    | succ f =>
      have hf : tl.length < f := by
        simp only [List.length_cons] at hfuel
        omega
      have hget : (done ++ (ch :: tl ++ NUL :: junk)).getD done.length NUL = ch :=
        getD_append_length done _ ch NUL
      rw [get_os_filename_loop]
      simp only [hget, if_neg hne]
      by_cases hbad : ch.toNat < 0x20 ∨ ch ∈ illegal_filename_chars
      · rw [if_pos hbad, show done.length + (ch :: tl).length - done.length = tl.length + 1
          from by simp only [List.length_cons]; omega, List.cons_append, memmove_remove]
        obtain ⟨junk', hj⟩ := ih done (NUL :: junk) f htl hf
        have hk : is_filename_char ch = false := by
          rw [is_filename_char_eq]; simp [hbad]
        refine ⟨junk', ?_⟩
        rw [show done.length + (ch :: tl).length - 1 = done.length + tl.length from by
          simp only [List.length_cons]; omega, hj]
        simp [filename_chars, List.filter_cons, hk]
      · rw [if_neg hbad]
        obtain ⟨junk', hj⟩ := ih (done ++ [ch]) junk f htl hf
        have hk : is_filename_char ch = true := by
          rw [is_filename_char_eq]; simp [hbad]
        refine ⟨junk', ?_⟩
        have e1 : done ++ (ch :: tl ++ NUL :: junk) = (done ++ [ch]) ++ (tl ++ NUL :: junk) := by
          simp
        have e2 : done.length + 1 = (done ++ [ch]).length := by simp
        have e3 : done.length + (ch :: tl).length = (done ++ [ch]).length + tl.length := by
          simp only [List.length_cons, List.length_append, List.length_nil]; omega
        rw [e1, e2, e3, hj]
        simp [filename_chars, List.filter_cons, hk]
        omega

theorem get_os_filename_eq_filter (s : List Char) (hs : NUL ∉ s) :
    get_os_filename s = filename_chars s := by
  induction s with
  | nil => rfl
  | cons ch tl ih =>
    have hne : ch ≠ NUL := fun e => hs (by rw [e]; exact List.mem_cons_self _ _)
    have htl : NUL ∉ tl := fun h => hs (List.mem_cons_of_mem _ h)
    rw [get_os_filename, if_neg hne]
    by_cases hbad : ch.toNat < 0x20 ∨ ch ∈ illegal_filename_chars
    · have hk : is_filename_char ch = false := by
        rw [is_filename_char_eq]; simp [hbad]
      rw [if_pos hbad, ih htl]
      simp [filename_chars, List.filter_cons, hk]
    · have hk : is_filename_char ch = true := by
        rw [is_filename_char_eq]; simp [hbad]
      rw [if_neg hbad, ih htl]
      simp [filename_chars, List.filter_cons, hk]

/-! ## Lemmas on the filename template -/

theorem expand_template_char (st : State) (ch : Char) (rest filename_buf : List Char)
    (out : List Diag) (h1 : ch ≠ NUL) (h2 : ch ≠ '%') :
    expand_template st none (ch :: rest) filename_buf out =
      expand_template st none rest (filename_buf ++ [ch]) out := by
  rw [expand_template, if_neg h1, if_neg h2]

theorem expand_template_percent (st : State) (rest filename_buf : List Char)
    (out : List Diag) :
    expand_template st none ('%' :: rest) filename_buf out =
      expand_template st (some 0) rest filename_buf out := by
  rw [expand_template, if_neg (by decide), if_pos rfl]

theorem expand_template_digit (st : State) (number : Nat) (d : Char)
    (rest filename_buf : List Char) (out : List Diag) (hd : is_dec_digit d) :
    expand_template st (some number) (d :: rest) filename_buf out =
      expand_template st (some ((number * 10 + digit_value d) % 2 ^ 32)) rest filename_buf
        out := by
  have h1 : d ≠ NUL := (hex_digit_lt d (Or.inl hd)).2.2.1
  have h2 : iswdigit d = true := by simpa [iswdigit] using hd
  have h3 : d.toNat - ('0').toNat = digit_value d := by
    rw [digit_value, if_pos hd]
    rfl
  rw [expand_template, if_neg h1, if_pos h2]
  simp only [h3]

theorem expand_template_digits (st : State) (rest filename_buf : List Char)
    (out : List Diag) (ds : List Char) :
    ∀ number : Nat, (∀ d ∈ ds, is_dec_digit d) →
      expand_template st (some (number % 2 ^ 32)) (ds ++ rest) filename_buf out =
        expand_template st
          (some ((ds.foldl (fun a d => a * 10 + digit_value d) number) % 2 ^ 32)) rest
          filename_buf out := by
  induction ds with
  | nil => intro number _; rfl
  | cons d tl ih =>
    intro number hds
    rw [List.cons_append, expand_template_digit st _ d _ _ _ (hds d (List.mem_cons_self _ _)),
      show (number % 2 ^ 32 * 10 + digit_value d) % 2 ^ 32 =
        (number * 10 + digit_value d) % 2 ^ 32 from by norm_num; omega,
      ih _ (fun x hx => hds x (List.mem_cons_of_mem _ hx))]
    rfl

theorem expand_template_n (st : State) (number : Nat) (rest filename_buf : List Char)
    (out : List Diag) :
    expand_template st (some number) ('n' :: rest) filename_buf out =
      match swprintf_0u number st.song_number with
      | none => .no_return
      | some text => expand_template st none rest (filename_buf ++ text) out := by
  rw [expand_template, if_neg (by decide), if_neg (by decide), if_pos rfl]

theorem expand_template_i (st : State) (number : Nat) (rest filename_buf : List Char)
    (out : List Diag) :
    expand_template st (some number) ('i' :: rest) filename_buf out =
      match swprintf_0u number st.song_id with
      | none => .no_return
      | some text => expand_template st none rest (filename_buf ++ text) out := by
  rw [expand_template, if_neg (by decide), if_neg (by decide), if_neg (by decide),
    if_pos rfl]

theorem swprintf_0u_fits (width value : Nat) (hw : width < 16)
    (hv : (Nat.toDigits 10 value).length < 16) :
    swprintf_0u width value = some (zero_padded width value) := by
  have h31 : width < 2 ^ 31 := by
    norm_num
    omega
  simp only [swprintf_0u, zero_padded, if_pos h31]
  rw [if_pos]
  rw [List.length_append, List.length_replicate]
  omega

/-- The widths up to 15: the specifiers `%<w>n` and `%<w>i` stand for the song
number and the song id in decimal, with `0` characters before them up to `w`
characters, and the expansion goes on behind them. -/
theorem expand_template_zero_padded (st : State) (ds rest filename_buf : List Char)
    (out : List Diag) (hds : ∀ d ∈ ds, is_dec_digit d) (hw : base_value 10 ds < 16)
    (hn : (Nat.toDigits 10 st.song_number).length < 16)
    (hi : (Nat.toDigits 10 st.song_id).length < 16) :
    expand_template st none ('%' :: (ds ++ 'n' :: rest)) filename_buf out =
        expand_template st none rest
          (filename_buf ++ zero_padded (base_value 10 ds) st.song_number) out ∧
      expand_template st none ('%' :: (ds ++ 'i' :: rest)) filename_buf out =
        expand_template st none rest
          (filename_buf ++ zero_padded (base_value 10 ds) st.song_id) out := by
  have hmod : base_value 10 ds % 2 ^ 32 = base_value 10 ds := by
    apply Nat.mod_eq_of_lt
    norm_num
    omega
  have hd := fun rest => expand_template_digits st rest filename_buf out ds 0 hds
  simp only [Nat.zero_mod] at hd
  constructor
  · rw [expand_template_percent, hd, expand_template_n]
    change (match swprintf_0u (base_value 10 ds % 2 ^ 32) st.song_number with
      | none => Expansion.no_return
      | some text => expand_template st none rest (filename_buf ++ text) out) = _
    rw [hmod, swprintf_0u_fits _ _ hw hn]
  · rw [expand_template_percent, hd, expand_template_i]
    change (match swprintf_0u (base_value 10 ds % 2 ^ 32) st.song_id with
      | none => Expansion.no_return
      | some text => expand_template st none rest (filename_buf ++ text) out) = _
    rw [hmod, swprintf_0u_fits _ _ hw hi]

theorem malformed_template_nil : ¬ malformed_template [] := by
  rintro ⟨pre, ds, post, h, _, _⟩
  cases pre with
  | nil => simp at h
  | cons p pre1 => simp at h

theorem malformed_template_percent_nil : malformed_template ['%'] :=
  ⟨[], [], [], rfl, fun _ h => by simp at h, Or.inl rfl⟩

theorem malformed_template_percent_other (ch : Char) (rest : List Char)
    (h1 : ¬ is_dec_digit ch) (h2 : ch ∉ specifier_letters) :
    malformed_template ('%' :: ch :: rest) :=
  ⟨[], [], ch :: rest, rfl, fun _ h => by simp at h, Or.inr ⟨ch, rest, rfl, h1, h2⟩⟩

theorem malformed_template_cons (ch : Char) (rest : List Char) (h : ch ≠ '%') :
    malformed_template (ch :: rest) ↔ malformed_template rest := by
  constructor
  · rintro ⟨pre, ds, post, he, hds, hpost⟩
    cases pre with
    | nil =>
      simp only [List.nil_append, List.cons.injEq] at he
      exact absurd he.1 h
    | cons p pre1 =>
      simp only [List.cons_append, List.cons.injEq] at he
      exact ⟨pre1, ds, post, he.2, hds, hpost⟩
  · rintro ⟨pre, ds, post, he, hds, hpost⟩
    exact ⟨ch :: pre, ds, post, by rw [he]; rfl, hds, hpost⟩

theorem malformed_template_percent_digit (d : Char) (rest : List Char)
    (hd : is_dec_digit d) :
    malformed_template ('%' :: d :: rest) ↔ malformed_template ('%' :: rest) := by
  have hne : d ≠ '%' := fun e => by rw [e] at hd; revert hd; decide
  constructor
  · rintro ⟨pre, ds, post, he, hds, hpost⟩
    cases pre with
    | nil =>
      simp only [List.nil_append, List.cons.injEq, true_and] at he
      cases ds with
      | nil =>
        simp only [List.nil_append] at he
        rcases hpost with hp | ⟨ch, tl, hp, hnd, _⟩
        · rw [hp] at he
          simp at he
        · rw [hp] at he
          simp only [List.cons.injEq] at he
          rw [← he.1] at hnd
          exact absurd hd hnd
      | cons d1 ds1 =>
        simp only [List.cons_append, List.cons.injEq] at he
        exact ⟨[], ds1, post, by rw [he.2]; rfl,
          fun x hx => hds x (List.mem_cons_of_mem _ hx), hpost⟩
    | cons p pre1 =>
      simp only [List.cons_append, List.cons.injEq] at he
      cases pre1 with
      | nil =>
        simp only [List.nil_append, List.cons.injEq] at he
        exact absurd he.2.1 hne
      | cons p2 pre2 =>
        simp only [List.cons_append, List.cons.injEq] at he
        exact ⟨'%' :: pre2, ds, post, by rw [he.2.2]; rfl, hds, hpost⟩
  · rintro ⟨pre, ds, post, he, hds, hpost⟩
    cases pre with
    | nil =>
      simp only [List.nil_append, List.cons.injEq, true_and] at he
      refine ⟨[], d :: ds, post, by rw [he]; rfl, ?_, hpost⟩
      intro x hx
      rcases List.mem_cons.mp hx with e | e
      · rw [e]; exact hd
      · exact hds x e
    | cons p pre1 =>
      simp only [List.cons_append, List.cons.injEq] at he
      exact ⟨'%' :: d :: pre1, ds, post, by rw [he.2]; rfl, hds, hpost⟩

theorem malformed_template_percent_letter (ch : Char) (rest : List Char)
    (hch : ch ∈ specifier_letters) :
    malformed_template ('%' :: ch :: rest) ↔ malformed_template rest := by
  have hne : ch ≠ '%' := fun e => by rw [e] at hch; revert hch; decide
  have hnd : ¬ is_dec_digit ch := by
    simp only [specifier_letters, List.mem_cons, List.mem_singleton, List.not_mem_nil,
      or_false] at hch
    rcases hch with e | e | e | e <;> (rw [e]; decide)
  constructor
  · rintro ⟨pre, ds, post, he, hds, hpost⟩
    cases pre with
    | nil =>
      simp only [List.nil_append, List.cons.injEq, true_and] at he
      cases ds with
      | nil =>
        simp only [List.nil_append] at he
        rcases hpost with hp | ⟨c, tl, hp, _, hnl⟩
        · rw [hp] at he
          simp at he
        · rw [hp] at he
          simp only [List.cons.injEq] at he
          rw [← he.1] at hnl
          exact absurd hch hnl
      | cons d1 ds1 =>
        simp only [List.cons_append, List.cons.injEq] at he
        have := hds d1 (List.mem_cons_self _ _)
        rw [← he.1] at this
        exact absurd this hnd
    | cons p pre1 =>
      simp only [List.cons_append, List.cons.injEq] at he
      cases pre1 with
      | nil =>
        simp only [List.nil_append, List.cons.injEq] at he
        exact absurd he.2.1 hne
      | cons p2 pre2 =>
        simp only [List.cons_append, List.cons.injEq] at he
        exact ⟨pre2, ds, post, he.2.2, hds, hpost⟩
  · rintro ⟨pre, ds, post, he, hds, hpost⟩
    exact ⟨'%' :: ch :: pre, ds, post, by rw [he]; rfl, hds, hpost⟩

theorem expand_template_t (st : State) (number : Nat) (rest filename_buf : List Char)
    (out : List Diag) :
    ∃ buf1 out1, expand_template st (some number) ('t' :: rest) filename_buf out =
      expand_template st none rest buf1 out1 := by
  rw [expand_template, if_neg (by decide), if_neg (by decide), if_neg (by decide),
    if_neg (by decide), if_pos rfl]
  cases get_gsf_tag_value st.gsf_tag_buf "title".toList with
  | none => exact ⟨_, _, rfl⟩
  | some value => exact ⟨_, _, rfl⟩

theorem expand_template_a (st : State) (number : Nat) (rest filename_buf : List Char)
    (out : List Diag) :
    ∃ buf1 out1, expand_template st (some number) ('a' :: rest) filename_buf out =
      expand_template st none rest buf1 out1 := by
  rw [expand_template, if_neg (by decide), if_neg (by decide), if_neg (by decide),
    if_neg (by decide), if_neg (by decide), if_pos rfl]
  cases get_gsf_tag_value st.gsf_tag_buf "artist".toList with
  | none => exact ⟨_, _, rfl⟩
  | some value => exact ⟨_, _, rfl⟩

theorem expand_template_other (st : State) (number : Nat) (ch : Char)
    (rest filename_buf : List Char) (out : List Diag) (h0 : ch ≠ NUL)
    (h1 : ¬ is_dec_digit ch) (h2 : ch ∉ specifier_letters) :
    expand_template st (some number) (ch :: rest) filename_buf out =
      .failed (out ++ [Diag.invalid_specifier ch]) := by
  have hd : ¬ (iswdigit ch = true) := by simpa [iswdigit, is_dec_digit] using h1
  simp only [specifier_letters, List.mem_cons, List.mem_singleton, List.not_mem_nil,
    or_false, not_or] at h2
  rw [expand_template, if_neg h0, if_neg hd, if_neg h2.1, if_neg h2.2.1, if_neg h2.2.2.1,
    if_neg h2.2.2.2]

/-- When the expansion of a template returns, it fails exactly on a malformed
specifier. The second part is the same for the inner loop, behind a `%`. -/
theorem expand_template_failed_iff (st : State) (template : List Char) :
    NUL ∉ template →
      (∀ filename_buf out, expand_template st none template filename_buf out ≠ .no_return →
        ((∃ o, expand_template st none template filename_buf out = .failed o) ↔
          malformed_template template)) ∧
      (∀ number filename_buf out,
        expand_template st (some number) template filename_buf out ≠ .no_return →
        ((∃ o, expand_template st (some number) template filename_buf out = .failed o) ↔
          malformed_template ('%' :: template))) := by
  induction template with
  | nil =>
    intro _
    constructor
    · intro filename_buf out _
      rw [expand_template]
      exact ⟨fun ⟨o, h⟩ => by simp at h, fun h => absurd h malformed_template_nil⟩
    · intro number filename_buf out _
      rw [expand_template]
      exact ⟨fun _ => malformed_template_percent_nil, fun _ => ⟨_, rfl⟩⟩
  | cons ch rest ih =>
    intro hs
    have hne : ch ≠ NUL := fun e => hs (by rw [e]; exact List.mem_cons_self _ _)
    obtain ⟨iha, ihb⟩ := ih (fun h => hs (List.mem_cons_of_mem _ h))
    constructor
    · intro filename_buf out hret
      by_cases hp : ch = '%'
      · subst hp
        rw [expand_template_percent] at hret ⊢
        exact ihb 0 filename_buf out hret
      · rw [expand_template_char st ch rest filename_buf out hne hp] at hret ⊢
        rw [malformed_template_cons ch rest hp]
        exact iha _ out hret
    · intro number filename_buf out hret
      by_cases hd : is_dec_digit ch
      · rw [expand_template_digit st number ch rest filename_buf out hd] at hret ⊢
        rw [malformed_template_percent_digit ch rest hd]
        exact ihb _ filename_buf out hret
      · by_cases hl : ch ∈ specifier_letters
        · rw [malformed_template_percent_letter ch rest hl]
          simp only [specifier_letters, List.mem_cons, List.mem_singleton, List.not_mem_nil,
            or_false] at hl
          rcases hl with e | e | e | e
          · subst e
            rw [expand_template_n] at hret ⊢
            generalize swprintf_0u number st.song_number = r at hret ⊢
            cases r with
            | none => exact absurd rfl hret
            | some text => exact iha _ out hret
          · subst e
            rw [expand_template_i] at hret ⊢
            generalize swprintf_0u number st.song_id = r at hret ⊢
            cases r with
            | none => exact absurd rfl hret
            | some text => exact iha _ out hret
          · subst e
            obtain ⟨buf1, out1, h1⟩ := expand_template_t st number rest filename_buf out
            rw [h1] at hret ⊢
            exact iha _ _ hret
          · subst e
            obtain ⟨buf1, out1, h1⟩ := expand_template_a st number rest filename_buf out
            rw [h1] at hret ⊢
            exact iha _ _ hret
        · rw [expand_template_other st number ch rest filename_buf out hne hd hl]
          exact ⟨fun _ => malformed_template_percent_other ch rest hd hl, fun _ => ⟨_, rfl⟩⟩

/-- A template without `%` expands to itself. -/
theorem expand_template_plain (st : State) (template : List Char) :
    ∀ (filename_buf : List Char) (out : List Diag), NUL ∉ template → '%' ∉ template →
      expand_template st none template filename_buf out =
        .done (filename_buf ++ template) out := by
  induction template with
  | nil =>
    intro filename_buf out _ _
    rw [expand_template, List.append_nil]
  | cons ch rest ih =>
    intro filename_buf out h1 h2
    rw [expand_template_char st ch rest filename_buf out
        (fun e => h1 (by rw [e]; exact List.mem_cons_self _ _))
        (fun e => h2 (by rw [e]; exact List.mem_cons_self _ _)),
      ih _ out (fun h => h1 (List.mem_cons_of_mem _ h)) (fun h => h2 (List.mem_cons_of_mem _ h)),
      List.append_assoc]
    rfl

/-- A `%t` or `%a` whose tag is absent adds no character: the expansion goes on
with a warning. -/
theorem expand_template_absent (st : State) (rest filename_buf : List Char)
    (out : List Diag) :
    (get_gsf_tag_value st.gsf_tag_buf "title".toList = none →
      expand_template st none ('%' :: 't' :: rest) filename_buf out =
        expand_template st none rest filename_buf (out ++ [Diag.title_not_defined])) ∧
    (get_gsf_tag_value st.gsf_tag_buf "artist".toList = none →
      expand_template st none ('%' :: 'a' :: rest) filename_buf out =
        expand_template st none rest filename_buf (out ++ [Diag.artist_not_defined])) := by
  constructor
  · intro h
    rw [expand_template_percent, expand_template, if_neg (by decide), if_neg (by decide),
      if_neg (by decide), if_neg (by decide), if_pos rfl, h]
  · intro h
    rw [expand_template_percent, expand_template, if_neg (by decide), if_neg (by decide),
      if_neg (by decide), if_neg (by decide), if_neg (by decide), if_pos rfl, h]

/-! ## The claims on the tokens -/

/-- Claim C14: a `#` starts a comment that runs to the end of the line. For every
line `L` without a double quote and every text `c`, the tokens that repeated calls
of `parse_one_token` produce on `L` followed by `#` and `c` are the tokens produced
on `L` alone. The locale is taken not to classify `#` as white space, since
`iswspace` is tested before the comment character. -/
theorem comment_to_end_of_line (env : Env) (L c : List Char) (st : State)
    (hsharp : env.locale.iswspace '#' = false) (hq : DQUOTE ∉ L) :
    tokens_of_line env (L ++ '#' :: c) st = tokens_of_line env L st := by
  rw [tokens_of_line_eq, tokens_of_line_eq]
  have h1 := next_tokens_comment env hsharp c ((L ++ '#' :: c).length + 1)
    { st with line := some L } L rfl hq
  rw [show ({ ({ st with line := some L } : State) with line := some (L ++ '#' :: c) } : State)
      = { st with line := some (L ++ '#' :: c) } from rfl] at h1
  rw [h1]
  apply next_tokens_fuel
  intro l hl
  simp only [Option.some.injEq] at hl
  subst hl
  simp only [List.length_append, List.length_cons]
  omega

theorem comment_to_end_of_line_witness :
    example_env.locale.iswspace '#' = false ∧ DQUOTE ∉ "$1F ab ".toList ∧
      tokens_of_line example_env ("$1F ab ".toList ++ '#' :: "comment".toList) initial_state =
        tokens_of_line example_env "$1F ab ".toList initial_state ∧
      tokens_of_line example_env "$1F ab #comment".toList initial_state =
        [token_t.NUM 0x1F, token_t.ID "ab".toList] :=
  ⟨by decide, by decide,
    comment_to_end_of_line example_env "$1F ab ".toList "comment".toList initial_state
      (by decide) (by decide),
    by decide⟩

/-- Claim C15: the value of a number token. For every non-empty sequence `ds` of
hexadecimal digits, in upper or lower case, followed by white space, `#` or the end
of the line, the lines `$ds` and `0xds` start with a number token whose value is the
value of `ds` in base 16 modulo `2 ^ 64`; and when the digits of `ds` are all decimal,
the line `ds` starts with a number token whose value is the value of `ds` in base 10
modulo `2 ^ 64`. The locale is taken to be the standard one on the ASCII characters. -/
theorem number_token_value (env : Env) (hstd : env.locale.ascii_standard)
    (ds rest : List Char) (st : State) (hne : ds ≠ []) (hend : token_ended env.locale rest)
    (hds : ∀ d ∈ ds, is_hex_digit d) :
    parse_one_token env (some ('$' :: (ds ++ rest))) st =
        (some (token_t.NUM (base_value 16 ds % 2 ^ 64)), { st with line := some rest }) ∧
      parse_one_token env (some ('0' :: 'x' :: (ds ++ rest))) st =
        (some (token_t.NUM (base_value 16 ds % 2 ^ 64)), { st with line := some rest }) ∧
      ((∀ d ∈ ds, is_dec_digit d) →
        parse_one_token env (some (ds ++ rest)) st =
          (some (token_t.NUM (base_value 10 ds % 2 ^ 64)), { st with line := some rest })) :=
  ⟨parse_one_token_hex_dollar env hstd ds rest st hend hds,
    parse_one_token_hex_0x env hstd ds rest st hend hds,
    fun hdec => parse_one_token_dec env hstd ds rest st hne hend hdec⟩

theorem number_token_value_witness :
    example_env.locale.ascii_standard ∧ "12".toList ≠ [] ∧
      token_ended example_env.locale " ab".toList ∧
      (∀ d ∈ "12".toList, is_hex_digit d) ∧ (∀ d ∈ "12".toList, is_dec_digit d) ∧
      base_value 16 "12".toList % 2 ^ 64 = 0x12 ∧ base_value 10 "12".toList % 2 ^ 64 = 12 ∧
      parse_one_token example_env (some ('$' :: ("12".toList ++ " ab".toList))) initial_state =
        (some (token_t.NUM (base_value 16 "12".toList % 2 ^ 64)),
          { initial_state with line := some " ab".toList }) ∧
      parse_one_token example_env (some ('0' :: 'x' :: ("12".toList ++ " ab".toList)))
          initial_state =
        (some (token_t.NUM (base_value 16 "12".toList % 2 ^ 64)),
          { initial_state with line := some " ab".toList }) ∧
      parse_one_token example_env (some ("12".toList ++ " ab".toList)) initial_state =
        (some (token_t.NUM (base_value 10 "12".toList % 2 ^ 64)),
          { initial_state with line := some " ab".toList }) :=
  have h := number_token_value example_env c_locale_ascii_standard "12".toList " ab".toList
    initial_state (by decide) (Or.inr ⟨' ', "ab".toList, by decide, Or.inl (by decide)⟩)
    (by decide)
  ⟨c_locale_ascii_standard, by decide, Or.inr ⟨' ', "ab".toList, by decide, Or.inl (by decide)⟩,
    by decide, by decide, by decide, by decide, h.1, h.2.1, h.2.2 (by decide)⟩

/-- Claim C16: a string token gives back the text that was written between the
quotes. For every text `s` without a `NUL`, the line made of a double quote, `s`
with a backslash before every backslash and double quote and with every newline
written backslash-`n`, and a double quote, holds exactly one token: the string `s`.
The locale is taken not to classify the double quote as white space. -/
theorem string_token_round_trip (env : Env) (s : List Char) (st : State)
    (hquote : env.locale.iswspace DQUOTE = false) (hs : NUL ∉ s) :
    tokens_of_line env (DQUOTE :: (escape_string s ++ [DQUOTE])) st = [token_t.STR s] ∧
      parse_one_token env (some (DQUOTE :: (escape_string s ++ [DQUOTE]))) st =
        (some (token_t.STR s), { st with line := some [] }) := by
  have hgo : ¬ (env.locale.iswspace DQUOTE = true ∨ DQUOTE = NUL ∨ DQUOTE = '#') := by
    rw [hquote]
    decide
  have h1 : parse_one_token env (some (DQUOTE :: (escape_string s ++ [DQUOTE]))) st =
      (some (token_t.STR s), { st with line := some [] }) := by
    simp only [parse_one_token]
    rw [skip_whitespace_go env.locale DQUOTE _ hgo]
    dsimp only
    rw [if_pos rfl, parse_string_escape_string [] s [] hs]
    rfl
  refine ⟨?_, h1⟩
  rw [tokens_of_line, h1]
  dsimp only
  rw [List.length_cons, next_tokens]
  rfl

theorem string_token_round_trip_witness :
    example_env.locale.iswspace DQUOTE = false ∧
      NUL ∉ "line1".toList ++ NEWLINE :: "line2".toList ∧
      escape_string ("line1".toList ++ NEWLINE :: "line2".toList) =
        "line1".toList ++ BACKSLASH :: 'n' :: "line2".toList ∧
      (tokens_of_line example_env
          (DQUOTE :: (escape_string ("line1".toList ++ NEWLINE :: "line2".toList) ++ [DQUOTE]))
          initial_state = [token_t.STR ("line1".toList ++ NEWLINE :: "line2".toList)] ∧
        parse_one_token example_env
          (some (DQUOTE ::
            (escape_string ("line1".toList ++ NEWLINE :: "line2".toList) ++ [DQUOTE])))
          initial_state =
          (some (token_t.STR ("line1".toList ++ NEWLINE :: "line2".toList)),
            { initial_state with line := some [] })) :=
  ⟨by decide, by decide, by decide,
    string_token_round_trip example_env ("line1".toList ++ NEWLINE :: "line2".toList)
      initial_state (by decide) (by decide)⟩

/-- Claim C17: a lexical error fails the token and exhausts the line. When the next
token of a line is a string that the line ends before closing, a backslash at the
end of the line included, or a number with a character that is not a digit of its
base, `parse_one_token` returns no token and leaves no line; and without a line
every later call returns no token and changes nothing, until a line is supplied.
The locale is taken not to classify the double quote as white space. -/
theorem lexical_error_exhausts_line (env : Env) (line : List Char) (st : State)
    (hquote : env.locale.iswspace DQUOTE = false)
    (herr : unterminated_string env.locale line ∨ malformed_number env.locale line) :
    (parse_one_token env (some line) st).1 = none ∧
      (parse_one_token env (some line) st).2.line = none ∧
      parse_one_token env none (parse_one_token env (some line) st).2 =
        (none, (parse_one_token env (some line) st).2) ∧
      ∀ st1 : State, st1.line = none → parse_one_token env none st1 = (none, st1) := by
  have key : ∃ msgs, parse_one_token env (some line) st =
      (none, { st with line := none, out := st.out ++ msgs }) := by
    rcases herr with ⟨ws, body, hl, hws, hbody⟩ | ⟨ws, t, rest, hl, hws, hstart, hgo, hbad⟩
    · rw [hl]
      exact parse_one_token_string_error env ws body st hquote hws hbody
    · rw [hl]
      exact parse_one_token_number_error env ws t rest st hws hstart hgo hbad
  obtain ⟨msgs, hm⟩ := key
  rw [hm]
  exact ⟨rfl, rfl, parse_one_token_exhausted env _ rfl,
    fun st1 h1 => parse_one_token_exhausted env st1 h1⟩

theorem lexical_error_exhausts_line_witness :
    example_env.locale.iswspace DQUOTE = false ∧
      (unterminated_string example_env.locale (' ' :: DQUOTE :: 'a' :: [BACKSLASH]) ∨
        malformed_number example_env.locale (' ' :: DQUOTE :: 'a' :: [BACKSLASH])) ∧
      ((parse_one_token example_env (some (' ' :: DQUOTE :: 'a' :: [BACKSLASH]))
          initial_state).1 = none ∧
        (parse_one_token example_env (some (' ' :: DQUOTE :: 'a' :: [BACKSLASH]))
          initial_state).2.line = none ∧
        parse_one_token example_env none
            (parse_one_token example_env (some (' ' :: DQUOTE :: 'a' :: [BACKSLASH]))
              initial_state).2 =
          (none, (parse_one_token example_env (some (' ' :: DQUOTE :: 'a' :: [BACKSLASH]))
            initial_state).2) ∧
        ∀ st1 : State, st1.line = none →
          parse_one_token example_env none st1 = (none, st1)) ∧
      (parse_one_token example_env (some "$1G x".toList) initial_state).1 = none ∧
      (parse_one_token example_env (some "12a".toList) initial_state).2.line = none :=
  have hs : unterminated_string example_env.locale (' ' :: DQUOTE :: 'a' :: [BACKSLASH]) :=
    ⟨[' '], 'a' :: [BACKSLASH], rfl, by decide, by decide⟩
  have hn : malformed_number example_env.locale "$1G x".toList :=
    ⟨[], "$1G".toList, " x".toList, by decide, by decide, ⟨'$', "1G".toList, by decide,
      Or.inl rfl⟩, by decide, ⟨'G', by decide, by decide⟩⟩
  have hd : malformed_number example_env.locale "12a".toList :=
    ⟨[], "12a".toList, [], by decide, by decide, ⟨'1', "2a".toList, by decide,
      Or.inr (by decide)⟩, by decide, ⟨'a', by decide, by decide⟩⟩
  ⟨by decide, Or.inl hs,
    lexical_error_exhausts_line example_env _ initial_state (by decide) (Or.inl hs),
    (lexical_error_exhausts_line example_env _ initial_state (by decide) (Or.inr hn)).1,
    (lexical_error_exhausts_line example_env _ initial_state (by decide) (Or.inr hd)).2.1⟩

/-! ## The claims on the filename template -/

/-- Claim C18 fails on the code at the template `%16n`: `swprintf` writes into a
buffer of sixteen wide characters, a rendering of sixteen characters does not fit
with its terminator, and the failure is not tested, so that `make_minigsf` does not
return and no file name is produced. The widths up to 15 behave as the claim says:
`song_%03n.gsf` with `song_number = 7` gives `song_007.gsf`, and `%15n` gives
fifteen characters. -/
theorem template_width_overflows_buffer :
    expand_template { initial_state with song_number := 7 } none "song_%03n.gsf".toList [] [] =
        .done "song_007.gsf".toList [] ∧
      (main_loop example_env 0 initial_state padded_script).toOption.map
          (fun st => st.files.map (fun file => String.mk file.1)) = some ["song_007.gsf"] ∧
      expand_template { initial_state with song_number := 7 } none "%15n".toList [] [] =
        .done "000000000000007".toList [] ∧
      swprintf_0u 16 7 = none ∧
      expand_template { initial_state with song_number := 7 } none "%16n".toList [] [] =
        .no_return ∧
      (match main_loop example_env 0 initial_state wide_script with
        | .error e => some e
        | .ok _ => none) = some Stop.no_return := by
  refine ⟨by decide, by decide, by decide, by decide, by decide, by decide⟩

/-- Claim C19 fails on the code at the template `%16n%`: its last `%` is followed
by the end of the template, and yet no error is reported, because the expansion
stops at `%16n` before it, where the result of `swprintf` does not fit and is not
tested. With the width 15 the error is reported. The three particular cases of the
claim hold: a template without `%` expands to itself, `%%` is an error, and `%t`
without a title adds nothing. -/
theorem template_error_not_reached :
    malformed_template "%16n%".toList ∧
      expand_template initial_state none "%16n%".toList [] [] = .no_return ∧
      (match main_loop example_env 0 initial_state wide_malformed_script with
        | .error e => some e
        | .ok _ => none) = some Stop.no_return ∧
      expand_template initial_state none "%15n%".toList [] [] =
        .failed [Diag.incomplete_specifier] ∧
      expand_template initial_state none "abc.gsf".toList [] [] = .done "abc.gsf".toList [] ∧
      expand_template initial_state none "%%".toList [] [] =
        .failed [Diag.invalid_specifier '%'] ∧
      expand_template initial_state none "a%tb".toList [] [] =
        .done "ab".toList [Diag.title_not_defined] := by
  refine ⟨⟨"%16n".toList, [], [], by decide, fun _ h => by simp at h, Or.inl rfl⟩,
    by decide, by decide, by decide, by decide, by decide, by decide⟩

/-! ## The claim on the file names -/

/-- Claim C20: the loop of `get_os_filename` removes the characters not valid in a
file name. For every string `s`, stored with its terminating `NUL` before any
other memory, the loop ends and leaves in its place exactly the characters of `s`
that are not below `0x20` and not among the nine illegal ones, in their order,
followed by a `NUL` at the new length `filename_len`; this is the string
`get_os_filename` stands for elsewhere in this development. -/
theorem get_os_filename_strips (s junk : List Char) (hs : NUL ∉ s) :
    (∃ junk', get_os_filename_in_place (s ++ NUL :: junk) =
        some (filename_chars s ++ NUL :: junk', (filename_chars s).length)) ∧
      get_os_filename s = filename_chars s := by
  refine ⟨?_, get_os_filename_eq_filter s hs⟩
  obtain ⟨junk', hj⟩ := get_os_filename_loop_spec s [] junk (s.length + 1) hs
    (Nat.lt_succ_self _)
  refine ⟨junk', ?_⟩
  rw [get_os_filename_in_place, wcslen_string s junk hs]
  simpa using hj

theorem get_os_filename_strips_witness :
    NUL ∉ 'a' :: '<' :: DQUOTE :: Char.ofNat 7 :: "b*.gsf".toList ∧
      filename_chars ('a' :: '<' :: DQUOTE :: Char.ofNat 7 :: "b*.gsf".toList) =
        "ab.gsf".toList ∧
      get_os_filename_in_place
          ('a' :: '<' :: DQUOTE :: Char.ofNat 7 :: "b*.gsf".toList ++ NUL :: []) =
        some ("ab.gsf".toList ++ [NUL, NUL, NUL, NUL, NUL], 6) ∧
      ((∃ junk', get_os_filename_in_place
            ('a' :: '<' :: DQUOTE :: Char.ofNat 7 :: "b*.gsf".toList ++ NUL :: []) =
          some (filename_chars ('a' :: '<' :: DQUOTE :: Char.ofNat 7 :: "b*.gsf".toList) ++
            NUL :: junk',
            (filename_chars ('a' :: '<' :: DQUOTE :: Char.ofNat 7 :: "b*.gsf".toList)).length)) ∧
        get_os_filename ('a' :: '<' :: DQUOTE :: Char.ofNat 7 :: "b*.gsf".toList) =
          filename_chars ('a' :: '<' :: DQUOTE :: Char.ofNat 7 :: "b*.gsf".toList)) :=
  ⟨by decide, by decide, by decide,
    get_os_filename_strips ('a' :: '<' :: DQUOTE :: Char.ofNat 7 :: "b*.gsf".toList) []
      (by decide)⟩

/-! ## Lemmas on the log of the parsing functions -/

theorem parse_number_cons_msgs (lc : Locale) (hex : Bool) (ch : Char)
    (o e : Nat) (m : List Diag) (h : ¬ (lc.iswspace ch = true ∨ ch = NUL ∨ ch = '#')) :
    ∃ o' e' m', m'.length + e = m.length + e' ∧
      ∀ tl, parse_number lc hex (ch :: tl) o e m = parse_number lc hex tl o' e' m' := by
  have key := fun tl => parse_number_cons lc hex ch tl o e m h
  by_cases hd : is_digit_of hex ch
  · rw [digit_chain hex ch e m hd] at key
    exact ⟨_, e, m, rfl, key⟩
  · rw [digit_chain_bad hex ch e m hd] at key
    exact ⟨_, e + 1, m ++ [Diag.cant_parse_digit ch], by
      rw [List.length_append, List.length_singleton]; omega, key⟩

theorem parse_number_msgs (lc : Locale) (hex : Bool) (l : List Char) :
    ∀ (o e : Nat) (m : List Diag),
      (parse_number lc hex l o e m).2.2.1.length + e =
        m.length + (parse_number lc hex l o e m).2.1 := by
  induction l with
  | nil =>
    intro o e m
    rw [parse_number]
  | cons ch tl ih =>
    intro o e m
    by_cases h : lc.iswspace ch = true ∨ ch = NUL ∨ ch = '#'
    · rw [parse_number_stop lc hex ch tl o e m h]
    · obtain ⟨o', e', m', hlen, hstep⟩ := parse_number_cons_msgs lc hex ch o e m h
      rw [hstep tl]
      have := ih o' e' m'
      omega

/-- What a call `parse_one_token(NULL)` does depends on the rest of the line only:
on two states with the same rest of line it returns the same token, leaves the same
rest of line and prints the same messages, and it prints none when it returns a
token. -/
theorem parse_one_token_pair (env : Env) (st st2 : State) (hl : st2.line = st.line) :
    ∃ (tok : Option token_t) (line : Option (List Char)) (msgs : List Diag),
      parse_one_token env none st = (tok, { st with line := line, out := st.out ++ msgs }) ∧
      parse_one_token env none st2 =
        (tok, { st2 with line := line, out := st2.out ++ msgs }) ∧
      (tok ≠ none → msgs = []) := by
  have heta : ∀ s : State, ∀ l, s.line = l → ({ s with line := l, out := s.out ++ [] } : State)
      = s := by
    intro s l h
    subst h
    cases s
    simp
  cases hline : st.line with
  | none =>
    rw [hline] at hl
    refine ⟨none, none, [], ?_, ?_, fun h => rfl⟩
    · rw [parse_one_token_exhausted env st hline, heta st none hline]
    · rw [parse_one_token_exhausted env st2 hl, heta st2 none hl]
  | some l =>
    rw [hline] at hl
    simp only [parse_one_token, hline, hl]
    cases hs : skip_whitespace env.locale l with
    | none => exact ⟨none, none, [], by simp, by simp, fun _ => rfl⟩
    | some l' =>
      obtain ⟨p, ch, rest, hp, hl', hsp, hnul, hsh⟩ := skip_whitespace_some _ _ _ hs
      subst hl'
      dsimp only
      by_cases hq : ch = DQUOTE
      · rw [if_pos hq, if_pos hq]
        cases hps : parse_string rest [] with
        | error msg => exact ⟨none, none, [msg], rfl, rfl, fun h => absurd rfl h⟩
        | ok r => exact ⟨some (token_t.STR r.1), some r.2, [], by simp, by simp, fun _ => rfl⟩
      · rw [if_neg hq, if_neg hq]
        by_cases hn : ch = '$' ∨ iswdigit ch = true
        · rw [if_pos hn, if_pos hn]
          have hm := parse_number_msgs env.locale
            (decide (ch = '$' ∨ (ch = '0' ∧ rest.head? = some 'x')))
            (if ch = '$' then rest
              else if ch = '0' ∧ rest.head? = some 'x' then rest.drop 1
              else ch :: rest) 0 0 []
          generalize parse_number env.locale
            (decide (ch = '$' ∨ (ch = '0' ∧ rest.head? = some 'x')))
            (if ch = '$' then rest
              else if ch = '0' ∧ rest.head? = some 'x' then rest.drop 1
              else ch :: rest) 0 0 [] = r at hm ⊢
          by_cases herr : r.2.1 ≠ 0
          · rw [if_pos herr, if_pos herr]
            exact ⟨none, none, r.2.2.1, rfl, rfl, fun h => absurd rfl h⟩
          · rw [if_neg herr, if_neg herr]
            have h0 : r.2.2.1 = [] := by
              apply List.eq_nil_of_length_eq_zero
              simp only [List.length_nil] at hm
              omega
            exact ⟨some (token_t.NUM r.1), some r.2.2.2, [], by rw [h0], by rw [h0],
              fun _ => rfl⟩
        · rw [if_neg hn, if_neg hn]
          exact ⟨some (token_t.ID (parse_identifier env.locale (ch :: rest)).1),
            some (parse_identifier env.locale (ch :: rest)).2, [], by simp, by simp,
            fun _ => rfl⟩

/-- A call of `parse_one_token` that returns a token prints nothing. -/
theorem parse_one_token_some_out (env : Env) (st : State)
    (tok : token_t) (st1 : State) (h : parse_one_token env none st = (some tok, st1)) :
    st1.out = st.out := by
  obtain ⟨t, line, msgs, h1, _, h3⟩ := parse_one_token_pair env st st rfl
  rw [h1] at h
  simp only [Prod.mk.injEq] at h
  have hm : msgs = [] := h3 (by rw [h.1]; simp)
  rw [← h.2, hm]
  simp

/-- A call of `parse_one_token_type` that returns a token prints nothing. -/
theorem parse_one_token_type_some (env : Env) (expected_type : TokType) (st : State)
    (tok : token_t) (st1 : State)
    (h : parse_one_token_type env none expected_type st = (some tok, st1)) :
    parse_one_token env none st = (some tok, st1) ∧ tok.type = expected_type ∧
      st1.out = st.out := by
  unfold parse_one_token_type at h
  rcases hp : parse_one_token env none st with ⟨_ | t, s1⟩
  · rw [hp] at h
    simp at h
  · rw [hp] at h
    dsimp only at h
    by_cases ht : t.type ≠ expected_type
    · rw [if_pos ht] at h
      simp at h
    · rw [if_neg ht] at h
      simp only [Prod.mk.injEq, Option.some.injEq] at h
      obtain ⟨h1, h2⟩ := h
      subst h1 h2
      exact ⟨rfl, not_not.mp ht, parse_one_token_some_out env st t s1 hp⟩

/-- A call of `parse_one_token_type` that returns a token changes the rest of the
line only. -/
theorem parse_one_token_type_some_state (env : Env) (expected_type : TokType) (st : State)
    (tok : token_t) (st1 : State)
    (h : parse_one_token_type env none expected_type st = (some tok, st1)) :
    st1 = { st with line := st1.line } := by
  have hg := parse_one_token_type_globals env none expected_type st
  have hs := parse_one_token_type_statics env none expected_type st
  rw [h] at hg hs
  obtain ⟨⟨g1, g2, g3, g4, g5, g6⟩, hf⟩ := hg
  obtain ⟨s1, s2⟩ := hs
  have ho := (parse_one_token_type_some env expected_type st tok st1 h).2.2
  cases st1
  cases st
  simp only at g1 g2 g3 g4 g5 g6 hf ho s1 s2
  subst g1 g2 g3 g4 g5 g6 hf ho s1 s2
  rfl

/-! ## Lemmas on the range that never ends -/

/-- With `end = 4294967295` the test `song_id <= end` holds for every `unsigned`:
whatever the fuel, the loop of the range has no final state. -/
theorem minigsf_range_loop_endless (env : Env) (step : Nat) :
    ∀ (fuel : Nat) (st : State), st.song_id < 2 ^ 32 →
      (minigsf_range_loop env fuel st (2 ^ 32 - 1) step).toOption = none := by
  intro fuel
  induction fuel with
  | zero => intro st _; rfl
  | succ fuel ih =>
    intro st hid
    have hle : st.song_id ≤ 2 ^ 32 - 1 := by omega
    rw [minigsf_range_loop, if_pos hle]
    cases make_minigsf env st with
    | error e => rfl
    | ok st1 => exact ih _ (Nat.mod_lt _ (by norm_num))

/-! ## Lemmas on the capacity of a buffer -/

theorem expand_max_ge (fuel max new_max : Nat) (h : new_max ≤ max) :
    expand_max fuel max new_max = some max := by
  cases fuel with
  | zero => rw [expand_max, if_neg (by omega)]
  | succ f => rw [expand_max, if_neg (by omega)]

/-- From a capacity of 0 the doubling never reaches a positive size: the loop has
no result, whatever the fuel. -/
theorem expand_max_zero (new_max : Nat) (h : 0 < new_max) :
    ∀ fuel : Nat, expand_max fuel 0 new_max = none := by
  intro fuel
  induction fuel with
  | zero => rw [expand_max, if_pos h]
  | succ f ih =>
    rw [expand_max, if_pos h]
    exact ih

theorem expand_max_none_of_step (max new_max : Nat) (h : max < new_max)
    (hstep : ∀ fuel : Nat, expand_max fuel ((max * 2) % 2 ^ 64) new_max = none) :
    ∀ fuel : Nat, expand_max fuel max new_max = none := by
  intro fuel
  cases fuel with
  | zero => rw [expand_max, if_pos h]
  | succ f =>
    rw [expand_max, if_pos h]
    exact hstep f

/-- Below `2^63` the doubling does not wrap around: from a positive capacity the
loop ends, with the capacity multiplied by a power of two, and with the first
such capacity that is large enough. -/
theorem expand_max_spec (new_max : Nat) (hnew : new_max ≤ 2 ^ 63) :
    ∀ fuel max : Nat, 0 < max → new_max ≤ max + fuel →
      ∃ k, expand_max fuel max new_max = some (max * 2 ^ k) ∧ new_max ≤ max * 2 ^ k ∧
        (new_max ≤ max → k = 0) ∧ (max < new_max → max * 2 ^ k < 2 * new_max) := by
  intro fuel
  induction fuel with
  | zero =>
    intro max _ h
    exact ⟨0, by rw [pow_zero, Nat.mul_one]; exact expand_max_ge 0 max new_max (by omega),
      by rw [pow_zero, Nat.mul_one]; omega, fun _ => rfl, fun h' => by omega⟩
  | succ fuel ih =>
    intro max hpos h
    by_cases hlt : max < new_max
    · obtain ⟨k, hk, h1, h2, h3⟩ := ih (max * 2) (by omega) (by omega)
      have hmod : (max * 2) % 2 ^ 64 = max * 2 := by
        apply Nat.mod_eq_of_lt
        norm_num at hnew ⊢
        omega
      have hpow : max * 2 * 2 ^ k = max * 2 ^ (k + 1) := by
        rw [pow_succ]
        ring
      refine ⟨k + 1, ?_, ?_, fun h' => by omega, fun _ => ?_⟩
      · rw [expand_max, if_pos hlt, hmod, hk, hpow]
      · rw [← hpow]
        exact h1
      · rw [← hpow]
        by_cases h4 : new_max ≤ max * 2
        · rw [h2 h4, pow_zero, Nat.mul_one]
          omega
        · exact h3 (by omega)
    · exact ⟨0, by rw [pow_zero, Nat.mul_one]; exact expand_max_ge _ max new_max (by omega),
        by rw [pow_zero, Nat.mul_one]; omega, fun _ => rfl, fun h' => absurd h' hlt⟩

theorem expand_buffer_spec (buf : buffer_t) (new_max : Nat) (hmax : 0 < buf.max)
    (hnew : new_max ≤ 2 ^ 63) :
    ∃ b k, expand_buffer buf new_max = some b ∧ new_max ≤ b.max ∧ buf.max ≤ b.max ∧
      b.max = buf.max * 2 ^ k ∧ b.size = buf.size := by
  obtain ⟨k, hk, h1, _, _⟩ := expand_max_spec new_max hnew new_max buf.max hmax (by omega)
  have hle : buf.max ≤ buf.max * 2 ^ k := Nat.le_mul_of_pos_right _ (by positivity)
  rw [expand_buffer, hk]
  dsimp only
  by_cases hgt : buf.max * 2 ^ k > buf.max
  · rw [if_pos hgt]
    exact ⟨_, k, rfl, h1, hle, rfl, rfl⟩
  · rw [if_neg hgt]
    have heq : buf.max * 2 ^ k = buf.max := by omega
    exact ⟨buf, k, rfl, by omega, Nat.le_refl _, heq.symm, rfl⟩

theorem set_buffer_spec (buf : buffer_t) (data : List Nat) (size : Nat)
    (hbuf : buf.data = none ∨ 0 < buf.max) (hsize : size ≤ 2 ^ 63) :
    ∃ b, set_buffer buf data size = some b ∧ b.size = size ∧ b.size ≤ b.max := by
  by_cases hnew : buf.data = none
  · have hinit : init_new_buffer buf size = ⟨some (List.replicate size 0), 0, size⟩ := by
      simp [init_new_buffer, is_buffer_new, init_buffer, hnew]
    have hexp : expand_buffer ⟨some (List.replicate size 0), 0, size⟩ size =
        some ⟨some (List.replicate size 0), 0, size⟩ := by
      rw [expand_buffer]
      dsimp only
      rw [expand_max_ge size size size (Nat.le_refl _)]
      dsimp only
      rw [if_neg (Nat.lt_irrefl _)]
    rw [set_buffer]
    simp only [hinit, hexp]
    exact ⟨_, rfl, rfl, Nat.le_refl _⟩
  · have hpos : 0 < buf.max := by
      rcases hbuf with h | h
      · exact absurd h hnew
      · exact h
    have hinit : init_new_buffer buf size = buf := by
      cases hd : buf.data with
      | none => exact absurd hd hnew
      | some d => simp [init_new_buffer, is_buffer_new, hd]
    obtain ⟨b, k, hb, h1, _, _, _⟩ := expand_buffer_spec buf size hpos hsize
    rw [set_buffer]
    simp only [hinit, hb]
    exact ⟨_, rfl, rfl, h1⟩

theorem append_buffer_spec (buf : buffer_t) (data : List Nat) (size : Nat)
    (hmax : 0 < buf.max) (hsize : buf.size + size ≤ 2 ^ 63) :
    ∃ b, append_buffer buf data size = some b ∧ b.size = buf.size + size ∧
      b.size ≤ b.max := by
  have hmod : (buf.size + size) % 2 ^ 64 = buf.size + size := by
    apply Nat.mod_eq_of_lt
    norm_num at hsize ⊢
    omega
  obtain ⟨b, k, hb, h1, _, _, hs⟩ := expand_buffer_spec buf (buf.size + size) hmax hsize
  rw [append_buffer, hmod, hb]
  dsimp only
  refine ⟨_, rfl, ?_, ?_⟩
  · dsimp only
    rw [hs, hmod]
  · dsimp only
    rw [hs, hmod]
    exact h1

/-! ## Lemmas on the tags that a command leaves alone -/

theorem get_gsf_tag_value_cons (name : List Char) (t : gsf_tag_t) (rest : List gsf_tag_t) :
    get_gsf_tag_value (t :: rest) name =
      if t.name_buf = some name then t.value_buf else get_gsf_tag_value rest name := by
  unfold get_gsf_tag_value
  rw [get_gsf_tag_cons]
  by_cases h : t.name_buf = some name
  · rw [if_pos h, if_pos h]
    rfl
  · rw [if_neg h, if_neg h]
    cases get_gsf_tag rest name with
    | none => rfl
    | some i => rfl

theorem get_gsf_tag_value_same_names (other : List Char) (pre post : List gsf_tag_t)
    (e e1 : gsf_tag_t) (hn : e1.name_buf = e.name_buf) (he : e.name_buf ≠ some other) :
    get_gsf_tag_value (pre ++ e1 :: post) other = get_gsf_tag_value (pre ++ e :: post) other := by
  induction pre with
  | nil =>
    rw [List.nil_append, List.nil_append, get_gsf_tag_value_cons, get_gsf_tag_value_cons,
      if_neg he, if_neg (by rw [hn]; exact he)]
  | cons t tl ih =>
    rw [List.cons_append, List.cons_append, get_gsf_tag_value_cons, get_gsf_tag_value_cons, ih]

theorem get_gsf_tag_value_append_other (other : List Char) (store : List gsf_tag_t)
    (e : gsf_tag_t) (he : e.name_buf ≠ some other) :
    get_gsf_tag_value (store ++ [e]) other = get_gsf_tag_value store other := by
  induction store with
  | nil =>
    rw [List.nil_append, get_gsf_tag_value_cons, if_neg he]
  | cons t tl ih =>
    rw [List.cons_append, get_gsf_tag_value_cons, get_gsf_tag_value_cons, ih]

/-- Setting a tag leaves the value of every other tag as it is. -/
theorem get_gsf_tag_value_set_other (store : List gsf_tag_t) (name other : List Char)
    (value : Option (List Char)) (h : other ≠ name) :
    get_gsf_tag_value (set_gsf_tag store name value) other = get_gsf_tag_value store other := by
  have hne : (some name : Option (List Char)) ≠ some other :=
    fun e => h (Option.some.inj e).symm
  cases hf : get_gsf_tag store name with
  | none =>
    unfold set_gsf_tag
    simp only [hf]
    split_ifs
    · exact get_gsf_tag_value_append_other other store _ hne
    · rfl
  | some i =>
    obtain ⟨pre, e, post, hs, _, he, hpre⟩ := get_gsf_tag_some_split name store i hf
    rw [set_gsf_tag_found store name value pre e post hs he hpre, hs]
    exact get_gsf_tag_value_same_names other pre post e _ rfl (by rw [he]; exact hne)

/-! ## Lemmas on the commands that set one tag -/

theorem parse_one_token_type_str (env : Env) (st : State) :
    (∃ s st1, parse_one_token env none st = (some (token_t.STR s), st1) ∧
      parse_one_token_type env none .TOK_STR st = (some (token_t.STR s), st1)) ∨
    ((∀ s st1, parse_one_token env none st ≠ (some (token_t.STR s), st1)) ∧
      (parse_one_token_type env none .TOK_STR st).1 = none) := by
  unfold parse_one_token_type
  rcases hp : parse_one_token env none st with ⟨_ | tok, st1⟩
  · right
    exact ⟨fun s st2 h => by simp at h, rfl⟩
  · cases tok with
    | STR s => exact Or.inl ⟨s, st1, rfl, rfl⟩
    | ID t =>
      right
      exact ⟨fun s st2 h => by simp at h, rfl⟩
    | NUM v =>
      right
      exact ⟨fun s st2 h => by simp at h, rfl⟩

/-- What `parse_set_gsf_tag` does: the tag gets the string that the next token
holds, and is cleared when the string is empty or when the next token is not a
string; the other tags and the other global variables are as before. -/
theorem parse_set_gsf_tag_spec (env : Env) (name : List Char) (st : State) :
    (∀ s st1, parse_one_token env none st = (some (token_t.STR s), st1) →
      get_gsf_tag_value (parse_set_gsf_tag env name st).2.gsf_tag_buf name =
        assigned_value s) ∧
    ((∀ s st1, parse_one_token env none st ≠ (some (token_t.STR s), st1)) →
      get_gsf_tag_value (parse_set_gsf_tag env name st).2.gsf_tag_buf name = none) ∧
    (∀ other, other ≠ name →
      get_gsf_tag_value (parse_set_gsf_tag env name st).2.gsf_tag_buf other =
        get_gsf_tag_value st.gsf_tag_buf other) ∧
    (parse_set_gsf_tag env name st).2.entry_point = st.entry_point ∧
    (parse_set_gsf_tag env name st).2.filename_template_buf = st.filename_template_buf ∧
    (parse_set_gsf_tag env name st).2.minigsf_offset = st.minigsf_offset ∧
    (parse_set_gsf_tag env name st).2.song_number = st.song_number ∧
    (parse_set_gsf_tag env name st).2.song_id = st.song_id ∧
    (parse_set_gsf_tag env name st).2.files = st.files := by
  have hg := parse_one_token_type_globals env none .TOK_STR st
  have hcases := parse_one_token_type_str env st
  unfold parse_set_gsf_tag
  generalize parse_one_token_type env none .TOK_STR st = r at hg hcases ⊢
  obtain ⟨tokopt, st1⟩ := r
  obtain ⟨⟨g1, g2, g3, g4, g5, g6⟩, hf⟩ := hg
  simp only at g1 g2 g3 g4 g5 g6 hf
  cases tokopt with
  | none =>
    dsimp only
    refine ⟨?_, ?_, ?_, g1, g2, g3, g4, g5, hf⟩
    · intro s st2 hs
      rcases hcases with ⟨s', st', h1, h2⟩ | ⟨h1, _⟩
      · simp at h2
      · exact absurd hs (h1 s st2)
    · intro _
      rw [get_gsf_tag_value_set]
      simp
    · intro other ho
      rw [get_gsf_tag_value_set_other _ _ _ _ ho, g6]
  | some tok =>
    dsimp only
    rcases hcases with ⟨s', st', h1, h2⟩ | ⟨_, h2⟩
    · simp only [Prod.mk.injEq, Option.some.injEq] at h2
      obtain ⟨h2a, h2b⟩ := h2
      subst h2a
      refine ⟨?_, ?_, ?_, g1, g2, g3, g4, g5, hf⟩
      · intro s st2 hs
        rw [h1] at hs
        simp only [Prod.mk.injEq, Option.some.injEq, token_t.STR.injEq] at hs
        rw [get_gsf_tag_value_set, ← hs.1]
        simp only [token_t.text, assigned_value]
        by_cases he : s' = []
        · simp [he]
        · simp [he]
      · intro hno
        exact absurd h1 (hno s' st')
      · intro other ho
        rw [get_gsf_tag_value_set_other _ _ _ _ ho, g6]
    · simp at h2

/-! ## Lemmas on the matching of the command word -/

theorem int_sub_toNat_eq_zero (a b : Char) :
    ((a.toNat : Int) - (b.toNat : Int) = 0) ↔ a = b := by
  constructor
  · intro h
    have h1 : a.toNat = b.toNat := by omega
    have := congrArg Char.ofNat h1
    rwa [Char.ofNat_toNat, Char.ofNat_toNat] at this
  · intro h
    rw [h]
    omega

theorem char_toNat_ne_zero (a : Char) (h : a ≠ NUL) : a.toNat ≠ 0 := by
  intro h0
  apply h
  have := congrArg Char.ofNat h0
  rwa [Char.ofNat_toNat] at this

/-- The result of `wcscasecmp` is 0 exactly when the two words are equal after
`towlower`, for words of which no character folds to `NUL`. -/
theorem wcscasecmp_eq_zero_iff (lc : Locale) (a : List Char) :
    ∀ b : List Char, (∀ c ∈ a, lc.towlower c ≠ NUL) → (∀ c ∈ b, lc.towlower c ≠ NUL) →
      (wcscasecmp lc a b = 0 ↔ a.map lc.towlower = b.map lc.towlower) := by
  induction a with
  | nil =>
    intro b _ hb
    cases b with
    | nil => simp [wcscasecmp]
    | cons c2 r2 =>
      have h2 := char_toNat_ne_zero _ (hb c2 (List.mem_cons_self _ _))
      simp only [wcscasecmp, List.map_nil, List.map_cons]
      constructor
      · intro h
        omega
      · intro h
        simp at h
  | cons c1 r1 ih =>
    intro b ha hb
    have h1 := ha c1 (List.mem_cons_self _ _)
    cases b with
    | nil =>
      have h1' := char_toNat_ne_zero _ h1
      simp only [wcscasecmp, List.map_nil, List.map_cons]
      constructor
      · intro h
        omega
      · intro h
        simp at h
    | cons c2 r2 =>
      rw [wcscasecmp]
      simp only [List.map_cons, List.cons.injEq]
      by_cases hne : lc.towlower c1 ≠ lc.towlower c2
      · rw [if_pos hne, int_sub_toNat_eq_zero]
        exact ⟨fun h => absurd h hne, fun h => absurd h.1 hne⟩
      · rw [if_neg hne, if_neg h1]
        rw [ih r2 (fun c hc => ha c (List.mem_cons_of_mem _ hc))
          (fun c hc => hb c (List.mem_cons_of_mem _ hc))]
        exact ⟨fun h => ⟨not_not.mp hne, h⟩, fun h => h.2⟩

theorem map_towlower_ascii (lc : Locale) (hstd : lc.ascii_standard) (x : List Char)
    (hx : ∀ c ∈ x, c.toNat < 128) : x.map lc.towlower = x.map c_locale.towlower := by
  apply List.map_congr_left
  intro c hc
  exact (hstd c (hx c hc)).2.2.2

/-- The test of `main` on the command word, for a word that is the command `cmd`
up to case: it compares `cmd` and the name `x` of the branch, both in lowercase. -/
theorem command_test (lc : Locale) (hstd : lc.ascii_standard) (n cmd x : List Char)
    (hcmd : ∀ c ∈ cmd, c.toNat < 128 ∧ c_locale.towlower c ≠ NUL)
    (hx : ∀ c ∈ x, c.toNat < 128 ∧ c_locale.towlower c ≠ NUL)
    (hn : matches_command lc n cmd) :
    wcscasecmp lc n x = 0 ↔ cmd.map c_locale.towlower = x.map c_locale.towlower := by
  have hcmd' := map_towlower_ascii lc hstd cmd (fun c hc => (hcmd c hc).1)
  have hx' := map_towlower_ascii lc hstd x (fun c hc => (hx c hc).1)
  have hxn : ∀ c ∈ x, lc.towlower c ≠ NUL := by
    intro c hc
    rw [(hstd c (hx c hc).1).2.2.2]
    exact (hx c hc).2
  have hnn : ∀ c ∈ n, lc.towlower c ≠ NUL := by
    intro c hc
    have hmem : lc.towlower c ∈ n.map lc.towlower := List.mem_map_of_mem _ hc
    rw [hn, hcmd'] at hmem
    obtain ⟨d, hd, hdc⟩ := List.mem_map.mp hmem
    rw [← hdc]
    exact (hcmd d hd).2
  rw [wcscasecmp_eq_zero_iff lc n x hnn hxn, hn, hcmd', hx']

/-- The commands with a fixed tag name: a word that is one of them up to case
selects the branch that calls `parse_set_gsf_tag` with the tag of the command. -/
theorem main_command_fixed_tag (env : Env) (hstd : env.locale.ascii_standard) (fuel : Nat)
    (st : State) (n cmd tag : List Char) (hmem : (cmd, tag) ∈ fixed_tag_commands)
    (hn : matches_command env.locale n cmd) :
    main_command env fuel st n = .ok (parse_set_gsf_tag env tag st).2 := by
  simp only [fixed_tag_commands, List.mem_cons, Prod.mk.injEq, List.mem_singleton,
    List.not_mem_nil, or_false] at hmem
  rw [main_command]
  rcases hmem with h | h | h | h | h | h | h | h | h | h | h | h
  all_goals
    obtain ⟨hc, ht⟩ := h
    subst hc ht
    repeat rw [if_neg (fun h0 =>
      absurd ((command_test env.locale hstd n _ _ (by decide) (by decide) hn).mp h0)
        (by decide))]
    rw [if_pos ((command_test env.locale hstd n _ _ (by decide) (by decide) hn).mpr
      (by decide))]

/-! ## Lemmas on the optional tags of `MakeMiniGSF` -/

theorem next_tokens_cons (env : Env) (fuel : Nat) (st : State) (tok : token_t)
    (l : List token_t) (h : next_tokens env fuel st = tok :: l) :
    ∃ f st1, fuel = f + 1 ∧ parse_one_token env none st = (some tok, st1) ∧
      next_tokens env f st1 = l := by
  cases fuel with
  | zero => simp [next_tokens] at h
  | succ f =>
    rw [next_tokens] at h
    rcases hp : parse_one_token env none st with ⟨_ | t, st1⟩
    · rw [hp] at h
      simp at h
    · rw [hp] at h
      simp only [List.cons.injEq] at h
      exact ⟨f, st1, rfl, by rw [h.1], h.2⟩

theorem next_tokens_no_string (env : Env) (fuel : Nat) (st : State) (rest : List token_t)
    (h : next_tokens env (fuel + 1) st = rest) (hrest : ∀ s tl, rest ≠ token_t.STR s :: tl) :
    ∀ s st1, parse_one_token env none st ≠ (some (token_t.STR s), st1) := by
  intro s st1 hp
  rw [next_tokens, hp] at h
  exact hrest s _ h.symm

/-- The tokens of the rest of the line depend on the rest of the line only. -/
theorem next_tokens_frame (env : Env) (fuel : Nat) :
    ∀ st st2 : State, st2.line = st.line → next_tokens env fuel st2 = next_tokens env fuel st := by
  induction fuel with
  | zero => intro st st2 _; rfl
  | succ f ih =>
    intro st st2 hl
    obtain ⟨tok, line, msgs, h1, h2, _⟩ := parse_one_token_pair env st st2 hl
    rw [next_tokens, next_tokens, h1, h2]
    cases tok with
    | none => rfl
    | some t =>
      exact congrArg (List.cons t) (ih _ _ rfl)

/-- The nested calls of `parse_set_gsf_tag_optional`: when the rest of the line
starts with the string tokens `ss`, and with no further string token unless every
name has got its string, the tags are set to these strings in the order of the
names, and the other global variables are as before. -/
theorem set_optional_tags_spec (env : Env) (names : List (List Char)) :
    ∀ (ss : List (List Char)) (rest : List token_t) (fuel : Nat) (st : State),
      next_tokens env fuel st = ss.map token_t.STR ++ rest → ss.length ≤ names.length →
      ss.length < fuel → (ss.length < names.length → ∀ s tl, rest ≠ token_t.STR s :: tl) →
      (set_optional_tags env names st).gsf_tag_buf = assign_tags st.gsf_tag_buf names ss ∧
      (set_optional_tags env names st).entry_point = st.entry_point ∧
      (set_optional_tags env names st).filename_template_buf = st.filename_template_buf ∧
      (set_optional_tags env names st).minigsf_offset = st.minigsf_offset ∧
      (set_optional_tags env names st).song_number = st.song_number ∧
      (set_optional_tags env names st).song_id = st.song_id ∧
      (set_optional_tags env names st).files = st.files := by
  induction names with
  | nil =>
    intro ss rest fuel st _ hlen _ _
    have : ss = [] := List.eq_nil_of_length_eq_zero (by simpa using hlen)
    subst this
    exact ⟨rfl, rfl, rfl, rfl, rfl, rfl, rfl⟩
  | cons name names ih =>
    intro ss rest fuel st htok hlen hfuel hrest
    obtain ⟨f, rfl⟩ : ∃ f, fuel = f + 1 := ⟨fuel - 1, by omega⟩
    have hg := parse_one_token_type_globals env none .TOK_STR st
    rcases parse_one_token_type_str env st with ⟨s, st1, hp, hpt⟩ | ⟨hno, hnone⟩
    · rw [hpt] at hg
      obtain ⟨⟨g1, g2, g3, g4, g5, g6⟩, hf⟩ := hg
      simp only at g1 g2 g3 g4 g5 g6 hf
      rw [next_tokens, hp] at htok
      dsimp only at htok
      cases ss with
      | nil =>
        simp only [List.map_nil, List.nil_append] at htok
        exact absurd htok.symm (hrest (by simp) s _)
      | cons s0 ss1 =>
        simp only [List.map_cons, List.cons_append, List.cons.injEq, token_t.STR.injEq] at htok
        obtain ⟨hs, htok1⟩ := htok
        subst hs
        simp only [List.length_cons] at hlen hfuel hrest
        have htok2 : next_tokens env f
            { st1 with gsf_tag_buf := set_gsf_tag st1.gsf_tag_buf name (some s) } =
            ss1.map token_t.STR ++ rest := by
          exact (next_tokens_frame env f st1
            { st1 with gsf_tag_buf := set_gsf_tag st1.gsf_tag_buf name (some s) } rfl).trans
            htok1
        obtain ⟨i1, i2, i3, i4, i5, i6, i7⟩ := ih ss1 rest f _ htok2 (by omega) (by omega)
          (fun h => hrest (by omega))
        have hstep : set_optional_tags env (name :: names) st =
            set_optional_tags env names
              { st1 with gsf_tag_buf := set_gsf_tag st1.gsf_tag_buf name (some s) } := by
          rw [set_optional_tags, parse_set_gsf_tag_optional, hpt]
          rfl
        rw [hstep]
        refine ⟨?_, ?_, ?_, ?_, ?_, ?_, ?_⟩
        · rw [i1, assign_tags]
          dsimp only
          rw [g6]
        · rw [i2]; exact g1
        · rw [i3]; exact g2
        · rw [i4]; exact g3
        · rw [i5]; exact g4
        · rw [i6]; exact g5
        · rw [i7]; exact hf
    · have hstep : set_optional_tags env (name :: names) st =
          (parse_one_token_type env none .TOK_STR st).2 := by
        rw [set_optional_tags, parse_set_gsf_tag_optional]
        generalize parse_one_token_type env none .TOK_STR st = r at hnone ⊢
        obtain ⟨t, s1⟩ := r
        simp only at hnone
        subst hnone
        rfl
      obtain ⟨⟨g1, g2, g3, g4, g5, g6⟩, hf⟩ := hg
      cases ss with
      | nil =>
        rw [hstep]
        exact ⟨by rw [g6]; rfl, g1, g2, g3, g4, g5, hf⟩
      | cons s0 ss1 =>
        simp only [List.map_cons, List.cons_append] at htok
        obtain ⟨f', st1, _, hp, _⟩ := next_tokens_cons env (f + 1) st _ _ htok
        exact absurd hp (hno s0 st1)

theorem assign_tags_other (names : List (List Char)) :
    ∀ (ss : List (List Char)) (store : List gsf_tag_t) (other : List Char),
      other ∉ names.take ss.length →
      get_gsf_tag_value (assign_tags store names ss) other = get_gsf_tag_value store other := by
  induction names with
  | nil => intro ss store other _; rfl
  | cons name names ih =>
    intro ss store other ho
    cases ss with
    | nil => rfl
    | cons s ss1 =>
      rw [List.length_cons, List.take_succ_cons, List.mem_cons, not_or] at ho
      rw [assign_tags, ih ss1 _ other ho.2, get_gsf_tag_value_set_other _ _ _ _ ho.1]

/-- The values after `assign_tags`: every name that is paired with a string holds
this string, or no value when the string is empty. -/
theorem assign_tags_value (names : List (List Char)) :
    ∀ (ss : List (List Char)) (store : List gsf_tag_t), names.Nodup →
      ∀ p ∈ names.zip ss,
        get_gsf_tag_value (assign_tags store names ss) p.1 = assigned_value p.2 := by
  induction names with
  | nil => intro ss store _ p hp; simp at hp
  | cons name names ih =>
    intro ss store hnd p hp
    cases ss with
    | nil => simp at hp
    | cons s ss1 =>
      rw [List.nodup_cons] at hnd
      rw [List.zip_cons_cons, List.mem_cons] at hp
      rw [assign_tags]
      rcases hp with hp | hp
      · rw [hp]
        dsimp only
        rw [assign_tags_other names ss1 _ name
          (fun h => hnd.1 (List.mem_of_mem_take h)), get_gsf_tag_value_set, assigned_value]
        by_cases he : s = []
        · simp [he]
        · simp [he]
      · exact ih ss1 _ hnd.2 p hp

/-- A word that is `MakeMiniGSF` up to case selects the branch of this command. -/
theorem main_command_MakeMiniGSF (env : Env) (hstd : env.locale.ascii_standard) (fuel : Nat)
    (st : State) (n : List Char) (hn : matches_command env.locale n "MakeMiniGSF".toList) :
    main_command env fuel st n = main_MakeMiniGSF env st := by
  rw [main_command]
  repeat rw [if_neg (fun h0 =>
    absurd ((command_test env.locale hstd n _ _ (by decide) (by decide) hn).mp h0)
      (by decide))]
  rw [if_pos ((command_test env.locale hstd n _ _ (by decide) (by decide) hn).mpr
    (by decide))]

/-! ## The claims on the commands -/

/-- Claim C21: the optional tags of `MakeMiniGSF`. When the first word of a line is
`MakeMiniGSF` up to case and the tokens after it are the number `id`, then the
strings `ss`, at most seven, and then, unless there are seven strings, no string
token, `make_minigsf` is run in a state where `song_id` is `id` as an `unsigned`
and the tags `title`, `artist`, `comment`, `length`, `fade`, `volume`, `genre` are
set, in this order, to the strings of `ss` as far as these go: each of these tags
holds its string, or no value when its string is empty, every other tag holds the
value it had, and the other global variables are as before. What follows on the
line has no part in it. The tokens are the first nine that `parse_one_token`
returns; the locale is taken to be the standard one on the ASCII characters. -/
theorem make_minigsf_optional_tags (env : Env) (fuel : Nat) (st st0 : State)
    (line n : List Char) (id : Nat) (ss : List (List Char)) (rest : List token_t)
    (hstd : env.locale.ascii_standard)
    (hword : parse_one_token env (some line) st = (some (token_t.ID n), st0))
    (hn : matches_command env.locale n "MakeMiniGSF".toList)
    (htok : next_tokens env 9 st0 = token_t.NUM id :: (ss.map token_t.STR ++ rest))
    (hk : ss.length ≤ 7) (hrest : ss.length < 7 → ∀ s tl, rest ≠ token_t.STR s :: tl) :
    ∃ st1, main_line env fuel st line = make_minigsf env st1 ∧
      st1.song_id = id % 2 ^ 32 ∧
      st1.gsf_tag_buf = assign_tags st.gsf_tag_buf minigsf_tag_names ss ∧
      (∀ p ∈ minigsf_tag_names.zip ss,
        get_gsf_tag_value st1.gsf_tag_buf p.1 = assigned_value p.2) ∧
      (∀ name, name ∉ minigsf_tag_names.take ss.length →
        get_gsf_tag_value st1.gsf_tag_buf name = get_gsf_tag_value st.gsf_tag_buf name) ∧
      st1.entry_point = st.entry_point ∧
      st1.filename_template_buf = st.filename_template_buf ∧
      st1.minigsf_offset = st.minigsf_offset ∧ st1.song_number = st.song_number ∧
      st1.files = st.files := by
  have hg := parse_one_token_globals env (some line) st
  rw [hword] at hg
  obtain ⟨⟨g1, g2, g3, g4, _, g6⟩, hf⟩ := hg
  simp only at g1 g2 g3 g4 g6 hf
  obtain ⟨f, sta, hf9, hnum, htok1⟩ := next_tokens_cons env 9 st0 _ _ htok
  have hf8 : f = 8 := by omega
  subst hf8
  have hga := parse_one_token_globals env none st0
  rw [hnum] at hga
  obtain ⟨⟨a1, a2, a3, a4, _, a6⟩, haf⟩ := hga
  simp only at a1 a2 a3 a4 a6 haf
  have hnumt : parse_one_token_type env none .TOK_NUM st0 = (some (token_t.NUM id), sta) := by
    rw [parse_one_token_type, hnum]
    dsimp only
    rw [if_neg (by simp [token_t.type])]
  have hline : main_line env fuel st line =
      make_minigsf env
        (set_optional_tags env minigsf_tag_names { sta with song_id := id % 2 ^ 32 }) := by
    rw [main_line, parse_one_token_type, hword]
    dsimp only
    rw [if_neg (by simp [token_t.type])]
    dsimp only [token_t.text]
    rw [main_command_MakeMiniGSF env hstd fuel st0 n hn, main_MakeMiniGSF, hnumt]
    rfl
  have htok2 : next_tokens env 8 { sta with song_id := id % 2 ^ 32 } =
      ss.map token_t.STR ++ rest :=
    (next_tokens_frame env 8 sta { sta with song_id := id % 2 ^ 32 } rfl).trans htok1
  obtain ⟨i1, i2, i3, i4, i5, i6, i7⟩ := set_optional_tags_spec env minigsf_tag_names ss rest 8
    { sta with song_id := id % 2 ^ 32 } htok2 (by simpa [minigsf_tag_names] using hk) (by omega)
    (fun h => hrest (by simpa [minigsf_tag_names] using h))
  have hbuf : (set_optional_tags env minigsf_tag_names
      { sta with song_id := id % 2 ^ 32 }).gsf_tag_buf =
      assign_tags st.gsf_tag_buf minigsf_tag_names ss := by
    rw [i1]
    dsimp only
    rw [a6, g6]
  refine ⟨_, hline, i6, hbuf, ?_, ?_, ?_, ?_, ?_, ?_, ?_⟩
  · intro p hp
    rw [hbuf]
    exact assign_tags_value minigsf_tag_names ss _ (by decide) p hp
  · intro name hname
    rw [hbuf]
    exact assign_tags_other minigsf_tag_names ss _ name hname
  · rw [i2]; dsimp only; rw [a1, g1]
  · rw [i3]; dsimp only; rw [a2, g2]
  · rw [i4]; dsimp only; rw [a3, g3]
  · rw [i5]; dsimp only; rw [a4, g4]
  · rw [i7]; dsimp only; rw [haf, hf]

theorem make_minigsf_optional_tags_witness :
    example_env.locale.ascii_standard ∧
    parse_one_token example_env (some minigsf_tags_line) tagged_state =
      (some (token_t.ID "makeminigsf".toList),
        { tagged_state with line := some (minigsf_tags_line.drop 11) }) ∧
    matches_command example_env.locale "makeminigsf".toList "MakeMiniGSF".toList ∧
    next_tokens example_env 9 { tagged_state with line := some (minigsf_tags_line.drop 11) } =
      token_t.NUM 3 :: (["New".toList, []].map token_t.STR ++
        [token_t.NUM 5, token_t.STR "x".toList]) ∧
    ["New".toList, ([] : List Char)].length ≤ 7 ∧
    (["New".toList, ([] : List Char)].length < 7 →
      ∀ s tl, [token_t.NUM 5, token_t.STR "x".toList] ≠ token_t.STR s :: tl) ∧
    minigsf_tag_names = ["title".toList, "artist".toList, "comment".toList, "length".toList,
      "fade".toList, "volume".toList, "genre".toList] ∧
    (∃ st1, main_line example_env 0 tagged_state minigsf_tags_line = make_minigsf example_env st1 ∧
      st1.song_id = 3 % 2 ^ 32 ∧
      st1.gsf_tag_buf =
        assign_tags tagged_state.gsf_tag_buf minigsf_tag_names ["New".toList, []] ∧
      (∀ p ∈ minigsf_tag_names.zip ["New".toList, []],
        get_gsf_tag_value st1.gsf_tag_buf p.1 = assigned_value p.2) ∧
      (∀ name, name ∉ minigsf_tag_names.take ["New".toList, ([] : List Char)].length →
        get_gsf_tag_value st1.gsf_tag_buf name =
          get_gsf_tag_value tagged_state.gsf_tag_buf name) ∧
      st1.entry_point = tagged_state.entry_point ∧
      st1.filename_template_buf = tagged_state.filename_template_buf ∧
      st1.minigsf_offset = tagged_state.minigsf_offset ∧
      st1.song_number = tagged_state.song_number ∧
      st1.files = tagged_state.files) ∧
    (main_line example_env 0 tagged_state minigsf_tags_line).toOption.map
        (fun st => (st.gsf_tag_buf, st.song_id, st.files)) =
      some ([⟨some "artist".toList, none⟩, ⟨some "title".toList, some "New".toList⟩], 3, []) :=
  ⟨c_locale_ascii_standard, by decide, by unfold matches_command; decide, by decide, by decide,
    fun _ s tl h => by simp at h, by decide,
    make_minigsf_optional_tags example_env 0 tagged_state
      { tagged_state with line := some (minigsf_tags_line.drop 11) } minigsf_tags_line
      "makeminigsf".toList 3 ["New".toList, []] [token_t.NUM 5, token_t.STR "x".toList]
      c_locale_ascii_standard (by decide) (by unfold matches_command; decide) (by decide)
      (by decide) (fun _ s tl h => by simp at h),
    by decide⟩

/-- Claim C22: the tag commands with a fixed name. When the first word of a line
is one of `Title`, `Artist`, `Game`, `Genre`, `Comment`, `Copyright`, `GSFBy`,
`Volume`, `Length`, `Fade`, `Date`, `Year` up to the case of its letters, the line is
run to its end and sets the tag of the command (`year` for `Date` and `Year`, the
name in lowercase for the others): to the string of the next token when this is a
non-empty string, and to no value when no string token follows. The value of every
other tag and the other global variables are as before, and no file is written.
The locale is taken to be the standard one on the ASCII characters. -/
theorem fixed_tag_command_sets_tag (env : Env) (fuel : Nat) (st st0 : State)
    (line n cmd tag : List Char) (hstd : env.locale.ascii_standard)
    (hmem : (cmd, tag) ∈ fixed_tag_commands)
    (hword : parse_one_token env (some line) st = (some (token_t.ID n), st0))
    (hn : matches_command env.locale n cmd) :
    ∃ st', main_line env fuel st line = .ok st' ∧
      (∀ s st1, parse_one_token env none st0 = (some (token_t.STR s), st1) → s ≠ [] →
        get_gsf_tag_value st'.gsf_tag_buf tag = some s) ∧
      ((∀ s st1, parse_one_token env none st0 ≠ (some (token_t.STR s), st1)) →
        get_gsf_tag_value st'.gsf_tag_buf tag = none) ∧
      (∀ other, other ≠ tag →
        get_gsf_tag_value st'.gsf_tag_buf other = get_gsf_tag_value st.gsf_tag_buf other) ∧
      st'.entry_point = st.entry_point ∧
      st'.filename_template_buf = st.filename_template_buf ∧
      st'.minigsf_offset = st.minigsf_offset ∧ st'.song_number = st.song_number ∧
      st'.song_id = st.song_id ∧ st'.files = st.files := by
  have hg := parse_one_token_globals env (some line) st
  rw [hword] at hg
  obtain ⟨⟨g1, g2, g3, g4, g5, g6⟩, hf⟩ := hg
  simp only at g1 g2 g3 g4 g5 g6 hf
  have hline : main_line env fuel st line = .ok (parse_set_gsf_tag env tag st0).2 := by
    rw [main_line, parse_one_token_type, hword]
    dsimp only
    rw [if_neg (by simp [token_t.type])]
    exact main_command_fixed_tag env hstd fuel st0 n cmd tag hmem hn
  obtain ⟨s1, s2, s3, e1, e2, e3, e4, e5, e6⟩ := parse_set_gsf_tag_spec env tag st0
  refine ⟨_, hline, ?_, s2, ?_, ?_, ?_, ?_, ?_, ?_, ?_⟩
  · intro s st1 hs hne
    rw [s1 s st1 hs, assigned_value, if_neg hne]
  · intro other ho
    rw [s3 other ho, g6]
  · rw [e1, g1]
  · rw [e2, g2]
  · rw [e3, g3]
  · rw [e4, g4]
  · rw [e5, g5]
  · rw [e6, hf]

theorem fixed_tag_command_sets_tag_witness :
    example_env.locale.ascii_standard ∧
    ("Title".toList, "title".toList) ∈ fixed_tag_commands ∧
    parse_one_token example_env (some (quoted_line "tItLe" ["Song"])) tagged_state =
      (some (token_t.ID "tItLe".toList),
        { tagged_state with line := some (' ' :: DQUOTE :: "Song".toList ++ [DQUOTE]) }) ∧
    matches_command example_env.locale "tItLe".toList "Title".toList ∧
    (∃ st', main_line example_env 0 tagged_state (quoted_line "tItLe" ["Song"]) = .ok st' ∧
      (∀ s st1, parse_one_token example_env none
          { tagged_state with line := some (' ' :: DQUOTE :: "Song".toList ++ [DQUOTE]) } =
          (some (token_t.STR s), st1) → s ≠ [] →
        get_gsf_tag_value st'.gsf_tag_buf "title".toList = some s) ∧
      ((∀ s st1, parse_one_token example_env none
          { tagged_state with line := some (' ' :: DQUOTE :: "Song".toList ++ [DQUOTE]) } ≠
          (some (token_t.STR s), st1)) →
        get_gsf_tag_value st'.gsf_tag_buf "title".toList = none) ∧
      (∀ other, other ≠ "title".toList →
        get_gsf_tag_value st'.gsf_tag_buf other =
          get_gsf_tag_value tagged_state.gsf_tag_buf other) ∧
      st'.entry_point = tagged_state.entry_point ∧
      st'.filename_template_buf = tagged_state.filename_template_buf ∧
      st'.minigsf_offset = tagged_state.minigsf_offset ∧
      st'.song_number = tagged_state.song_number ∧
      st'.song_id = tagged_state.song_id ∧ st'.files = tagged_state.files) ∧
    (main_line example_env 0 tagged_state (quoted_line "tItLe" ["Song"])).toOption.map
        (fun st => st.gsf_tag_buf) =
      some [⟨some "artist".toList, some "Me".toList⟩,
        ⟨some "title".toList, some "Song".toList⟩] ∧
    (main_line example_env 0 tagged_state "TITLE 5".toList).toOption.map
        (fun st => st.gsf_tag_buf) =
      some [⟨some "artist".toList, some "Me".toList⟩, ⟨some "title".toList, none⟩] ∧
    (main_line example_env 0 tagged_state (quoted_line "Date" ["1999"])).toOption.map
        (fun st => st.gsf_tag_buf) =
      some [⟨some "artist".toList, some "Me".toList⟩,
        ⟨some "title".toList, some "Old".toList⟩,
        ⟨some "year".toList, some "1999".toList⟩] :=
  ⟨c_locale_ascii_standard, by decide, by decide, by unfold matches_command; decide,
    fixed_tag_command_sets_tag example_env 0 tagged_state
      { tagged_state with line := some (' ' :: DQUOTE :: "Song".toList ++ [DQUOTE]) }
      (quoted_line "tItLe" ["Song"]) "tItLe".toList "Title".toList "title".toList
      c_locale_ascii_standard (by decide) (by decide) (by unfold matches_command; decide),
    by decide, by decide, by decide⟩

/-! ## The claims on the ranges -/

/-- Claim C23: a range with the step 0 is refused. When the three numbers of
`MakeMiniGSFRange` are read and the third is 0 as an `unsigned`, the branch
returns with the one message `Invalid step value` added to the log and with
nothing else changed but the rest of the line: `make_minigsf` is not run, no file
is written, and `song_number`, `song_id` and the tag store are as before. -/
theorem range_step_zero (env : Env) (fuel : Nat) (st st1 st2 st3 : State)
    (t1 t2 t3 : token_t)
    (h1 : parse_one_token_type env none .TOK_NUM st = (some t1, st1))
    (h2 : parse_one_token_type env none .TOK_NUM st1 = (some t2, st2))
    (h3 : parse_one_token_type env none .TOK_NUM st2 = (some t3, st3))
    (hstep : t3.number % 2 ^ 32 = 0) :
    main_MakeMiniGSFRange env fuel st =
      .ok { st with line := st3.line, out := st.out ++ [Diag.invalid_step] } := by
  have e1 := parse_one_token_type_some_state env .TOK_NUM st t1 st1 h1
  have e2 := parse_one_token_type_some_state env .TOK_NUM st1 t2 st2 h2
  have e3 := parse_one_token_type_some_state env .TOK_NUM st2 t3 st3 h3
  have e : st3 = { st with line := st3.line } := by
    rw [e3, e2, e1]
  rw [main_MakeMiniGSFRange, h1]
  dsimp only
  rw [h2]
  dsimp only
  rw [h3]
  dsimp only
  rw [minigsf_range, hstep, if_pos (Nat.le_refl 0)]
  conv_lhs => rw [e]

theorem range_step_zero_witness :
    parse_one_token_type example_env none .TOK_NUM
        { initial_state with line := some " 1 5 0".toList } =
      (some (token_t.NUM 1), { initial_state with line := some " 5 0".toList }) ∧
    parse_one_token_type example_env none .TOK_NUM
        { initial_state with line := some " 5 0".toList } =
      (some (token_t.NUM 5), { initial_state with line := some " 0".toList }) ∧
    parse_one_token_type example_env none .TOK_NUM
        { initial_state with line := some " 0".toList } =
      (some (token_t.NUM 0), { initial_state with line := some [] }) ∧
    (token_t.NUM 0).number % 2 ^ 32 = 0 ∧
    main_MakeMiniGSFRange example_env 0 { initial_state with line := some " 1 5 0".toList } =
      .ok { initial_state with line := some [], out := [Diag.invalid_step] } ∧
    (main_loop example_env 0 initial_state (zero_step_script.take 2)).toOption.map
        (fun st => (st.files, st.song_number, st.song_id, st.out)) =
      some ([], 1, 0, []) ∧
    (main_loop example_env 0 initial_state zero_step_script).toOption.map
        (fun st => (st.files, st.song_number, st.song_id, st.out)) =
      some ([], 1, 0, [Diag.invalid_step]) :=
  ⟨by decide, by decide, by decide, by decide,
    range_step_zero example_env 0 { initial_state with line := some " 1 5 0".toList }
      { initial_state with line := some " 5 0".toList }
      { initial_state with line := some " 0".toList }
      { initial_state with line := some [] }
      (token_t.NUM 1) (token_t.NUM 5) (token_t.NUM 0) (by decide) (by decide) (by decide)
      (by decide),
    by decide, by decide⟩

/-- Claim C25 fails on the code at `MakeMiniGSFRange 4294967295 4294967295`, with
the step 1: the claim gives one run of `make_minigsf` at the most, but `song_id += 1`
wraps around to 0, the test `song_id <= end` holds for every `unsigned`, and the
loop has no final state whatever the fuel. With the three lines of fuel 3 the run
ends for want of fuel, after the mini-files of the ids 4294967295, 0 and 1. The
range from 5 to 5 with the step 4294967295 ends, after six runs and not one. -/
theorem minigsf_range_never_ends :
    (4294967295 - 4294967295) / 1 + 1 = 1 ∧
    (∀ fuel : Nat, (main_loop example_env fuel initial_state endless_script).toOption = none) ∧
    (match main_loop example_env 3 initial_state endless_script with
      | .error e => some e
      | .ok _ => none) = some Stop.out_of_fuel ∧
    (5 - 5) / 4294967295 + 1 = 1 ∧
    (main_loop example_env 10 initial_state range_script).toOption.map
        (fun st => st.files.length) = some 6 := by
  refine ⟨by decide, ?_, by decide, by decide, by decide⟩
  intro fuel
  have h1 : main_line example_env fuel initial_state (quoted_line "GSFLib" ["a.gsflib"]) =
      .ok { initial_state with
        line := some [],
        gsf_tag_buf := [⟨some "_lib".toList, some "a.gsflib".toList⟩] } := by
    have hp : parse_one_token_type example_env (some (quoted_line "GSFLib" ["a.gsflib"]))
        .TOK_ID initial_state =
        (some (token_t.ID "GSFLib".toList),
          { initial_state with line := some (' ' :: DQUOTE :: "a.gsflib".toList ++ [DQUOTE]) }) := by
      decide
    rw [main_line, hp]
    dsimp only
    rw [main_command, if_neg (by decide), if_neg (by decide), if_pos (by decide)]
    exact congrArg Except.ok (by decide)
  have h2 : main_line example_env fuel
      { initial_state with
        line := some [],
        gsf_tag_buf := [⟨some "_lib".toList, some "a.gsflib".toList⟩] }
      (quoted_line "FilenameTemplate" ["%i"]) =
      .ok { initial_state with
        line := some [],
        filename_template_buf := some "%i".toList,
        gsf_tag_buf := [⟨some "_lib".toList, some "a.gsflib".toList⟩] } := by
    have hp : parse_one_token_type example_env (some (quoted_line "FilenameTemplate" ["%i"]))
        .TOK_ID { initial_state with
          line := some [],
          gsf_tag_buf := [⟨some "_lib".toList, some "a.gsflib".toList⟩] } =
        (some (token_t.ID "FilenameTemplate".toList),
          { initial_state with
            line := some (' ' :: DQUOTE :: "%i".toList ++ [DQUOTE]),
            gsf_tag_buf := [⟨some "_lib".toList, some "a.gsflib".toList⟩] }) := by
      decide
    rw [main_line, hp]
    dsimp only
    rw [main_command]
    iterate 16 rw [if_neg (by decide)]
    rw [if_pos (by decide)]
    exact congrArg Except.ok (by decide)
  have h3 : main_line example_env fuel
      { initial_state with
        line := some [],
        filename_template_buf := some "%i".toList,
        gsf_tag_buf := [⟨some "_lib".toList, some "a.gsflib".toList⟩] }
      "MakeMiniGSFRange 4294967295 4294967295".toList =
      minigsf_range_loop example_env fuel
        { initial_state with
          line := none,
          filename_template_buf := some "%i".toList,
          song_id := 4294967295,
          gsf_tag_buf := [⟨some "_lib".toList, some "a.gsflib".toList⟩] }
        (2 ^ 32 - 1) 1 := by
    have hp : parse_one_token_type example_env
        (some "MakeMiniGSFRange 4294967295 4294967295".toList) .TOK_ID
        { initial_state with
          line := some [],
          filename_template_buf := some "%i".toList,
          gsf_tag_buf := [⟨some "_lib".toList, some "a.gsflib".toList⟩] } =
        (some (token_t.ID "MakeMiniGSFRange".toList),
          { initial_state with
            line := some " 4294967295 4294967295".toList,
            filename_template_buf := some "%i".toList,
            gsf_tag_buf := [⟨some "_lib".toList, some "a.gsflib".toList⟩] }) := by
      decide
    have hp1 : parse_one_token_type example_env none .TOK_NUM
        { initial_state with
          line := some " 4294967295 4294967295".toList,
          filename_template_buf := some "%i".toList,
          gsf_tag_buf := [⟨some "_lib".toList, some "a.gsflib".toList⟩] } =
        (some (token_t.NUM 4294967295),
          { initial_state with
            line := some " 4294967295".toList,
            filename_template_buf := some "%i".toList,
            gsf_tag_buf := [⟨some "_lib".toList, some "a.gsflib".toList⟩] }) := by
      decide
    have hp2 : parse_one_token_type example_env none .TOK_NUM
        { initial_state with
          line := some " 4294967295".toList,
          filename_template_buf := some "%i".toList,
          gsf_tag_buf := [⟨some "_lib".toList, some "a.gsflib".toList⟩] } =
        (some (token_t.NUM 4294967295),
          { initial_state with
            line := some [],
            filename_template_buf := some "%i".toList,
            gsf_tag_buf := [⟨some "_lib".toList, some "a.gsflib".toList⟩] }) := by
      decide
    have hp3 : parse_one_token_type example_env none .TOK_NUM
        { initial_state with
          line := some [],
          filename_template_buf := some "%i".toList,
          gsf_tag_buf := [⟨some "_lib".toList, some "a.gsflib".toList⟩] } =
        (none,
          { initial_state with
            line := none,
            filename_template_buf := some "%i".toList,
            gsf_tag_buf := [⟨some "_lib".toList, some "a.gsflib".toList⟩] }) := by
      decide
    rw [main_line, hp]
    dsimp only
    rw [main_command]
    iterate 20 rw [if_neg (by decide)]
    rw [if_pos (by decide), main_MakeMiniGSFRange]
    simp only [token_t.text]
    rw [hp1]
    dsimp only
    rw [hp2]
    dsimp only
    rw [hp3]
    dsimp only
    rw [minigsf_range, if_neg (by decide)]
    rfl
  have he := minigsf_range_loop_endless example_env 1 fuel
    { initial_state with
      line := none,
      filename_template_buf := some "%i".toList,
      song_id := 4294967295,
      gsf_tag_buf := [⟨some "_lib".toList, some "a.gsflib".toList⟩] } (by decide)
  rw [endless_script, main_loop, h1]
  dsimp only
  rw [main_loop, h2]
  dsimp only
  rw [main_loop, h3]
  generalize minigsf_range_loop example_env fuel _ (2 ^ 32 - 1) 1 = r at he ⊢
  cases r with
  | error e => rfl
  | ok st => simp [Except.toOption] at he

/-! ## The claim on the capacity of a buffer -/

/-- Claim C24, as stated for all inputs, fails.  On the buffer `DEFAULT_BUFFER_T`,
of capacity 0, and for the size 1 the doubling loop of `expand_buffer` has no
end, whatever the fuel, so that `expand_buffer` and `append_buffer` have no
result, and neither has `set_buffer` on an allocated buffer of capacity 0; and
from the capacity `0x200` the loop has no end for the size `2^63 + 1`. -/
theorem expand_buffer_zero_capacity :
    (∀ fuel : Nat, expand_max fuel 0 1 = none) ∧
    expand_buffer DEFAULT_BUFFER_T 1 = none ∧
    append_buffer DEFAULT_BUFFER_T [7] 1 = none ∧
    set_buffer ⟨some [], 0, 0⟩ [7] 1 = none ∧
    (∀ fuel : Nat, expand_max fuel 0x200 (2 ^ 63 + 1) = none) := by
  refine ⟨expand_max_zero 1 (by decide), by decide, by decide, by decide, ?_⟩
  iterate 55
    refine expand_max_none_of_step _ _ (by norm_num) ?_
    norm_num
  exact expand_max_zero _ (by norm_num)

/-- Claim C24, amended, with `malloc` and `realloc` succeeding as they do
throughout the model.  On a buffer of positive capacity and for a size `n` of at
most `2^63`, `expand_buffer` returns, and afterwards the capacity is at least
`n`, at least the previous capacity and equal to the previous capacity
multiplied by a power of two, and the stored size is unchanged.  On a buffer
that is new or of positive capacity and for a size of at most `2^63`,
`set_buffer` returns with this size stored and the stored size at most the
capacity.  On a buffer of positive capacity and when the stored size and `size`
add up to at most `2^63`, `append_buffer` returns with the sum stored and the
stored size at most the capacity. -/
theorem expand_buffer_grows (buf : buffer_t) (data : List Nat) (n size : Nat) :
    (0 < buf.max → n ≤ 2 ^ 63 →
      ∃ b k, expand_buffer buf n = some b ∧ n ≤ b.max ∧ buf.max ≤ b.max ∧
        b.max = buf.max * 2 ^ k ∧ b.size = buf.size) ∧
    (buf.data = none ∨ 0 < buf.max → size ≤ 2 ^ 63 →
      ∃ b, set_buffer buf data size = some b ∧ b.size = size ∧ b.size ≤ b.max) ∧
    (0 < buf.max → buf.size + size ≤ 2 ^ 63 →
      ∃ b, append_buffer buf data size = some b ∧ b.size = buf.size + size ∧
        b.size ≤ b.max) :=
  ⟨fun hmax hn => expand_buffer_spec buf n hmax hn,
    fun hbuf hsize => set_buffer_spec buf data size hbuf hsize,
    fun hmax happ => append_buffer_spec buf data size hmax happ⟩

theorem expand_buffer_grows_witness :
    0 < (⟨some [1, 2, 3, 0], 3, 4⟩ : buffer_t).max ∧ 9 ≤ 2 ^ 63 ∧ 2 ≤ 2 ^ 63 ∧
    (⟨some [1, 2, 3, 0], 3, 4⟩ : buffer_t).size + 2 ≤ 2 ^ 63 ∧
    expand_buffer ⟨some [1, 2, 3, 0], 3, 4⟩ 9 =
      some ⟨some [1, 2, 3, 0, 0, 0, 0, 0, 0, 0, 0, 0, 0, 0, 0, 0], 3, 16⟩ ∧
    set_buffer ⟨some [1, 2, 3, 0], 3, 4⟩ [8, 9] 2 = some ⟨some [8, 9, 3, 0], 2, 4⟩ ∧
    append_buffer ⟨some [1, 2, 3, 0], 3, 4⟩ [8, 9] 2 =
      some ⟨some [1, 2, 3, 8, 9, 0, 0, 0], 5, 8⟩ ∧
    (∃ b k, expand_buffer ⟨some [1, 2, 3, 0], 3, 4⟩ 9 = some b ∧ 9 ≤ b.max ∧
      (⟨some [1, 2, 3, 0], 3, 4⟩ : buffer_t).max ≤ b.max ∧
      b.max = (⟨some [1, 2, 3, 0], 3, 4⟩ : buffer_t).max * 2 ^ k ∧
      b.size = (⟨some [1, 2, 3, 0], 3, 4⟩ : buffer_t).size) ∧
    (∃ b, set_buffer ⟨some [1, 2, 3, 0], 3, 4⟩ [8, 9] 2 = some b ∧ b.size = 2 ∧
      b.size ≤ b.max) ∧
    (∃ b, append_buffer ⟨some [1, 2, 3, 0], 3, 4⟩ [8, 9] 2 = some b ∧
      b.size = (⟨some [1, 2, 3, 0], 3, 4⟩ : buffer_t).size + 2 ∧ b.size ≤ b.max) ∧
    DEFAULT_BUFFER_T.data = none ∧
    set_buffer DEFAULT_BUFFER_T [8, 9] 2 = some ⟨some [8, 9], 2, 2⟩ ∧
    (∃ b, set_buffer DEFAULT_BUFFER_T [8, 9] 2 = some b ∧ b.size = 2 ∧ b.size ≤ b.max) :=
  ⟨by decide, by decide, by decide, by decide, by decide, by decide, by decide,
    (expand_buffer_grows ⟨some [1, 2, 3, 0], 3, 4⟩ [8, 9] 9 2).1 (by decide) (by decide),
    (expand_buffer_grows ⟨some [1, 2, 3, 0], 3, 4⟩ [8, 9] 9 2).2.1 (Or.inr (by decide))
      (by decide),
    (expand_buffer_grows ⟨some [1, 2, 3, 0], 3, 4⟩ [8, 9] 9 2).2.2 (by decide) (by decide),
    rfl, by decide,
    (expand_buffer_grows DEFAULT_BUFFER_T [8, 9] 9 2).2.1 (Or.inl rfl) (by decide)⟩

end MakeGSF
